import Mathlib

/-!
# Nuklei pose estimator: a shallow embedding

The definitions below follow `src/libnuklei/kernel/PoseEstimator.cpp`; the last
sections follow `Definitions.cpp`, `ObservationIO.cpp`, `LinearAlgebra.cpp` and the
block `make_r3xs2p` of `convert.cpp`.

Conventions of the embedding

* C++ `double` (`coord_t`, `weight_t`) is read as exact rational arithmetic (`ℚ`), a
  decimal literal as the rational it writes; the libm functions `std::pow` and
  `std::sqrt` are fields of the environment. Where the code divides by a number that
  can be zero on a run of the chain (the acceptance ratio `dec` of the step), the
  quotient, the power and the product are those of `double`, with infinities and "not a
  number" (`Double`).
* `int`, `unsigned` and `size_t` are read as unbounded integers: the counts and sizes
  of the code are taken to stay within their machine range.
* The global random generator `Random` is an explicit generator state `ρ` that every
  drawing operation consumes and returns.
* `NUKLEI_THROW(msg)` and a failed `.at()` are `Except.error`.
* Operations of `KernelCollection` and of the kernels whose code is not part of the
  sources (`evaluationAt`, `partialView`, `polySe3Proj`, ...) are fields of `Env`.
  Operations that only refresh cached indices (`computeKernelStatistics`,
  `buildKdTree`, `buildNeighborSearchTree`, `buildPartialViewCache`) have no effect on
  the represented data and are left out.
-/

deriving instance DecidableEq for Except

namespace nuklei

/-- Type `coord_t` of the sources, in exact arithmetic. -/
abbrev coord_t := ℚ

/-- Type `weight_t` of the sources, in exact arithmetic. -/
abbrev weight_t := ℚ

/-- Three-dimensional vector. -/
structure Vector3 where
  x : coord_t
  y : coord_t
  z : coord_t
deriving DecidableEq

/-- Difference of two vectors, `operator-` of `Vector3`. -/
def Vector3.sub (a b : Vector3) : Vector3 := ⟨a.x - b.x, a.y - b.y, a.z - b.z⟩

/-- Quaternion, scalar first. -/
structure Quaternion where
  w : coord_t
  x : coord_t
  y : coord_t
  z : coord_t
deriving DecidableEq

namespace kernel

/-- Dynamic type tag of a kernel, `kernel::base::Type`. -/
inductive KernelType where
  | R3
  | R3XS2
  | R3XS2P
  | SE3
deriving DecidableEq

/-- A kernel seen through `kernel::base`: the dynamic type, the location, the
orientation (a direction for the `R3XS2` kinds, unused for `R3`), the weight and the
two bandwidths. -/
structure base where
  polyType : KernelType
  loc_ : Vector3
  ori_ : Quaternion
  w_ : weight_t
  loc_h_ : coord_t
  ori_h_ : coord_t
deriving DecidableEq

/-- An SE(3) kernel, `kernel::se3`: a pose with weight and bandwidths. -/
structure se3 where
  loc_ : Vector3
  ori_ : Quaternion
  w_ : weight_t
  loc_h_ : coord_t
  ori_h_ : coord_t
deriving DecidableEq

/-- Method `setWeight`. -/
def se3.setWeight (k : se3) (w : weight_t) : se3 := { k with w_ := w }

/-- Method `getWeight`. -/
def se3.getWeight (k : se3) : weight_t := k.w_

/-- Method `setLocH`. -/
def se3.setLocH (k : se3) (h : coord_t) : se3 := { k with loc_h_ := h }

/-- Method `setOriH`. -/
def se3.setOriH (k : se3) (h : coord_t) : se3 := { k with ori_h_ := h }

end kernel

/-- Triangle mesh attached to a collection: vertex index triples. -/
abbrev Mesh := List (Nat × Nat × Nat)

/-- A kernel collection: the ordered kernels and the optional mesh. -/
structure KernelCollection where
  kernels : List kernel.base
  mesh : Option Mesh
deriving DecidableEq

namespace KernelCollection

/-- The empty collection, `KernelCollection()`. -/
def empty : KernelCollection := ⟨[], none⟩

/-- Method `size`. -/
def size (kc : KernelCollection) : Nat := kc.kernels.length

/-- Method `at`, which throws on an index out of range. -/
def «at» (kc : KernelCollection) (i : Nat) : Except String kernel.base :=
  match kc.kernels.get? i with
  | some k => .ok k
  | none => .error "out_of_range"

/-- Method `front`; the sources call it on non-empty collections only. -/
def front (kc : KernelCollection) : Except String kernel.base :=
  match kc.kernels with
  | k :: _ => .ok k
  | [] => .error "front() on an empty collection"

/-- Method `setKernelLocH`: the same location bandwidth on every kernel. -/
def setKernelLocH (kc : KernelCollection) (h : coord_t) : KernelCollection :=
  { kc with kernels := kc.kernels.map (fun k => { k with loc_h_ := h }) }

/-- Method `setKernelOriH`: the same orientation bandwidth on every kernel. -/
def setKernelOriH (kc : KernelCollection) (h : coord_t) : KernelCollection :=
  { kc with kernels := kc.kernels.map (fun k => { k with ori_h_ := h }) }

end KernelCollection

/-- Evaluation strategies of `KernelCollection::evaluationAt`. -/
inductive EvaluationStrategy where
  | MAX_EVAL
  | WEIGHTED_SUM_EVAL
deriving DecidableEq

/-- Capability set of a `CustomIntegrandFactor`. -/
structure CustomIntegrandFactor where
  factor : kernel.se3 → weight_t
  test : kernel.se3 → Bool

/-- Everything the estimator calls whose code is outside the sources, over a random
generator state `ρ`. -/
structure Env (ρ : Type) where
  /-- Draw `Random::uniform()`. -/
  uniform : ρ → ℚ × ρ
  /-- Draw `Random::uniformInt(n)`. -/
  uniformInt : Nat → ρ → Nat × ρ
  /-- Call `std::random_shuffle(first, last, Random::uniformInt)`. -/
  random_shuffle : List Nat → ρ → List Nat × ρ
  /-- Function `std::pow`. -/
  pow : ℚ → ℚ → ℚ
  /-- Function `std::sqrt`. -/
  sqrt : ℚ → ℚ
  /-- Constant `WHITE_NOISE_POWER`. -/
  WHITE_NOISE_POWER : weight_t
  /-- Constant `WEIGHTED_SUM_EVIDENCE_EVAL`. -/
  WEIGHTED_SUM_EVIDENCE_EVAL : Bool
  /-- Default-constructed `kernel::se3`. -/
  se3_default : kernel.se3
  /-- Method `polyTransformedWith` of a kernel. -/
  polyTransformedWith : kernel.base → kernel.se3 → kernel.base
  /-- Method `polySe3Proj` of a kernel. -/
  polySe3Proj : kernel.base → kernel.se3
  /-- Method `transformationFrom`: the first argument is the receiver. -/
  transformationFrom : kernel.se3 → kernel.se3 → kernel.se3
  /-- Method `se3::sample`. -/
  sample : kernel.se3 → ρ → kernel.se3 × ρ
  /-- Location of an `r3` kernel at the given point after `transformedWith`. -/
  r3TransformedLoc : Vector3 → kernel.se3 → Vector3
  /-- Function `la::normalized`. -/
  normalized : Vector3 → Vector3
  /-- Method `computeSurfaceNormals`: the kernels that replace the given ones. -/
  computeSurfaceNormals : KernelCollection → Except String KernelCollection
  /-- Indices visited by the sample iterator `sampleBegin(n)`. -/
  sampleBegin : KernelCollection → Int → ρ → List Nat × ρ
  /-- Method `moments`. -/
  moments : KernelCollection → kernel.base
  /-- Method `mean`. -/
  mean : KernelCollection → kernel.base
  /-- Method `evaluationAt`. -/
  evaluationAt : KernelCollection → kernel.base → EvaluationStrategy → weight_t
  /-- Method `isVisibleFrom` for an `r3xs2p` kernel. -/
  isVisibleFromR3xs2p : KernelCollection → kernel.base → Vector3 → coord_t → Bool
  /-- Method `isVisibleFrom` for a location. -/
  isVisibleFromLoc : KernelCollection → Vector3 → Vector3 → coord_t → Bool
  /-- Method `partialView(v, tol, useCache, useRayToSurfaceNormalAngle)`. -/
  partialView : KernelCollection → Vector3 → coord_t → Bool → Bool → List Nat
  /-- Mesh read by the method `readMeshFromOffFile`. -/
  readMeshFromOffFile : String → Except String Mesh
  /-- Mesh built by the method `buildMesh` from the kernels of the collection. -/
  buildMesh : KernelCollection → Except String Mesh

/-- A value of type `double` that need not be finite: a finite number, an infinity or
"not a number". The model has one zero, read as `+0.0`: the weights of the code are
sums that start from `+0.0` and quotients of such sums by positive numbers. -/
inductive Double where
  | finite (v : ℚ)
  | posInf
  | negInf
  | nan
deriving DecidableEq

namespace Double

/-- Quotient `a / b` of two finite numbers (IEEE 754): a quotient by zero is an infinity
with the sign of `a`, and `0 / 0` is not a number. -/
def div (a b : ℚ) : Double :=
  if b = 0 then
    if 0 < a then posInf else if a < 0 then negInf else nan
  else finite (a / b)

/-- An infinity by its sign. -/
def infOfSign (positive : Bool) : Double := if positive = true then posInf else negInf

/-- Product (IEEE 754): not a number when a factor is, and for zero times an infinity;
an infinity with the product of the signs when a factor is infinite. -/
def mul : Double → Double → Double
  | finite a, finite b => finite (a * b)
  | nan, _ => nan
  | _, nan => nan
  | finite a, posInf => if a = 0 then nan else infOfSign (decide (0 < a))
  | finite a, negInf => if a = 0 then nan else infOfSign (decide (a < 0))
  | posInf, finite b => if b = 0 then nan else infOfSign (decide (0 < b))
  | negInf, finite b => if b = 0 then nan else infOfSign (decide (b < 0))
  | posInf, posInf => posInf
  | posInf, negInf => negInf
  | negInf, posInf => negInf
  | negInf, negInf => posInf

/-- The number is an odd integer. -/
def isOddInteger (w : ℚ) : Bool := decide (w = ⌊w⌋ ∧ ⌊w⌋ % 2 = 1)

/-- Function `std::pow` on values that need not be finite, after C99 Annex F.9.4.4. For
finite arguments: a zero base with a negative exponent gives `+inf`, a negative base
with an exponent that is not an integer is not a number, and in all other cases the
value is the one of the function `p` of the environment. For an argument that is not
finite: an exponent zero gives 1 and a base 1 gives 1 whatever the other argument;
an infinite exponent gives 0, 1 or `+inf` as the absolute value of the base is below,
equal to or above 1; an infinite base gives 0 for a negative exponent and an infinity
for a positive one, negative only for the base `-inf` with an odd integer exponent; the
rest is not a number. -/
def pow (p : ℚ → ℚ → ℚ) : Double → Double → Double
  | finite v, finite w =>
    if v = 0 ∧ w < 0 then posInf
    else if v < 0 ∧ w ≠ ⌊w⌋ then nan
    else finite (p v w)
  | finite v, posInf =>
    if |v| < 1 then finite 0 else if |v| = 1 then finite 1 else posInf
  | finite v, negInf =>
    if |v| < 1 then posInf else if |v| = 1 then finite 1 else finite 0
  | finite v, nan => if v = 1 then finite 1 else nan
  | posInf, finite w => if w = 0 then finite 1 else if w < 0 then finite 0 else posInf
  | negInf, finite w =>
    if w = 0 then finite 1 else if w < 0 then finite 0
    else if isOddInteger w = true then negInf else posInf
  | posInf, posInf => posInf
  | negInf, posInf => posInf
  | posInf, negInf => finite 0
  | negInf, negInf => finite 0
  | posInf, nan => nan
  | negInf, nan => nan
  | nan, finite w => if w = 0 then finite 1 else nan
  | nan, posInf => nan
  | nan, negInf => nan
  | nan, nan => nan

/-- Comparison `d < b` with a finite number: false when `d` is not a number. -/
def lt (d : Double) (b : ℚ) : Bool :=
  match d with
  | finite v => decide (v < b)
  | negInf => true
  | posInf => false
  | nan => false

/-- Comparison `d > b` with a finite number: false when `d` is not a number. -/
def gt (d : Double) (b : ℚ) : Bool :=
  match d with
  | finite v => decide (v > b)
  | posInf => true
  | negInf => false
  | nan => false

end Double

/-- Sequential application of a function that may throw: the results in order, or the
first error. -/
def mapExcept {α β : Type} (f : α → Except String β) : List α → Except String (List β)
  | [] => .ok []
  | a :: l =>
    match f a with
    | .error e => .error e
    | .ok b =>
      match mapExcept f l with
      | .error e => .error e
      | .ok bs => .ok (b :: bs)

/-- State of a `PoseEstimator`. -/
structure PoseEstimator where
  evaluationStrategy_ : EvaluationStrategy
  loc_h_ : coord_t
  ori_h_ : coord_t
  nChains_ : Int
  n_ : Int
  cif_ : Option CustomIntegrandFactor
  partialview_ : Bool
  progress_ : Bool
  meshTol_ : coord_t
  objectModel_ : KernelCollection
  sceneModel_ : KernelCollection
  viewpoint_ : Vector3
  objectSize_ : coord_t

namespace PoseEstimator

/-- Constructor `PoseEstimator::PoseEstimator`. -/
def create (locH oriH : coord_t) (nChains n : Int) (cif : Option CustomIntegrandFactor)
    (partialview progress : Bool) : PoseEstimator :=
  { evaluationStrategy_ := EvaluationStrategy.MAX_EVAL
    loc_h_ := locH
    ori_h_ := oriH
    nChains_ := if nChains ≤ 0 then 8 else nChains
    n_ := n
    cif_ := cif
    partialview_ := partialview
    progress_ := progress
    meshTol_ := 4
    objectModel_ := KernelCollection.empty
    sceneModel_ := KernelCollection.empty
    viewpoint_ := ⟨0, 0, 0⟩
    objectSize_ := 0 }

/-- The normals step of `load` (lines 195-211): a collection whose first kernel is of
type `R3` gets its surface normals computed when `computeNormals` is set. -/
def loadNormals {ρ : Type} (E : Env ρ) (kc : KernelCollection) (computeNormals : Bool) :
    Except String KernelCollection := do
  let f ← kc.front
  if f.polyType = kernel.KernelType.R3 ∧ computeNormals = true then
    E.computeSurfaceNormals kc
  else
    pure kc

/-- The scene subsampling of `load` (lines 216-227). -/
def loadSubsample {ρ : Type} (E : Env ρ) (scene : KernelCollection) (light : Bool) (g : ρ) :
    Except String (KernelCollection × ρ) :=
  if light = true ∧ scene.size > 10000 then do
    let (idx, g1) := E.sampleBegin scene 10000 g
    let ks ← mapExcept (fun i => scene.at i) idx
    pure (⟨ks, none⟩, g1)
  else
    pure (scene, g)

/-- Method `PoseEstimator::load` on two collections (lines 180-256). -/
def load {ρ : Type} (E : Env ρ) (pe : PoseEstimator) (objectModel sceneModel : KernelCollection)
    (meshfile : String) (viewpoint : Vector3) (light computeNormals : Bool) (g : ρ) :
    Except String (PoseEstimator × ρ) :=
  if objectModel.size = 0 ∨ sceneModel.size = 0 then
    .error "Empty input cloud."
  else do
    let object1 ← loadNormals E objectModel computeNormals
    let scene1 ← loadNormals E sceneModel computeNormals
    let fo ← object1.front
    let fs ← scene1.front
    if fo.polyType ≠ fs.polyType then
      .error "Input point clouds must be defined on the same domain."
    else do
      let (scene2, g1) ← loadSubsample E scene1 light g
      let objectSize := (E.moments object1).loc_h_
      let loc_h := if pe.loc_h_ ≤ 0 then objectSize / 10 else pe.loc_h_
      let scene3 := (scene2.setKernelLocH loc_h).setKernelOriH pe.ori_h_
      let object3 := (object1.setKernelLocH loc_h).setKernelOriH pe.ori_h_
      let object4 ←
        if pe.partialview_ = true then do
          let mesh ← (if meshfile ≠ "" then E.readMeshFromOffFile meshfile
            else E.buildMesh object3)
          pure { object3 with mesh := some mesh }
        else pure object3
      pure ({ pe with
                objectModel_ := object4
                sceneModel_ := scene3
                viewpoint_ := viewpoint
                objectSize_ := objectSize
                loc_h_ := loc_h }, g1)

/-- Method `KernelCollection::transformWith`: every kernel is transformed. -/
def transformWith {ρ : Type} (E : Env ρ) (kc : KernelCollection) (t : kernel.se3) :
    KernelCollection :=
  { kc with kernels := kc.kernels.map (fun k => E.polyTransformedWith k t) }

/-- Value of `cif_ ? cif_->factor(pose) : 1.`. -/
def cifFactor (pe : PoseEstimator) (pose : kernel.se3) : weight_t :=
  match pe.cif_ with
  | some c => c.factor pose
  | none => 1

/-- Value of `cif_ && !cif_->test(pose)`. -/
def cifRejects (pe : PoseEstimator) (pose : kernel.se3) : Bool :=
  match pe.cif_ with
  | some c => !(c.test pose)
  | none => false

/-- Method `PoseEstimator::viewpointInFrame` (lines 499-506). -/
def viewpointInFrame {ρ : Type} (E : Env ρ) (pe : PoseEstimator) (frame : kernel.se3) : Vector3 :=
  let origin := E.se3_default
  let invt := E.transformationFrom origin frame
  E.r3TransformedLoc pe.viewpoint_ invt

/-- Modelled from the spec: the iterator `partialViewBegin(viewpoint, tol, useCache,
useRayToSurfaceNormalAngle)` is not part of the sources. It visits the kernels of the
collection at the indices of the partial view from the viewpoint. -/
def partialViewBegin {ρ : Type} (E : Env ρ) (kc : KernelCollection) (viewpoint : Vector3)
    (tol : coord_t) (useCache useAngle : Bool) : List kernel.base :=
  (E.partialView kc viewpoint tol useCache useAngle).filterMap (fun i => kc.kernels.get? i)

/-- Method `PoseEstimator::findMatchingScore` (lines 102-155). -/
def findMatchingScore {ρ : Type} (E : Env ρ) (pe : PoseEstimator) (pose : kernel.se3) : weight_t :=
  let t := pose
  if pe.partialview_ = false then
    let tmp := transformWith E pe.objectModel_ t
    let w1 := pe.objectModel_.kernels.foldl
      (fun w i => w + E.evaluationAt pe.sceneModel_ (E.polyTransformedWith i t)
        pe.evaluationStrategy_) 0
    let _w2 := pe.sceneModel_.kernels.foldl
      (fun w i => w + E.evaluationAt tmp i pe.evaluationStrategy_) 0
    let t := t.setWeight (w1 / pe.objectModel_.size * cifFactor pe pose)
    t.getWeight
  else
    let viewIterator := partialViewBegin E pe.objectModel_ (viewpointInFrame E pe t)
      pe.meshTol_ false true
    let t := viewIterator.foldl
      (fun (t : kernel.se3) i =>
        let w := E.evaluationAt pe.sceneModel_ (E.polyTransformedWith i t) pe.evaluationStrategy_
        t.setWeight (t.getWeight + w)) t
    let t := t.setWeight
      (t.getWeight / E.pow (viewIterator.length : ℚ) (7 / 10) * cifFactor pe pose)
    let t := if cifRejects pe t = true then t.setWeight 0 else t
    t.getWeight

/-- The score that the description of the partial-view mode gives: the sum of the scene
density at the transformed visible object points, divided by `visibleCount^0.7`, times
the custom factor, and zero when the custom test rejects the pose. -/
def describedPartialScore {ρ : Type} (E : Env ρ) (pe : PoseEstimator) (pose : kernel.se3) :
    weight_t :=
  let visible := partialViewBegin E pe.objectModel_
    (viewpointInFrame E pe pose) pe.meshTol_ false true
  let total := (visible.map (fun o =>
    E.evaluationAt pe.sceneModel_ (E.polyTransformedWith o pose) pe.evaluationStrategy_)).sum
  if cifRejects pe pose = true then 0
  else total / E.pow (visible.length : ℚ) (7 / 10) * cifFactor pe pose

/-- Function `PoseEstimator::Ti`, the temperature (lines 260-268). -/
def Ti {ρ : Type} (E : Env ρ) (i F : Nat) : ℚ :=
  let T0 : ℚ := 1 / 2
  let TF : ℚ := 1 / 20
  max (T0 * E.pow (TF / T0) ((i : ℚ) / (F : ℚ))) TF

/-- Method `PoseEstimator::recomputeIndices` (lines 270-286): the returned flag, the new
content of `indices` (assigned also when the flag is false) and the generator. -/
def recomputeIndices {ρ : Type} (E : Env ρ) (pe : PoseEstimator) (nextPose : kernel.se3)
    (n : Int) (g : ρ) : Bool × List Nat × ρ :=
  let mean := (E.mean pe.objectModel_).loc_
  let v := E.normalized ((viewpointInFrame E pe nextPose).sub mean)
  let indices := E.partialView pe.objectModel_ v pe.meshTol_ true true
  if indices.length < 20 then (false, indices, g)
  else
    let (indices, g1) := E.random_shuffle indices g
    -- `indices.size() > n` compares as unsigned: a negative `n` is never exceeded
    let indices := if 0 ≤ n ∧ (indices.length : Int) > n then indices.take n.toNat else indices
    (true, indices, g1)

/-- How the proposal loop of a Metropolis-Hastings step ends. The last component counts
the candidate poses generated by the loop (a ghost value, not a program variable). -/
inductive Proposal (ρ : Type) where
  /-- Leaving the loop through `break`: the proposed pose, the index list, the generator. -/
  | found (nextPose : kernel.se3) (indices : List Nat) (g : ρ) (generated : Nat)
  /-- Reaching `count == 100`: the step returns. -/
  | exhausted (g : ρ) (generated : Nat)
  /-- An exception left the loop. -/
  | failed (msg : String) (generated : Nat)
deriving DecidableEq

/-- Number of candidate poses the proposal loop generated. -/
def Proposal.generated {ρ : Type} : Proposal ρ → Nat
  | .found _ _ _ c => c
  | .exhausted _ c => c
  | .failed _ c => c

/-- Outcome of a proposal loop within a bound: at most `bound` candidates were
generated, exactly `bound` when the loop ran out, and a pose the loop left with passes
the custom test. -/
def Proposal.WithinBound {ρ : Type} (reject : kernel.se3 → Bool) (bound : Nat)
    (r : Proposal ρ) : Prop :=
  r.generated ≤ bound ∧
  (∀ g k, r = .exhausted g k → k = bound) ∧
  (∀ nextPose indices g k, r = .found nextPose indices g k → reject nextPose = false)

/-- The independent-proposal loop (lines 326-356). The first argument is `100 - count`;
`generated` is the value of `count` on entry of the iteration. -/
def independentLoop {ρ : Type} (E : Env ρ) (pe : PoseEstimator) (n : Int) :
    Nat → List Nat → ρ → Nat → Proposal ρ
  | 0, _, g, generated => .exhausted g generated
  | remaining + 1, indices, g, generated =>
    let (r, g1) := E.uniformInt indices.length g
    match indices.get? r with
    | none => .failed "out_of_range" generated
    | some idx =>
      match pe.objectModel_.at idx with
      | .error e => .failed e generated
      | .ok randomModelPoint =>
        let k2 := E.polySe3Proj randomModelPoint
        let (r2, g2) := E.uniformInt pe.sceneModel_.size g1
        match pe.sceneModel_.at r2 with
        | .error e => .failed e generated
        | .ok scenePoint =>
          let k1 := E.polySe3Proj scenePoint
          let nextPose := E.transformationFrom k1 k2
          if cifRejects pe nextPose = true then
            independentLoop E pe n remaining indices g2 (generated + 1)
          else if pe.partialview_ = true then
            let visible :=
              if randomModelPoint.polyType = kernel.KernelType.R3XS2P then
                E.isVisibleFromR3xs2p pe.objectModel_ randomModelPoint
                  (viewpointInFrame E pe nextPose) pe.meshTol_
              else
                E.isVisibleFromLoc pe.objectModel_ randomModelPoint.loc_
                  (viewpointInFrame E pe nextPose) pe.meshTol_
            if visible = false then
              independentLoop E pe n remaining indices g2 (generated + 1)
            else
              match recomputeIndices E pe nextPose n g2 with
              | (false, indices1, g3) =>
                independentLoop E pe n remaining indices1 g3 (generated + 1)
              | (true, indices1, g3) => .found nextPose indices1 g3 (generated + 1)
          else .found nextPose indices g2 (generated + 1)

/-- The local-proposal loop (lines 364-372), with the same conventions. -/
def localLoop {ρ : Type} (E : Env ρ) (pe : PoseEstimator) (currentPose : kernel.se3) (n : Int) :
    Nat → List Nat → ρ → Nat → Proposal ρ
  | 0, _, g, generated => .exhausted g generated
  | remaining + 1, indices, g, generated =>
    let (nextPose, g1) := E.sample currentPose g
    if cifRejects pe nextPose = true then
      localLoop E pe currentPose n remaining indices g1 (generated + 1)
    else if pe.partialview_ = true then
      match recomputeIndices E pe nextPose n g1 with
      | (false, indices1, g2) =>
        localLoop E pe currentPose n remaining indices1 g2 (generated + 1)
      | (true, indices1, g2) => .found nextPose indices1 g2 (generated + 1)
    else .found nextPose indices g1 (generated + 1)

/-- Lines 304-373 of `metropolisHastings`: the random index selection, the choice of the
proposal kind and the proposal loop. The flag is `independentProposal`. -/
def propose {ρ : Type} (E : Env ρ) (pe : PoseEstimator) (currentPose : kernel.se3)
    (firstRun : Bool) (n : Int) (g : ρ) : Bool × Proposal ρ :=
  let (indices0, g1) := E.sampleBegin pe.objectModel_ n g
  let (indices, g2) := E.random_shuffle indices0 g1
  let (r, g3) := E.uniform g2
  if r < 3 / 4 ∨ firstRun = true then
    (true, independentLoop E pe n 100 indices g3 0)
  else
    (false, localLoop E pe currentPose n 100 indices g3 0)

/-- Value `w` of one pass through the body of the point loop (lines 384-402) for the
object point of index `idx`. -/
def pointWeight {ρ : Type} (E : Env ρ) (pe : PoseEstimator) (nextPose : kernel.se3)
    (factor : weight_t) (idx : Nat) : Except String weight_t := do
  let objectPoint ← pe.objectModel_.at idx
  let test := E.polyTransformedWith objectPoint nextPose
  let w :=
    if E.WEIGHTED_SUM_EVIDENCE_EVAL = true then
      E.evaluationAt pe.sceneModel_ test EvaluationStrategy.WEIGHTED_SUM_EVAL
        + E.WHITE_NOISE_POWER / pe.sceneModel_.size
    else
      E.evaluationAt pe.sceneModel_ test EvaluationStrategy.MAX_EVAL + E.WHITE_NOISE_POWER
  pure (w * factor)

/-- Value of `nextWeight` at the index `pi` (lines 410-411). The divisors are `pi + 1`
and its square root, which are at least 1. -/
def nextWeightOf {ρ : Type} (E : Env ρ) (pe : PoseEstimator) (weight : weight_t) (pi : Nat) :
    weight_t :=
  if pe.partialview_ = true then weight / E.sqrt ((pi : ℚ) + 1) else weight / ((pi : ℚ) + 1)

/-- Value of `dec` (lines 424-425), with the quotients, the power and the product of
`double`: a current weight, a temperature or a next weight that is zero makes a quotient
infinite or not a number. -/
def decOf {ρ : Type} (E : Env ρ) (independentProposal : Bool)
    (nextWeight currentWeight temperature : weight_t) : Double :=
  let dec := Double.pow E.pow (Double.div nextWeight currentWeight) (Double.div 1 temperature)
  if independentProposal = true then dec.mul (Double.div currentWeight nextWeight) else dec

/-- Contributions `w` of the object points of the given indices, in order. -/
def pointWeights {ρ : Type} (E : Env ρ) (pe : PoseEstimator) (nextPose : kernel.se3)
    (indices : List Nat) : Except String (List weight_t) :=
  mapExcept (pointWeight E pe nextPose (cifFactor pe nextPose)) indices

/-- The early-abort test `dec < .6*threshold` (line 428) at the index `pi`, for the
contributions `ws` of the points of index `0..pi`, with the comparison of `double`: it
fails for a `dec` that is `+inf` or not a number. -/
def abortsAt {ρ : Type} (E : Env ρ) (pe : PoseEstimator) (independentProposal : Bool)
    (currentWeight temperature threshold : weight_t) (ws : List weight_t) (pi : Nat) : Prop :=
  (decOf E independentProposal (nextWeightOf E pe (ws.take (pi + 1)).sum pi) currentWeight
    temperature).lt (6 / 10 * threshold) = true

instance {ρ : Type} (E : Env ρ) (pe : PoseEstimator) (independentProposal : Bool)
    (currentWeight temperature threshold : weight_t) (ws : List weight_t) (pi : Nat) :
    Decidable (abortsAt E pe independentProposal currentWeight temperature threshold ws pi) := by
  unfold abortsAt
  infer_instance

/-- What a Metropolis-Hastings step leaves behind: the chain state, the generator, and
two ghost counters (candidate poses generated, scene evaluations made). -/
structure StepResult (ρ : Type) where
  currentPose : kernel.se3
  currentWeight : weight_t
  g : ρ
  candidates : Nat
  evaluations : Nat
deriving DecidableEq

/-- The loop over the points of the model (lines 382-444). The list holds the entries
of `indices` from position `pi` on, `size` is `indices.size()` and `weight` the sum so
far. The test `pi < std::sqrt(indices.size())` is taken on the integers as
`pi * pi < size`. The result is the chain state and the number of points evaluated. -/
def pointLoop {ρ : Type} (E : Env ρ) (pe : PoseEstimator) (currentPose : kernel.se3)
    (currentWeight temperature : weight_t) (firstRun independentProposal : Bool)
    (nextPose : kernel.se3) (threshold factor : weight_t) (size : Nat) :
    List Nat → Nat → weight_t → Except String (kernel.se3 × weight_t × Nat)
  | [], _, _ => .error "Reached forbidden state."
  | idx :: rest, pi, weight =>
    match pointWeight E pe nextPose factor idx with
    | .error e => .error e
    | .ok w =>
      let weight := weight + w
      if pi * pi < size then
        pointLoop E pe currentPose currentWeight temperature firstRun independentProposal
          nextPose threshold factor size rest (pi + 1) weight
      else
        let nextWeight := nextWeightOf E pe weight pi
        if firstRun = true then
          if pi + 1 = size then .ok (nextPose, nextWeight, pi + 1)
          else
            pointLoop E pe currentPose currentWeight temperature firstRun independentProposal
              nextPose threshold factor size rest (pi + 1) weight
        else
          let dec := decOf E independentProposal nextWeight currentWeight temperature
          if dec.lt (6 / 10 * threshold) = true then .ok (currentPose, currentWeight, pi + 1)
          else if pi + 1 = size then
            (if dec.gt threshold = true then .ok (nextPose, nextWeight, pi + 1)
             else .ok (currentPose, currentWeight, pi + 1))
          else
            pointLoop E pe currentPose currentWeight temperature firstRun independentProposal
              nextPose threshold factor size rest (pi + 1) weight

/-- Method `PoseEstimator::metropolisHastings` (lines 295-446). -/
def metropolisHastings {ρ : Type} (E : Env ρ) (pe : PoseEstimator) (currentPose : kernel.se3)
    (currentWeight temperature : weight_t) (firstRun : Bool) (n : Int) (g : ρ) :
    Except String (StepResult ρ) :=
  match propose E pe currentPose firstRun n g with
  | (_, .exhausted g1 c) => .ok ⟨currentPose, currentWeight, g1, c, 0⟩
  | (_, .failed msg _) => .error msg
  | (independentProposal, .found nextPose indices g1 c) =>
    let (threshold, g2) := E.uniform g1
    let factor := cifFactor pe nextPose
    match pointLoop E pe currentPose currentWeight temperature firstRun independentProposal
        nextPose threshold factor indices.length indices 0 0 with
    | .error e => .error e
    | .ok (p, w, k) => .ok ⟨p, w, g2, c, k⟩

/-- Variables of the loop of `mcmc`. -/
structure ChainState (ρ : Type) where
  currentPose : kernel.se3
  currentWeight : weight_t
  bestPose : kernel.se3
  g : ρ
deriving DecidableEq

/-- Invariant of a chain under a custom integrand factor: the current pose passes the
test unless the current weight is still zero, and the best pose passes the test as soon
as its weight is positive. -/
def ChainState.Passes {ρ : Type} (c : CustomIntegrandFactor) (s : ChainState ρ) : Prop :=
  (s.currentWeight = 0 ∨ c.test s.currentPose = true) ∧
  0 ≤ s.bestPose.getWeight ∧
  (0 < s.bestPose.getWeight → c.test s.bestPose = true)

/-- The bandwidth update at the head of the loop of `mcmc` (lines 466-477): the current
pose with the bandwidths of the step `i`. -/
def annealedPose (pe : PoseEstimator) (nSteps : Nat) (i : Nat) (currentPose : kernel.se3) :
    kernel.se3 :=
  let bLocH := pe.objectSize_ / 10
  let eLocH := pe.objectSize_ / 40
  let bOriH : coord_t := 1 / 10
  let eOriH : coord_t := 2 / 100
  let e : Nat := nSteps - 1
  let currentPose := currentPose.setLocH
    (((e - i : Nat) : ℚ) / (e : ℚ) * bLocH + (i : ℚ) / (e : ℚ) * eLocH)
  currentPose.setOriH
    (((e - i : Nat) : ℚ) / (e : ℚ) * bOriH + (i : ℚ) / (e : ℚ) * eOriH)

/-- Body of the loop of `mcmc` for the step `i` (lines 465-492). -/
def mcmcStep {ρ : Type} (E : Env ρ) (pe : PoseEstimator) (n : Int) (nSteps : Nat) (i : Nat)
    (s : ChainState ρ) : Except String (ChainState ρ) :=
  let currentPose := annealedPose pe nSteps i s.currentPose
  if currentPose.loc_h_ ≤ 0 then
    .error "Unexpected value for currentPose.loc_h_."
  else
    match metropolisHastings E pe currentPose s.currentWeight (Ti E i (nSteps / 5)) false n s.g with
    | .error e => .error e
    | .ok r =>
      let bestPose :=
        if r.currentWeight > s.bestPose.getWeight then r.currentPose.setWeight r.currentWeight
        else s.bestPose
      .ok ⟨r.currentPose, r.currentWeight, bestPose, r.g⟩

/-- The loop of `mcmc` (line 463): `remaining` steps are left, the next one is `i`. -/
def mcmcLoop {ρ : Type} (E : Env ρ) (pe : PoseEstimator) (n : Int) (nSteps : Nat) :
    Nat → Nat → ChainState ρ → Except String (ChainState ρ)
  | 0, _, s => .ok s
  | remaining + 1, i, s =>
    match mcmcStep E pe n nSteps i s with
    | .error e => .error e
    | .ok s1 => mcmcLoop E pe n nSteps remaining (i + 1) s1

/-- Number of steps of a chain (line 461). -/
def nStepsOf (pe : PoseEstimator) (n : Int) : Int :=
  10 * n * (if pe.partialview_ = true then 4 else 1)

/-- Method `PoseEstimator::mcmc` (lines 448-497). -/
def mcmc {ρ : Type} (E : Env ρ) (pe : PoseEstimator) (n : Int) (g : ρ) :
    Except String (kernel.se3 × ρ) :=
  let currentPose := E.se3_default
  let currentWeight : weight_t := 0
  let bestPose := E.se3_default.setWeight currentWeight
  match metropolisHastings E pe currentPose currentWeight 1 true n g with
  | .error e => .error e
  | .ok r =>
    let nSteps := nStepsOf pe n
    match mcmcLoop E pe n nSteps.toNat nSteps.toNat 0 ⟨r.currentPose, r.currentWeight, bestPose, r.g⟩ with
    | .error e => .error e
    | .ok s => .ok (s.bestPose, s.g)

/-- The chain state after the first call of `metropolisHastings` in `mcmc`
(lines 452-455), with the best pose as initialised. -/
def mcmcSeed {ρ : Type} (E : Env ρ) (pe : PoseEstimator) (n : Int) (g : ρ) :
    Except String (ChainState ρ) :=
  match metropolisHastings E pe E.se3_default 0 1 true n g with
  | .error e => .error e
  | .ok r => .ok ⟨r.currentPose, r.currentWeight, E.se3_default.setWeight 0, r.g⟩

/-- Ghost value: the chain states after each of the `remaining` steps of the loop of
`mcmc`, starting with the step `i`. -/
def mcmcTrace {ρ : Type} (E : Env ρ) (pe : PoseEstimator) (n : Int) (nSteps : Nat) :
    Nat → Nat → ChainState ρ → Except String (List (ChainState ρ))
  | 0, _, _ => .ok []
  | remaining + 1, i, s =>
    match mcmcStep E pe n nSteps i s with
    | .error e => .error e
    | .ok s1 =>
      match mcmcTrace E pe n nSteps remaining (i + 1) s1 with
      | .error e => .error e
      | .ok tr => .ok (s1 :: tr)

/-- Type of the step as `mcmc` calls it: the pose and the weight on entry, the
temperature, `firstRun`, `n` and the generator. -/
abbrev StepFunction (σ : Type) :=
  kernel.se3 → weight_t → weight_t → Bool → Int → σ → Except String (StepResult σ)

/-- Body of the loop of `mcmc` for the step `i` (lines 465-492), the method
`metropolisHastings` it calls being the parameter `step`. -/
def mcmcStepWith {ρ σ : Type} (E : Env ρ) (pe : PoseEstimator) (step : StepFunction σ)
    (n : Int) (nSteps : Nat) (i : Nat) (s : ChainState σ) : Except String (ChainState σ) :=
  let currentPose := annealedPose pe nSteps i s.currentPose
  if currentPose.loc_h_ ≤ 0 then
    .error "Unexpected value for currentPose.loc_h_."
  else
    match step currentPose s.currentWeight (Ti E i (nSteps / 5)) false n s.g with
    | .error e => .error e
    | .ok r =>
      let bestPose :=
        if r.currentWeight > s.bestPose.getWeight then r.currentPose.setWeight r.currentWeight
        else s.bestPose
      .ok ⟨r.currentPose, r.currentWeight, bestPose, r.g⟩

/-- The loop of `mcmc` (line 463) with the step as a parameter. -/
def mcmcLoopWith {ρ σ : Type} (E : Env ρ) (pe : PoseEstimator) (step : StepFunction σ)
    (n : Int) (nSteps : Nat) : Nat → Nat → ChainState σ → Except String (ChainState σ)
  | 0, _, s => .ok s
  | remaining + 1, i, s =>
    match mcmcStepWith E pe step n nSteps i s with
    | .error e => .error e
    | .ok s1 => mcmcLoopWith E pe step n nSteps remaining (i + 1) s1

/-- Method `PoseEstimator::mcmc` (lines 448-497) with the step as a parameter. With the
step `metropolisHastings` it is `mcmc`. -/
def mcmcWith {ρ σ : Type} (E : Env ρ) (pe : PoseEstimator) (step : StepFunction σ)
    (n : Int) (g : σ) : Except String (kernel.se3 × σ) :=
  let currentPose := E.se3_default
  let currentWeight : weight_t := 0
  let bestPose := E.se3_default.setWeight currentWeight
  match step currentPose currentWeight 1 true n g with
  | .error e => .error e
  | .ok r =>
    let nSteps := nStepsOf pe n
    match mcmcLoopWith E pe step n nSteps.toNat nSteps.toNat 0
        ⟨r.currentPose, r.currentWeight, bestPose, r.g⟩ with
    | .error e => .error e
    | .ok s => .ok (s.bestPose, s.g)

/-- A step that records its calls: a list is kept beside the generator, and a call that
returns has appended to it the `firstRun` and the `temperature` it was called with. -/
def recordCalls {ρ : Type} (step : StepFunction ρ) :
    StepFunction (ρ × List (Bool × weight_t)) :=
  fun currentPose currentWeight temperature firstRun n g =>
    match step currentPose currentWeight temperature firstRun n g.1 with
    | .error e => .error e
    | .ok r =>
      .ok ⟨r.currentPose, r.currentWeight, (r.g, g.2 ++ [(firstRun, temperature)]),
        r.candidates, r.evaluations⟩

/-- A chain state with a list of calls beside its generator. -/
def ChainState.withCalls {ρ : Type} (s : ChainState ρ) (calls : List (Bool × weight_t)) :
    ChainState (ρ × List (Bool × weight_t)) :=
  ⟨s.currentPose, s.currentWeight, s.bestPose, (s.g, calls)⟩

/-- The best pose after a sequence of chain states, from the best pose before it
(lines 488-492). -/
def bestOf (best : kernel.se3) (states : List (kernel.se3 × weight_t)) : kernel.se3 :=
  states.foldl (fun b t => if t.2 > b.getWeight then t.1.setWeight t.2 else b) best

/-- Number of model points handed to the chains (lines 36-51). -/
def chainPoints (pe : PoseEstimator) : Int :=
  if pe.n_ ≤ 0 then
    let n : Int := pe.objectModel_.size
    if n > 1000 then 1000 else n
  else pe.n_

/-- Modelled from the spec: `parallelizer::run` is not part of the sources. It runs
`nChains` invocations of the given function, each chain on its own random stream, and
returns the results in chain order. -/
def parallelizerRun {ρ α : Type} (nChains : Int) (streams : Nat → ρ)
    (f : ρ → Except String α) : Except String (List α) :=
  mapExcept (fun c => f (streams c)) (List.range nChains.toNat)

/-- Modelled from the spec: `KernelCollection::sortBegin` is not part of the sources.
The element designated by `sortBegin(1)` is the best result, a kernel of largest weight
(the first one among equals); there is none for an empty collection. -/
def sortBegin1 : List kernel.se3 → Option kernel.se3
  | [] => none
  | p :: ps => some (ps.foldl (fun best q => if q.getWeight > best.getWeight then q else best) p)

/-- Method `PoseEstimator::modelToSceneTransformation` (lines 32-100). The ground-truth
branch only prints and is left out. -/
def modelToSceneTransformation {ρ : Type} (E : Env ρ) (pe : PoseEstimator)
    (streams : Nat → ρ) : Except String kernel.se3 := do
  let n := chainPoints pe
  let retv ← parallelizerRun pe.nChains_ streams (fun g => (mcmc E pe n g).map Prod.fst)
  match sortBegin1 retv with
  | none => .error "sortBegin on an empty collection"
  | some pose => pure (pose.setWeight (findMatchingScore E pe pose))

end PoseEstimator

/-! ## Configuration constants (`Definitions.cpp`) -/

/-- What the constants read from the process: `getenv`, and `numify` at the three types
of the constants below; `numify` throws on a text it cannot parse. -/
structure ProcessEnv where
  getenv : String → Option String
  numifyCoord : String → Except String coord_t
  numifyUnsigned : String → Except String Nat
  numifyBool : String → Except String Bool

/-- Function `initConst` (lines 27-43). When the variable is set, its content is parsed,
then the variable `NUKLEI_LOG_LEVEL` is read and, when it is set, parsed as an
`unsigned`; either parse may throw. The line printed when the level is at least
`Log::INFO` is output only and is left out. -/
def initConst {α : Type} (getenv : String → Option String)
    (numify : String → Except String α) (numifyUnsigned : String → Except String Nat)
    (envVar : String) (default : α) : Except String α :=
  match getenv envVar with
  | some envVal =>
    match numify envVal with
    | .error e => .error e
    | .ok val =>
      match getenv "NUKLEI_LOG_LEVEL" with
      | some log =>
        match numifyUnsigned log with
        | .error e => .error e
        | .ok _ => .ok val
      | none => .ok val
  | none => .ok default

/-- Expansion of the text `defConst(TYPE, VAR, VAL)` (lines 45-46). -/
def defConst {α : Type} (sys : ProcessEnv) (numify : String → Except String α)
    (var : String) (val : α) : Except String α :=
  initConst sys.getenv numify sys.numifyUnsigned ("NUKLEI_" ++ var) val

/-- Constant `ROTATION_STDEV`. -/
def ROTATION_STDEV (sys : ProcessEnv) : Except String coord_t :=
  defConst sys sys.numifyCoord "ROTATION_STDEV" (2 / 10)

/-- Constant `OBSERVATION_ORIENTATION_STDEV`. -/
def OBSERVATION_ORIENTATION_STDEV (sys : ProcessEnv) : Except String coord_t :=
  defConst sys sys.numifyCoord "OBSERVATION_ORIENTATION_STDEV" (4 / 10)

/-- Constant `OBSERVATION_LOCATION_STDEV`. -/
def OBSERVATION_LOCATION_STDEV (sys : ProcessEnv) : Except String coord_t :=
  defConst sys sys.numifyCoord "OBSERVATION_LOCATION_STDEV" 12

/-- Constant `MCMC_NBP`. -/
def MCMC_NBP (sys : ProcessEnv) : Except String Bool :=
  defConst sys sys.numifyBool "MCMC_NBP" false

/-- Constant `MCMC_NBP_N_CHAINS`. -/
def MCMC_NBP_N_CHAINS (sys : ProcessEnv) : Except String Nat :=
  defConst sys sys.numifyUnsigned "MCMC_NBP_N_CHAINS" 2

/-- Constant `LOCSTDEVMIN`, not read from the process. -/
def LOCSTDEVMIN : coord_t := 1 / 10

/-- Constant `ORISTDEVMIN`, not read from the process. -/
def ORISTDEVMIN : coord_t := 4 / 100

/-- Constant `WHITE_NOISE_POWER`. -/
def WHITE_NOISE_POWER (sys : ProcessEnv) : Except String weight_t :=
  defConst sys sys.numifyCoord "WHITE_NOISE_POWER" (1 / 10000)

/-- Constant `KDE_KTH_NEAREST_NEIGHBOR`. -/
def KDE_KTH_NEAREST_NEIGHBOR (sys : ProcessEnv) : Except String Nat :=
  defConst sys sys.numifyUnsigned "KDE_KTH_NEAREST_NEIGHBOR" 8

/-- Constant `NORMALIZE_DENSITIES`, not read from the process. -/
def NORMALIZE_DENSITIES : Bool := true

/-- Constant `N_THREADS`. -/
def N_THREADS (sys : ProcessEnv) : Except String Nat :=
  defConst sys sys.numifyUnsigned "N_THREADS" 0

/-! ## Reading observations (`ObservationIO.cpp`) -/

namespace ObservationReader

/-- Class `ObservationReader::Counter`: the map `counts_` as an association list with
unique keys, and the list `labels_`. The `unsigned` counts are taken without
wrap-around. -/
structure Counter where
  type_ : String
  counts_ : List (String × Nat)
  labels_ : List String
deriving DecidableEq

/-- The counter of a fresh reader. -/
def Counter.empty : Counter := ⟨"", [], []⟩

end ObservationReader

/-! ## Small matrices (`LinearAlgebra.cpp`) -/

/-- A 3x3 matrix, by its columns. -/
structure Matrix3 where
  col0 : Vector3
  col1 : Vector3
  col2 : Vector3
deriving DecidableEq

namespace Vector3

/-- Method `Cross`. -/
def Cross (a b : Vector3) : Vector3 :=
  ⟨a.y * b.z - a.z * b.y, a.z * b.x - a.x * b.z, a.x * b.y - a.y * b.x⟩

/-- Method `Dot`. -/
def Dot (a b : Vector3) : coord_t := a.x * b.x + a.y * b.y + a.z * b.z

/-- Unary minus. -/
def neg (a : Vector3) : Vector3 := ⟨-a.x, -a.y, -a.z⟩

/-- Product by a scalar. -/
def smul (s : coord_t) (a : Vector3) : Vector3 := ⟨s * a.x, s * a.y, s * a.z⟩

end Vector3

namespace Matrix3

/-- Product of a matrix and a vector. -/
def mulVec (m : Matrix3) (v : Vector3) : Vector3 :=
  ⟨m.col0.x * v.x + m.col1.x * v.y + m.col2.x * v.z,
   m.col0.y * v.x + m.col1.y * v.y + m.col2.y * v.z,
   m.col0.z * v.x + m.col1.z * v.y + m.col2.z * v.z⟩

/-- Method `SetColumn(2, v)`. -/
def SetColumn2 (m : Matrix3) (v : Vector3) : Matrix3 := { m with col2 := v }

end Matrix3

namespace la

/-- Eigenvalues and eigenvectors as delivered by a solver: three values, and the matrix
whose columns are the vectors. -/
structure EigenSystem where
  eval0 : coord_t
  eval1 : coord_t
  eval2 : coord_t
  evec : Matrix3
deriving DecidableEq

/-- The pairs of a value and its column. -/
def EigenSystem.pairs (s : EigenSystem) : List (coord_t × Vector3) :=
  [(s.eval0, s.evec.col0), (s.eval1, s.evec.col1), (s.eval2, s.evec.col2)]

/-- Modelled from the spec: the library routine `gsl_eigen_symmv_sort(eval, evec,
GSL_EIGEN_SORT_ABS_DESC)` is not part of the sources; the spec has the eigenvalues
"descending by |λ|". It is the sort of the pairs of a value and its column by descending
absolute value, by selection as in GSL: the first pair is exchanged with the first
largest one, then the second with the larger of the two left. -/
def gsl_eigen_symmv_sort (s : EigenSystem) : EigenSystem :=
  let s1 : EigenSystem :=
    if |s.eval2| > |s.eval0| ∧ |s.eval2| > |s.eval1| then
      ⟨s.eval2, s.eval1, s.eval0, ⟨s.evec.col2, s.evec.col1, s.evec.col0⟩⟩
    else if |s.eval1| > |s.eval0| then
      ⟨s.eval1, s.eval0, s.eval2, ⟨s.evec.col1, s.evec.col0, s.evec.col2⟩⟩
    else s
  if |s1.eval2| > |s1.eval1| then
    ⟨s1.eval0, s1.eval2, s1.eval1, ⟨s1.evec.col0, s1.evec.col2, s1.evec.col1⟩⟩
  else s1

/-- Function `la::eigenDecomposition` (lines 20-59): the pair of `eVectors` and
`eValues`. The solver `gsl_eigen_symmv` is a parameter: what it delivers for the
matrix. -/
def eigenDecomposition (symmv : Matrix3 → EigenSystem) (sym : Matrix3) :
    Matrix3 × Vector3 :=
  let s := gsl_eigen_symmv_sort (symmv sym)
  let eValues : Vector3 := ⟨s.eval0, s.eval1, s.eval2⟩
  let eVectors : Matrix3 := ⟨s.evec.col0, s.evec.col1, s.evec.col2⟩
  let eVectors :=
    if (eVectors.col0.Cross eVectors.col1).Dot eVectors.col2 < 0 then
      eVectors.SetColumn2 eVectors.col2.neg
    else eVectors
  (eVectors, eValues)

/-- The pair of a value and a vector is an eigenpair of the matrix up to the tolerance
`tol` on each coordinate of `sym v - value v`; exactly for the tolerance 0. -/
def IsEigenpairWithin (sym : Matrix3) (tol : coord_t) (value : coord_t) (v : Vector3) : Prop :=
  |(sym.mulVec v).x - value * v.x| ≤ tol ∧
  |(sym.mulVec v).y - value * v.y| ≤ tol ∧
  |(sym.mulVec v).z - value * v.z| ≤ tol

instance (sym : Matrix3) (tol value : coord_t) (v : Vector3) :
    Decidable (IsEigenpairWithin sym tol value v) := by
  unfold IsEigenpairWithin
  infer_instance

end la

/-! ## Normals in the conversion tool (`convert.cpp`) -/

namespace convert

/-- A descriptor: whether it is a `VisualDescriptor`, and its colour. -/
structure Descriptor where
  visual : Bool
  color : Vector3
deriving DecidableEq

/-- What the loop reads of a buffered observation: the location and the weight of its
kernel, and its descriptor when it has one. -/
structure Input where
  loc : Vector3
  weight : weight_t
  descriptor : Option Descriptor
deriving DecidableEq

/-- The `kernel::r3xs2p` written for an observation. -/
structure Output where
  loc_ : Vector3
  dir_ : Vector3
  w_ : weight_t
  descriptor : Option Descriptor
deriving DecidableEq

/-- Absolute value, `std::fabs`. -/
def fabs (a : coord_t) : coord_t := if a < 0 then -a else a

/-- The test `fabs(a - b) / fabs(b - c) < 2` of line 197 with the division of `double`:
a quotient by zero is infinite or not a number and is not below 2. -/
def ratioBelowTwo (a b c : coord_t) : Bool :=
  if fabs (b - c) = 0 then false else decide (fabs (a - b) / fabs (b - c) < 2)

/-- Body of the loop of lines 182-207 for one observation: nothing when the local
differential is undefined, the kernel written otherwise. `localLocationDifferential` is
the method of the collection `kc1` of all buffered kernels. Line 199 calls
`getDescriptor` on the new kernel whether or not it was given a descriptor at line 195.
The method is not part of the sources; the other calls (lines 151, 195, 228, 331) are
guarded by `hasDescriptor()`. `missingDescriptor` is the error of the call on a kernel
without descriptor; `none` stands for a call that returns something that is not a
`VisualDescriptor`. -/
def normalOf (localLocationDifferential : Vector3 → Matrix3 × Vector3 × coord_t)
    (missingDescriptor : Option String) (i : Input) : Except String (Option Output) :=
  let dp := localLocationDifferential i.loc
  if dp.2.2 = 0 then .ok none
  else
    let k : Output := ⟨i.loc, dp.1.col2, i.weight, i.descriptor⟩
    if ratioBelowTwo dp.2.1.x dp.2.1.y dp.2.1.z = true then
      match k.descriptor with
      | some d =>
        let d1 : Descriptor := if d.visual = true then { d with color := ⟨1, 0, 0⟩ } else d
        .ok (some { k with descriptor := some d1 })
      | none =>
        match missingDescriptor with
        | some e => .error e
        | none => .ok (some k)
    else
      .ok (some { k with dir_ := dp.1.col0 })

/-- The loop of lines 181-207: the observations written and the value of `skipped`. -/
def normalsLoop (localLocationDifferential : Vector3 → Matrix3 × Vector3 × coord_t)
    (missingDescriptor : Option String) : List Input → Except String (List Output × Nat)
  | [] => .ok ([], 0)
  | i :: rest =>
    match normalOf localLocationDifferential missingDescriptor i with
    | .error e => .error e
    | .ok r =>
      match normalsLoop localLocationDifferential missingDescriptor rest with
      | .error e => .error e
      | .ok (out, skipped) =>
        match r with
        | none => .ok (out, skipped + 1)
        | some k => .ok (k :: out, skipped)

/-- Writer types, `Observation::Type`, as far as the block needs them. -/
inductive WriterType where
  | SERIAL
  | OTHER
deriving DecidableEq

/-- The block `if (makeR3xS2P)` of `convert` (lines 163-211): the new content of
`observations`, the number of observations skipped and whether the warning is
emitted. -/
def makeR3xS2P (localLocationDifferential : Vector3 → Matrix3 × Vector3 × coord_t)
    (missingDescriptor : Option String) (setRGB : String) (writerType : WriterType)
    (observations : List Input) : Except String (List Output × Nat × Bool) :=
  if setRGB ≠ "" then .error "assertion failed: setRGB.empty()"
  else if writerType ≠ WriterType.SERIAL then
    .error "Normal computation only available when outputing serial."
  else
    match normalsLoop localLocationDifferential missingDescriptor observations with
    | .error e => .error e
    | .ok r => .ok (r.1, r.2, decide (r.2 > 0))

end convert

/-! ## A small concrete instance

Point clouds of three points, translations only, and a random generator that reads its
draws from a tape. It is used to run the definitions on concrete inputs. -/

namespace Sample

/-- Random generator state: the tape of the draws to come. -/
abbrev Tape := List Nat

/-- Draw of `Random::uniform()`: hundredths read from the tape. -/
def uniform : Tape → ℚ × Tape
  | [] => (0, [])
  | t :: g => (((t % 100 : Nat) : ℚ) / 100, g)

/-- Draw of `Random::uniformInt(n)`. -/
def uniformInt (n : Nat) : Tape → Nat × Tape
  | [] => (0, [])
  | t :: g => (t % n, g)

/-- Exchange of the entries `i` and `j` of a list. -/
def swapAt (l : List Nat) (i j : Nat) : List Nat :=
  (l.set i (l.getD j 0)).set j (l.getD i 0)

/-- Loop of `std::random_shuffle`: entry `i` is exchanged with entry `uniformInt(i+1)`. -/
def shuffleFrom : Nat → Nat → List Nat → Tape → List Nat × Tape
  | 0, _, l, g => (l, g)
  | k + 1, i, l, g =>
    let (j, g1) := uniformInt (i + 1) g
    shuffleFrom k (i + 1) (swapAt l i j) g1

/-- Function `std::random_shuffle`. -/
def random_shuffle (l : List Nat) (g : Tape) : List Nat × Tape :=
  shuffleFrom (l.length - 1) 1 l g

/-- Power function, exact for integer exponents: the exponent is rounded down. -/
def pow (x y : ℚ) : ℚ := x ^ ⌊y⌋

/-- Largest natural number among `0..k` whose square is at most `n`. -/
def sqrtUpTo (n : Nat) : Nat → Nat
  | 0 => 0
  | k + 1 => if (k + 1) * (k + 1) ≤ n then k + 1 else sqrtUpTo n k

/-- Square root, exact on the squares of rational numbers. -/
def sqrt (x : ℚ) : ℚ :=
  (sqrtUpTo x.num.toNat x.num.toNat : ℚ) / (sqrtUpTo x.den x.den : ℚ)

/-- Sum of two vectors. -/
def add (a b : Vector3) : Vector3 := ⟨a.x + b.x, a.y + b.y, a.z + b.z⟩

/-- The identity rotation. -/
def identity : Quaternion := ⟨1, 0, 0, 0⟩

/-- A point kernel of unit weight. -/
def point (ty : kernel.KernelType) (x y z : ℚ) : kernel.base :=
  ⟨ty, ⟨x, y, z⟩, identity, 1, 0, 0⟩

/-- A translation of the given weight. -/
def translation (x y z : ℚ) (w : weight_t) : kernel.se3 :=
  ⟨⟨x, y, z⟩, identity, w, 0, 0⟩

/-- Kernel evaluation with kernels of zero width: a kernel counts where the locations
coincide. `MAX_EVAL` takes the largest weight, `WEIGHTED_SUM_EVAL` the sum. -/
def evaluationAt (kc : KernelCollection) (q : kernel.base) : EvaluationStrategy → weight_t
  | .MAX_EVAL => (kc.kernels.map (fun k => if k.loc_ = q.loc_ then k.w_ else 0)).foldl max 0
  | .WEIGHTED_SUM_EVAL => (kc.kernels.map (fun k => if k.loc_ = q.loc_ then k.w_ else 0)).sum

/-- Partial view: the points that are not below the viewing direction. -/
def partialView (kc : KernelCollection) (v : Vector3) : List Nat :=
  (List.range kc.size).filter (fun i =>
    match kc.kernels.get? i with
    | some k => decide (0 ≤ k.loc_.x * v.x + k.loc_.y * v.y + k.loc_.z * v.z)
    | none => false)

/-- Two distinct points no coordinate of which differs by more than one. -/
def near (a b : Vector3) : Bool :=
  decide (a ≠ b ∧ a.x - b.x ≤ 1 ∧ b.x - a.x ≤ 1 ∧ a.y - b.y ≤ 1 ∧ b.y - a.y ≤ 1 ∧
    a.z - b.z ≤ 1 ∧ b.z - a.z ≤ 1)

/-- Modelled from the spec: `KernelCollection::computeSurfaceNormals` is not part of the
sources. As in `make_r3xs2p` of `convert.cpp`, every point becomes an `r3xs2p` kernel at
the same location carrying a normal direction, and a point whose local differential is
undefined (here: a point without a near neighbour) is skipped. -/
def computeSurfaceNormals (kc : KernelCollection) : KernelCollection :=
  let kept := kc.kernels.filter (fun k => kc.kernels.any (fun k2 => near k.loc_ k2.loc_))
  let normals := kept.map (fun k =>
    { k with polyType := kernel.KernelType.R3XS2P, ori_ := ⟨0, 0, 0, 1⟩ })
  { kc with kernels := normals }

/-- Sample iterator: `n` indices that cycle through the collection. -/
def sampleBegin (kc : KernelCollection) (n : Int) (g : Tape) : List Nat × Tape :=
  ((List.range n.toNat).map (fun i => i % kc.size), g)

/-- The environment of the instance. -/
def env : Env Tape where
  uniform := uniform
  uniformInt := uniformInt
  random_shuffle := random_shuffle
  pow := pow
  sqrt := sqrt
  WHITE_NOISE_POWER := 1 / 10000
  WEIGHTED_SUM_EVIDENCE_EVAL := false
  se3_default := translation 0 0 0 1
  polyTransformedWith := fun k t => { k with loc_ := add k.loc_ t.loc_ }
  polySe3Proj := fun k => ⟨k.loc_, identity, k.w_, k.loc_h_, k.ori_h_⟩
  transformationFrom := fun a b => translation (a.loc_.x - b.loc_.x) (a.loc_.y - b.loc_.y)
    (a.loc_.z - b.loc_.z) 1
  sample := fun p g =>
    let (d, g1) := uniformInt 3 g
    ({ p with loc_ := ⟨p.loc_.x + (d : ℚ) - 1, p.loc_.y, p.loc_.z⟩ }, g1)
  r3TransformedLoc := fun v t => add v t.loc_
  normalized := fun v => v
  computeSurfaceNormals := fun kc => .ok (computeSurfaceNormals kc)
  sampleBegin := sampleBegin
  moments := fun kc => ⟨kernel.KernelType.R3, ⟨0, 0, 0⟩, identity, 1, (kc.size : ℚ), 0⟩
  mean := fun _ => ⟨kernel.KernelType.R3, ⟨0, 0, 0⟩, identity, 1, 0, 0⟩
  evaluationAt := evaluationAt
  isVisibleFromR3xs2p := fun _ k v _ => decide (k.loc_.z ≤ v.z)
  isVisibleFromLoc := fun _ p v _ => decide (p.z ≤ v.z)
  partialView := fun kc v _ _ _ => partialView kc v
  readMeshFromOffFile := fun file =>
    if file = "missing.off" then .error "cannot read the mesh" else .ok []
  buildMesh := fun _ => .ok []

/-- Object model: three points. -/
def objectCloud (ty : kernel.KernelType) : KernelCollection :=
  ⟨[point ty 0 0 0, point ty 1 0 0, point ty 0 1 0], none⟩

/-- Scene model: the object moved by `(1, 2, 3)`. -/
def sceneCloud (ty : kernel.KernelType) : KernelCollection :=
  ⟨[point ty 1 2 3, point ty 2 2 3, point ty 1 3 3], none⟩

/-- A scene of 10001 kernels at one location. -/
def bigScene : KernelCollection :=
  ⟨List.replicate 10001 (point kernel.KernelType.R3XS2P 1 2 3), none⟩

/-- An estimator on the two clouds: one chain, three points per step. -/
def estimator (cif : Option CustomIntegrandFactor) (partialview : Bool) : PoseEstimator :=
  { PoseEstimator.create (1 / 10) (1 / 10) 1 3 cif partialview false with
    objectModel_ := objectCloud kernel.KernelType.R3XS2P
    sceneModel_ := sceneCloud kernel.KernelType.R3XS2P
    viewpoint_ := ⟨0, 0, 10⟩
    objectSize_ := 3 }

/-- The estimator on the two clouds with three chains. -/
def estimatorThreeChains : PoseEstimator :=
  { estimator none false with nChains_ := 3 }

/-- Random streams of three chains. -/
def chainStreams (c : Nat) : Tape :=
  if c = 0 then []
  else if c = 1 then [0, 0, 0, 1, 0, 0, 0, 0, 80, 1, 0]
  else [0, 0, 0, 1, 1, 0, 0, 0, 80, 1, 99]

/-- The environment of the instance with a shuffle that reverses the list. -/
def envReversing : Env Tape :=
  { env with random_shuffle := fun l g => (l.reverse, g) }

/-- Object model of 24 points on a line. -/
def lineCloud : KernelCollection :=
  ⟨(List.range 24).map (fun i => point kernel.KernelType.R3XS2P (i : ℚ) 0 0), none⟩

/-- A partial-view estimator on the line of 24 points, seen from `(0, 0, 10)`. -/
def lineEstimator : PoseEstimator :=
  { PoseEstimator.create (1 / 10) (1 / 10) 1 5 none true false with
    objectModel_ := lineCloud
    sceneModel_ := sceneCloud kernel.KernelType.R3XS2P
    viewpoint_ := ⟨0, 0, 10⟩
    objectSize_ := 7 }

/-- A partial-view estimator whose object lies on one side of the origin, the scene
being the object moved by `(5, 0, 0)` and the viewpoint the origin. -/
def oneSidedEstimator : PoseEstimator :=
  { PoseEstimator.create (1 / 10) (1 / 10) 1 3 none true false with
    objectModel_ := ⟨[point kernel.KernelType.R3XS2P 1 0 0, point kernel.KernelType.R3XS2P 2 0 0,
      point kernel.KernelType.R3XS2P 1 1 0], none⟩
    sceneModel_ := ⟨[point kernel.KernelType.R3XS2P 6 0 0, point kernel.KernelType.R3XS2P 7 0 0,
      point kernel.KernelType.R3XS2P 6 1 0], none⟩
    viewpoint_ := ⟨0, 0, 0⟩
    objectSize_ := 1 }

/-- A custom integrand factor that rejects the poses below the plane `z = 0`. -/
def aboveGround : CustomIntegrandFactor where
  factor := fun _ => 1
  test := fun p => decide (0 ≤ p.loc_.z)

/-- A custom integrand factor that accepts every pose and whose factor is zero. -/
def zeroFactor : CustomIntegrandFactor where
  factor := fun _ => 0
  test := fun _ => true

/-- A custom integrand factor that rejects every pose. -/
def rejectAll : CustomIntegrandFactor where
  factor := fun _ => 1
  test := fun _ => false

/-- A process with no variable set. -/
def sysUnset : ProcessEnv :=
  { getenv := fun _ => none
    numifyCoord := fun _ => .error "bad lexical cast"
    numifyUnsigned := fun t => match t.toNat? with
      | some v => .ok v
      | none => .error "bad lexical cast"
    numifyBool := fun t => .ok (decide (t = "1")) }

/-- A process with `NUKLEI_N_THREADS=4` and `NUKLEI_MCMC_NBP_N_CHAINS=two`. -/
def sysSet : ProcessEnv :=
  { sysUnset with
    getenv := fun name =>
      if name = "NUKLEI_N_THREADS" then some "4"
      else if name = "NUKLEI_MCMC_NBP_N_CHAINS" then some "two"
      else none }

/-- A process with `NUKLEI_N_THREADS=4` and `NUKLEI_LOG_LEVEL=verbose`. -/
def sysVerbose : ProcessEnv :=
  { sysUnset with
    getenv := fun name =>
      if name = "NUKLEI_N_THREADS" then some "4"
      else if name = "NUKLEI_LOG_LEVEL" then some "verbose"
      else none }

/-- A symmetric matrix whose eigenvalues 0 and `(1 ± sqrt 5)/2` are not all rational:
the rows are `(1, 1, 0)`, `(1, 0, 0)` and `(0, 0, 0)`. -/
def symmetric : Matrix3 := ⟨⟨1, 1, 0⟩, ⟨1, 0, 0⟩, ⟨0, 0, 0⟩⟩

/-- A solver with three decimals on `symmetric`: the values 0, -0.618 and 1.618 with
vectors along the eigenvectors. -/
def symmv (_ : Matrix3) : la.EigenSystem :=
  ⟨0, -618 / 1000, 1618 / 1000, ⟨⟨0, 0, -1⟩, ⟨-618 / 1000, 1, 0⟩, ⟨1618 / 1000, 1, 0⟩⟩⟩

/-- A local differential: undefined on the points of negative first coordinate. -/
def localLocationDifferential (p : Vector3) : Matrix3 × Vector3 × coord_t :=
  (⟨⟨1, 0, 0⟩, ⟨0, 1, 0⟩, ⟨0, 0, 1⟩⟩, ⟨3, 2, 1⟩, if p.x < 0 then 0 else 1)

/-- Three buffered observations, the second with an undefined differential. -/
def buffered : List convert.Input :=
  [⟨⟨1, 0, 0⟩, 5, none⟩, ⟨⟨-1, 0, 0⟩, 6, none⟩, ⟨⟨2, 0, 0⟩, 7, some ⟨true, ⟨0, 1, 0⟩⟩⟩]

end Sample

/-! ## Loading -/

open PoseEstimator

/-- C1: `load` on two collections of which the object or the scene is empty fails with
the error "Empty input cloud.", whatever the mesh file, the viewpoint, the flags
`light` and `computeNormals`, the estimator and the random generator are. -/
theorem load_empty_input_cloud {ρ : Type} (E : Env ρ) (pe : PoseEstimator)
    (objectModel sceneModel : KernelCollection) (meshfile : String) (viewpoint : Vector3)
    (light computeNormals : Bool) (g : ρ)
    (h : objectModel.size = 0 ∨ sceneModel.size = 0) :
    load E pe objectModel sceneModel meshfile viewpoint light computeNormals g
      = .error "Empty input cloud." := by
  unfold load
  rw [if_pos h]

/-- Witness of C1: an empty object model against the three-point scene. -/
theorem load_empty_input_cloud_witness :
    (KernelCollection.empty.size = 0 ∨ (Sample.sceneCloud kernel.KernelType.R3).size = 0) ∧
    load Sample.env (Sample.estimator none false) KernelCollection.empty
      (Sample.sceneCloud kernel.KernelType.R3) "" ⟨0, 0, 0⟩ true true []
      = .error "Empty input cloud." :=
  ⟨Or.inl rfl, load_empty_input_cloud _ _ _ _ _ _ _ _ _ (Or.inl rfl)⟩

/-- C2 as stated fails when `computeNormals` is set: the `r3` object model gets surface
normals before the domains are compared, and `load` succeeds on an `r3` object and an
`r3xs2p` scene. -/
theorem load_domain_mismatch_counterexample :
    (Sample.objectCloud kernel.KernelType.R3).kernels ≠ [] ∧
    (∀ k ∈ (Sample.objectCloud kernel.KernelType.R3).kernels,
      k.polyType = kernel.KernelType.R3) ∧
    (Sample.sceneCloud kernel.KernelType.R3XS2P).kernels ≠ [] ∧
    (∀ k ∈ (Sample.sceneCloud kernel.KernelType.R3XS2P).kernels,
      k.polyType = kernel.KernelType.R3XS2P) ∧
    ∃ r, load Sample.env (Sample.estimator none false)
      (Sample.objectCloud kernel.KernelType.R3) (Sample.sceneCloud kernel.KernelType.R3XS2P)
      "" ⟨0, 0, 10⟩ false true [] = .ok r := by
  refine ⟨by decide, by decide, by decide, by decide, ?_⟩
  have h : (load Sample.env (Sample.estimator none false)
      (Sample.objectCloud kernel.KernelType.R3) (Sample.sceneCloud kernel.KernelType.R3XS2P)
      "" ⟨0, 0, 10⟩ false true []).toBool = true := by decide!
  rcases hl : load Sample.env (Sample.estimator none false)
      (Sample.objectCloud kernel.KernelType.R3) (Sample.sceneCloud kernel.KernelType.R3XS2P)
      "" ⟨0, 0, 10⟩ false true [] with e | r
  · rw [hl] at h
    cases h
  · exact ⟨r, rfl⟩

/-- C2, amended: with `computeNormals` off, `load` on a non-empty object model of `r3`
kernels and a non-empty scene model of `r3xs2p` kernels fails with the domain-mismatch
error, whatever `light` is. -/
theorem load_domain_mismatch_without_normals {ρ : Type} (E : Env ρ) (pe : PoseEstimator)
    (objectModel sceneModel : KernelCollection) (meshfile : String) (viewpoint : Vector3)
    (light : Bool) (g : ρ)
    (hobject : objectModel.kernels ≠ []) (hscene : sceneModel.kernels ≠ [])
    (ho : ∀ k ∈ objectModel.kernels, k.polyType = kernel.KernelType.R3)
    (hs : ∀ k ∈ sceneModel.kernels, k.polyType = kernel.KernelType.R3XS2P) :
    load E pe objectModel sceneModel meshfile viewpoint light false g
      = .error "Input point clouds must be defined on the same domain." := by
  obtain ⟨ko, mo⟩ := objectModel
  obtain ⟨ks, ms⟩ := sceneModel
  cases ko with
  | nil => exact absurd rfl hobject
  | cons a ta =>
    cases ks with
    | nil => exact absurd rfl hscene
    | cons b tb =>
      have ha : a.polyType = kernel.KernelType.R3 := ho a (List.mem_cons_self _ _)
      have hb : b.polyType = kernel.KernelType.R3XS2P := hs b (List.mem_cons_self _ _)
      simp [load, loadNormals, KernelCollection.size, KernelCollection.front, ha, hb,
        bind, Except.bind, pure, Except.pure]

/-- Witness of the amended C2 on the three-point clouds. -/
theorem load_domain_mismatch_without_normals_witness :
    load Sample.env (Sample.estimator none false)
      (Sample.objectCloud kernel.KernelType.R3) (Sample.sceneCloud kernel.KernelType.R3XS2P)
      "" ⟨0, 0, 10⟩ true false []
      = .error "Input point clouds must be defined on the same domain." :=
  load_domain_mismatch_without_normals _ _ _ _ _ _ _ _ (by decide) (by decide) (by decide)
    (by decide)

/-! ## Scoring and the choice of the best chain -/

/-- A left fold that adds one term per element is the start value plus the sum. -/
theorem foldl_add_eq_sum {α : Type} (f : α → ℚ) (l : List α) (a : ℚ) :
    l.foldl (fun w i => w + f i) a = a + (l.map f).sum := by
  induction l generalizing a with
  | nil => simp
  | cons x xs ih => simp [ih, add_assoc]

/-- The fold of `sortBegin1` returns an element of the list of largest weight. -/
theorem foldl_best_spec (ps : List kernel.se3) (p : kernel.se3) :
    ps.foldl (fun best q => if q.getWeight > best.getWeight then q else best) p ∈ p :: ps ∧
    ∀ q ∈ p :: ps, q.getWeight ≤
      (ps.foldl (fun best q => if q.getWeight > best.getWeight then q else best) p).getWeight := by
  induction ps generalizing p with
  | nil => simp
  | cons a as ih =>
    simp only [List.foldl_cons]
    by_cases h : a.getWeight > p.getWeight
    · rw [if_pos h]
      obtain ⟨hm, hmax⟩ := ih a
      refine ⟨List.mem_cons_of_mem _ hm, ?_⟩
      intro q hq
      rcases List.mem_cons.1 hq with rfl | hq
      · exact le_trans (le_of_lt h) (hmax a (List.mem_cons_self _ _))
      · exact hmax q hq
    · rw [if_neg h]
      obtain ⟨hm, hmax⟩ := ih p
      refine ⟨?_, ?_⟩
      · rcases List.mem_cons.1 hm with hp | hp
        · rw [hp]; exact List.mem_cons_self _ _
        · exact List.mem_cons_of_mem _ (List.mem_cons_of_mem _ hp)
      · intro q hq
        rcases List.mem_cons.1 hq with rfl | hq
        · exact hmax _ (List.mem_cons_self _ _)
        · rcases List.mem_cons.1 hq with rfl | hq
          · exact le_trans (not_lt.1 h) (hmax p (List.mem_cons_self _ _))
          · exact hmax q (List.mem_cons_of_mem _ hq)

/-- A successful `mapExcept` returns one result per input. -/
theorem mapExcept_length {α β : Type} (f : α → Except String β) (l : List α) (r : List β)
    (h : mapExcept f l = .ok r) : r.length = l.length := by
  induction l generalizing r with
  | nil =>
    simp only [mapExcept, Except.ok.injEq] at h
    subst h; rfl
  | cons a as ih =>
    simp only [mapExcept] at h
    rcases hfa : f a with e | b
    · rw [hfa] at h; cases h
    · rw [hfa] at h
      rcases hm : mapExcept f as with e | bs
      · rw [hm] at h; cases h
      · rw [hm] at h
        simp only [Except.ok.injEq] at h
        subst h
        simp [ih bs hm]

/-- C3: when the chains return, `modelToSceneTransformation` returns a pose with the
location and orientation (and bandwidths) of a pose of largest weight among the
`nChains_` poses returned by the chains, and its weight is `findMatchingScore` of that
pose. -/
theorem modelToSceneTransformation_best_chain {ρ : Type} (E : Env ρ) (pe : PoseEstimator)
    (streams : Nat → ρ) (retv : List kernel.se3)
    (hchains : 0 < pe.nChains_)
    (hrun : parallelizerRun pe.nChains_ streams
      (fun g => (mcmc E pe (chainPoints pe) g).map Prod.fst) = .ok retv) :
    (retv.length : Int) = pe.nChains_ ∧
    ∃ p ∈ retv, (∀ q ∈ retv, q.getWeight ≤ p.getWeight) ∧
      modelToSceneTransformation E pe streams
        = .ok ⟨p.loc_, p.ori_, findMatchingScore E pe p, p.loc_h_, p.ori_h_⟩ := by
  have hlen : retv.length = pe.nChains_.toNat := by
    have := mapExcept_length _ _ _ hrun
    simpa using this
  have hlen2 : (retv.length : Int) = pe.nChains_ := by
    rw [hlen]; exact Int.toNat_of_nonneg (le_of_lt hchains)
  refine ⟨hlen2, ?_⟩
  cases retv with
  | nil =>
    simp only [List.length_nil, Nat.cast_zero] at hlen2
    omega
  | cons p ps =>
    obtain ⟨hm, hmax⟩ := foldl_best_spec ps p
    refine ⟨_, hm, hmax, ?_⟩
    simp only [modelToSceneTransformation, bind, Except.bind, hrun, sortBegin1, pure,
      Except.pure, kernel.se3.setWeight]

/-- Witness of C3: three chains on the three-point clouds that return poses of the
weights 10003/30000, 10001/10000 and 10003/30000; the pose returned is the one of the
second chain, with the score 1 in place of the chain weight. -/
theorem modelToSceneTransformation_best_chain_witness :
    (((([⟨⟨1, 1, 3⟩, Sample.identity, 10003 / 30000, 0, 0⟩,
        ⟨⟨1, 2, 3⟩, Sample.identity, 10001 / 10000, 3 / 10, 1 / 10⟩,
        ⟨⟨2, 2, 3⟩, Sample.identity, 10003 / 30000, 3 / 10, 1 / 10⟩] :
          List kernel.se3).length : Int) = Sample.estimatorThreeChains.nChains_) ∧
      ∃ p ∈ ([⟨⟨1, 1, 3⟩, Sample.identity, 10003 / 30000, 0, 0⟩,
          ⟨⟨1, 2, 3⟩, Sample.identity, 10001 / 10000, 3 / 10, 1 / 10⟩,
          ⟨⟨2, 2, 3⟩, Sample.identity, 10003 / 30000, 3 / 10, 1 / 10⟩] : List kernel.se3),
        (∀ q ∈ ([⟨⟨1, 1, 3⟩, Sample.identity, 10003 / 30000, 0, 0⟩,
            ⟨⟨1, 2, 3⟩, Sample.identity, 10001 / 10000, 3 / 10, 1 / 10⟩,
            ⟨⟨2, 2, 3⟩, Sample.identity, 10003 / 30000, 3 / 10, 1 / 10⟩] : List kernel.se3),
          q.getWeight ≤ p.getWeight) ∧
        modelToSceneTransformation Sample.env Sample.estimatorThreeChains Sample.chainStreams
          = .ok ⟨p.loc_, p.ori_, findMatchingScore Sample.env Sample.estimatorThreeChains p,
              p.loc_h_, p.ori_h_⟩) ∧
    modelToSceneTransformation Sample.env Sample.estimatorThreeChains Sample.chainStreams
      = .ok ⟨⟨1, 2, 3⟩, Sample.identity, 1, 3 / 10, 1 / 10⟩ :=
  ⟨modelToSceneTransformation_best_chain Sample.env Sample.estimatorThreeChains
    Sample.chainStreams
    [⟨⟨1, 1, 3⟩, Sample.identity, 10003 / 30000, 0, 0⟩,
     ⟨⟨1, 2, 3⟩, Sample.identity, 10001 / 10000, 3 / 10, 1 / 10⟩,
     ⟨⟨2, 2, 3⟩, Sample.identity, 10003 / 30000, 3 / 10, 1 / 10⟩] (by decide) (by decide!),
   by decide!⟩

/-- C4: outside the partial-view mode, `findMatchingScore` is `1/|object|` times the sum
over the object points of the scene density at the transformed point, times the custom
factor of the pose (one without a custom factor). Evaluations on any collection other
than the scene model, such as the reverse-direction sum on the transformed object, do
not change the value. -/
theorem findMatchingScore_full_view {ρ : Type} (E : Env ρ) (pe : PoseEstimator)
    (pose : kernel.se3) (h : pe.partialview_ = false) :
    findMatchingScore E pe pose
      = 1 / (pe.objectModel_.size : ℚ)
        * (pe.objectModel_.kernels.map (fun o =>
            E.evaluationAt pe.sceneModel_ (E.polyTransformedWith o pose)
              pe.evaluationStrategy_)).sum
        * (match pe.cif_ with
           | some c => c.factor pose
           | none => 1) ∧
    ∀ ev : KernelCollection → kernel.base → EvaluationStrategy → weight_t,
      (∀ q s, ev pe.sceneModel_ q s = E.evaluationAt pe.sceneModel_ q s) →
      findMatchingScore { E with evaluationAt := ev } pe pose = findMatchingScore E pe pose := by
  have key : ∀ E1 : Env ρ, findMatchingScore E1 pe pose
      = 1 / (pe.objectModel_.size : ℚ)
        * (pe.objectModel_.kernels.map (fun o =>
            E1.evaluationAt pe.sceneModel_ (E1.polyTransformedWith o pose)
              pe.evaluationStrategy_)).sum
        * cifFactor pe pose := by
    intro E1
    simp only [findMatchingScore, h, if_true, kernel.se3.setWeight, kernel.se3.getWeight,
      foldl_add_eq_sum, zero_add]
    ring
  refine ⟨?_, ?_⟩
  · rw [key E]; rfl
  · intro ev hev
    rw [key, key]
    simp only [hev]

/-- Witness of C4: the score of the true translation on the three-point clouds, also
with an evaluation function that answers 42 on every collection but the scene. -/
theorem findMatchingScore_full_view_witness :
    findMatchingScore Sample.env (Sample.estimator none false) (Sample.translation 1 2 3 7)
      = 1 / ((Sample.estimator none false).objectModel_.size : ℚ)
        * ((Sample.estimator none false).objectModel_.kernels.map (fun o =>
            Sample.env.evaluationAt (Sample.estimator none false).sceneModel_
              (Sample.env.polyTransformedWith o (Sample.translation 1 2 3 7))
              (Sample.estimator none false).evaluationStrategy_)).sum
        * (match (Sample.estimator none false).cif_ with
           | some c => c.factor (Sample.translation 1 2 3 7)
           | none => 1) ∧
    findMatchingScore
        { Sample.env with
          evaluationAt := fun kc q s =>
            if kc = (Sample.estimator none false).sceneModel_ then
              Sample.env.evaluationAt kc q s
            else 42 }
        (Sample.estimator none false) (Sample.translation 1 2 3 7)
      = findMatchingScore Sample.env (Sample.estimator none false)
          (Sample.translation 1 2 3 7) :=
  ⟨(findMatchingScore_full_view Sample.env (Sample.estimator none false)
      (Sample.translation 1 2 3 7) rfl).1,
   (findMatchingScore_full_view Sample.env (Sample.estimator none false)
      (Sample.translation 1 2 3 7) rfl).2 _ (fun _ _ => if_pos rfl)⟩

/-- C5 fails on the code: in partial-view mode the sum starts from the weight of the
argument instead of zero. On the three-point clouds one point is visible and the scene
density there is 1, so the described score is 1; the code returns 6 for a pose of
weight 5 and 1 only for a pose of weight 0. -/
theorem findMatchingScore_partial_view_starts_from_pose_weight :
    findMatchingScore Sample.env (Sample.estimator none true) (Sample.translation 1 2 3 5) = 6 ∧
    describedPartialScore Sample.env (Sample.estimator none true)
      (Sample.translation 1 2 3 5) = 1 ∧
    findMatchingScore Sample.env (Sample.estimator none true) (Sample.translation 1 2 3 0) = 1 := by
  decide!

/-! ## The proposal loops -/

/-- A failed loop is within every bound that covers its count. -/
theorem withinBound_failed {ρ : Type} (reject : kernel.se3 → Bool) (bound c : Nat)
    (msg : String) (h : c ≤ bound) :
    (Proposal.failed msg c : Proposal ρ).WithinBound reject bound := by
  unfold Proposal.WithinBound
  refine ⟨h, ?_, ?_⟩
  · intro g k e
    cases e
  · intro p l g k e
    cases e

/-- A loop that leaves with an accepted pose is within every bound that covers its count. -/
theorem withinBound_found {ρ : Type} (reject : kernel.se3 → Bool) (bound c : Nat)
    (nextPose : kernel.se3) (indices : List Nat) (g : ρ) (h : c ≤ bound)
    (hr : reject nextPose = false) :
    (Proposal.found nextPose indices g c).WithinBound reject bound := by
  unfold Proposal.WithinBound
  refine ⟨h, ?_, ?_⟩
  · intro g1 k e
    cases e
  · intro p l g1 k e
    cases e
    exact hr

/-- A loop that ran out after `bound` candidates is within the bound. -/
theorem withinBound_exhausted {ρ : Type} (reject : kernel.se3 → Bool) (bound : Nat) (g : ρ) :
    (Proposal.exhausted g bound).WithinBound reject bound := by
  unfold Proposal.WithinBound
  refine ⟨le_refl _, ?_, ?_⟩
  · intro g1 k e
    cases e
    rfl
  · intro p l g1 k e
    cases e

/-- The independent-proposal loop started with `remaining` iterations left and `c`
candidates generated so far stays within `c + remaining`. -/
theorem independentLoop_withinBound {ρ : Type} (E : Env ρ) (pe : PoseEstimator) (n : Int)
    (remaining : Nat) (indices : List Nat) (g : ρ) (c : Nat) :
    (independentLoop E pe n remaining indices g c).WithinBound (cifRejects pe)
      (c + remaining) := by
  induction remaining generalizing indices g c with
  | zero => exact withinBound_exhausted _ _ _
  | succ m ih =>
    have step : ∀ (l : List Nat) (g1 : ρ),
        (independentLoop E pe n m l g1 (c + 1)).WithinBound (cifRejects pe) (c + (m + 1)) := by
      intro l g1
      have h := ih l g1 (c + 1)
      have e : c + 1 + m = c + (m + 1) := by omega
      rw [e] at h
      exact h
    simp only [independentLoop]
    repeat' split
    all_goals first
      | exact step _ _
      | exact withinBound_failed _ _ _ _ (by omega)
      | exact withinBound_found _ _ _ _ _ _ (by omega) (Bool.eq_false_iff.2 (by assumption))

/-- The local-proposal loop started with `remaining` iterations left and `c` candidates
generated so far stays within `c + remaining`. -/
theorem localLoop_withinBound {ρ : Type} (E : Env ρ) (pe : PoseEstimator)
    (currentPose : kernel.se3) (n : Int)
    (remaining : Nat) (indices : List Nat) (g : ρ) (c : Nat) :
    (localLoop E pe currentPose n remaining indices g c).WithinBound (cifRejects pe)
      (c + remaining) := by
  induction remaining generalizing indices g c with
  | zero => exact withinBound_exhausted _ _ _
  | succ m ih =>
    have step : ∀ (l : List Nat) (g1 : ρ),
        (localLoop E pe currentPose n m l g1 (c + 1)).WithinBound (cifRejects pe)
          (c + (m + 1)) := by
      intro l g1
      have h := ih l g1 (c + 1)
      have e : c + 1 + m = c + (m + 1) := by omega
      rw [e] at h
      exact h
    simp only [localLoop]
    repeat' split
    all_goals first
      | exact step _ _
      | exact withinBound_found _ _ _ _ _ _ (by omega) (Bool.eq_false_iff.2 (by assumption))

/-- The proposal phase of a step generates at most 100 candidates, exactly 100 when it
runs out, and a pose it proposes passes the custom test. -/
theorem propose_withinBound {ρ : Type} (E : Env ρ) (pe : PoseEstimator)
    (currentPose : kernel.se3) (firstRun : Bool) (n : Int) (g : ρ) :
    (propose E pe currentPose firstRun n g).2.WithinBound (cifRejects pe) 100 := by
  simp only [propose]
  split
  · have h := independentLoop_withinBound E pe n 100
      (E.random_shuffle (E.sampleBegin pe.objectModel_ n g).1
        (E.sampleBegin pe.objectModel_ n g).2).1
      (E.uniform (E.random_shuffle (E.sampleBegin pe.objectModel_ n g).1
        (E.sampleBegin pe.objectModel_ n g).2).2).2 0
    simpa using h
  · have h := localLoop_withinBound E pe currentPose n 100
      (E.random_shuffle (E.sampleBegin pe.objectModel_ n g).1
        (E.sampleBegin pe.objectModel_ n g).2).1
      (E.uniform (E.random_shuffle (E.sampleBegin pe.objectModel_ n g).1
        (E.sampleBegin pe.objectModel_ n g).2).2).2 0
    simpa using h

/-! ## The loop over the points of the model -/

/-- A successful `mapExcept` on a non-empty list: the head and the tail succeed. -/
theorem mapExcept_cons_ok {α β : Type} (f : α → Except String β) (a : α) (l : List α)
    (r : List β) (h : mapExcept f (a :: l) = .ok r) :
    ∃ b bs, f a = .ok b ∧ mapExcept f l = .ok bs ∧ r = b :: bs := by
  simp only [mapExcept] at h
  rcases hfa : f a with e | b
  · rw [hfa] at h; cases h
  · rw [hfa] at h
    rcases hm : mapExcept f l with e | bs
    · rw [hm] at h; cases h
    · rw [hm] at h
      simp only [Except.ok.injEq] at h
      exact ⟨b, bs, rfl, rfl, h.symm⟩

/-- A successful `mapExcept` succeeds on every prefix, with the prefix of the results. -/
theorem mapExcept_take {α β : Type} (f : α → Except String β) (l : List α) (r : List β)
    (m k : Nat) (h : mapExcept f (l.take m) = .ok r) (hk : k ≤ m) :
    mapExcept f (l.take k) = .ok (r.take k) := by
  induction l generalizing r m k with
  | nil =>
    simp only [List.take_nil, mapExcept, Except.ok.injEq] at h ⊢
    subst h; simp
  | cons a as ih =>
    cases k with
    | zero => simp [mapExcept]
    | succ k =>
      cases m with
      | zero => omega
      | succ m =>
        simp only [List.take_succ_cons] at h ⊢
        obtain ⟨b, bs, hb, hbs, rfl⟩ := mapExcept_cons_ok f a _ r h
        simp only [mapExcept, hb, ih bs m k hbs (by omega), List.take_succ_cons]

/-- Whatever the loop over the points returns is the state on entry or the proposed
pose. -/
theorem pointLoop_result {ρ : Type} (E : Env ρ) (pe : PoseEstimator) (currentPose : kernel.se3)
    (currentWeight temperature : weight_t) (firstRun independentProposal : Bool)
    (nextPose : kernel.se3) (threshold factor : weight_t) (size : Nat)
    (rest : List Nat) (pi : Nat) (acc : weight_t) (p : kernel.se3) (w : weight_t) (k : Nat)
    (h : pointLoop E pe currentPose currentWeight temperature firstRun independentProposal
      nextPose threshold factor size rest pi acc = .ok (p, w, k)) :
    (p = currentPose ∧ w = currentWeight) ∨ p = nextPose := by
  induction rest generalizing pi acc with
  | nil => simp [pointLoop] at h
  | cons idx rest ih =>
    simp only [pointLoop] at h
    split at h
    · cases h
    · repeat' split at h
      all_goals first
        | exact ih _ _ h
        | (simp only [Except.ok.injEq, Prod.mk.injEq] at h
           first
             | exact Or.inl ⟨h.1.symm, h.2.1.symm⟩
             | exact Or.inr h.1.symm)

/-- First run: the loop reaches the last index and returns the proposed pose with the
weight computed from all the points. -/
theorem pointLoop_first_run {ρ : Type} (E : Env ρ) (pe : PoseEstimator)
    (currentPose : kernel.se3) (currentWeight temperature : weight_t)
    (independentProposal : Bool) (nextPose : kernel.se3) (threshold : weight_t) (size : Nat)
    (hlast : size ≤ (size - 1) * (size - 1))
    (rest : List Nat) (pi : Nat) (acc : weight_t) (ws : List weight_t)
    (hws : pointWeights E pe nextPose rest = .ok ws)
    (hne : rest ≠ []) (hsize : pi + rest.length = size) :
    pointLoop E pe currentPose currentWeight temperature true independentProposal
      nextPose threshold (cifFactor pe nextPose) size rest pi acc
      = .ok (nextPose, nextWeightOf E pe (acc + ws.sum) (size - 1), size) := by
  induction rest generalizing pi acc ws with
  | nil => exact absurd rfl hne
  | cons idx rest ih =>
    obtain ⟨w, ws1, hw, hws1, rfl⟩ := mapExcept_cons_ok _ _ _ _ hws
    simp only [pointLoop, hw]
    cases rest with
    | nil =>
      simp only [List.length_singleton] at hsize
      subst hsize
      simp only [Nat.add_sub_cancel] at hlast ⊢
      have hnot : ¬ pi * pi < pi + 1 := not_lt.2 hlast
      simp only [pointWeights, mapExcept, Except.ok.injEq] at hws1
      subst hws1
      simp [hnot]
    | cons idx2 rest2 =>
      have hlt : pi + 1 ≠ size := by
        simp only [List.length_cons] at hsize; omega
      have hrec := ih (pi + 1) (acc + w) ws1 hws1 (by simp)
        (by simp only [List.length_cons] at hsize ⊢; omega)
      have hsum : acc + w + ws1.sum = acc + (w :: ws1).sum := by
        simp [add_assoc]
      rw [hsum] at hrec
      by_cases hsq : pi * pi < size
      · simp only [hsq, if_true]
        exact hrec
      · simp only [hsq, if_false, if_true, hlt]
        exact hrec

/-- Later runs without early abort: the loop reaches the last index and takes the
Metropolis-Hastings decision there, on the weight computed from all the points. -/
theorem pointLoop_decision {ρ : Type} (E : Env ρ) (pe : PoseEstimator)
    (currentPose : kernel.se3) (currentWeight temperature : weight_t)
    (independentProposal : Bool) (nextPose : kernel.se3) (threshold : weight_t) (size : Nat)
    (hlast : size ≤ (size - 1) * (size - 1))
    (rest : List Nat) (pi : Nat) (acc : weight_t) (ws : List weight_t)
    (hws : pointWeights E pe nextPose rest = .ok ws)
    (hne : rest ≠ []) (hsize : pi + rest.length = size)
    (hno : ∀ j, j < rest.length → size ≤ (pi + j) * (pi + j) →
      ¬ (decOf E independentProposal (nextWeightOf E pe (acc + (ws.take (j + 1)).sum) (pi + j))
        currentWeight temperature).lt (6 / 10 * threshold) = true) :
    pointLoop E pe currentPose currentWeight temperature false independentProposal
      nextPose threshold (cifFactor pe nextPose) size rest pi acc
      = .ok (if (decOf E independentProposal (nextWeightOf E pe (acc + ws.sum) (size - 1))
              currentWeight temperature).gt threshold = true
            then (nextPose, nextWeightOf E pe (acc + ws.sum) (size - 1), size)
            else (currentPose, currentWeight, size)) := by
  induction rest generalizing pi acc ws with
  | nil => exact absurd rfl hne
  | cons idx rest ih =>
    obtain ⟨w, ws1, hw, hws1, rfl⟩ := mapExcept_cons_ok _ _ _ _ hws
    simp only [pointLoop, hw]
    cases rest with
    | nil =>
      simp only [List.length_singleton] at hsize
      subst hsize
      simp only [Nat.add_sub_cancel] at hlast ⊢
      have hnot : ¬ pi * pi < pi + 1 := not_lt.2 hlast
      simp only [pointWeights, mapExcept, Except.ok.injEq] at hws1
      subst hws1
      have h0 := hno 0 (by simp) (by simpa using hlast)
      simp only [add_zero, zero_add, List.take_succ_cons, List.take_zero, List.sum_cons,
        List.sum_nil] at h0
      simp only [hnot, if_false, if_true, Bool.false_eq_true, List.sum_cons,
        List.sum_nil, add_zero, h0]
      split <;> rfl
    | cons idx2 rest2 =>
      have hlt : pi + 1 ≠ size := by
        simp only [List.length_cons] at hsize; omega
      have hrec := ih (pi + 1) (acc + w) ws1 hws1 (by simp)
        (by simp only [List.length_cons] at hsize ⊢; omega)
        (by
          intro j hj hev
          have h1 := hno (j + 1) (by simp only [List.length_cons] at hj ⊢; omega)
            (by
              have e : pi + (j + 1) = pi + 1 + j := by omega
              rw [e]; exact hev)
          have e : pi + (j + 1) = pi + 1 + j := by omega
          rw [e] at h1
          simpa [List.take_succ_cons, add_assoc] using h1)
      have hsum : acc + w + ws1.sum = acc + (w :: ws1).sum := by
        simp [add_assoc]
      rw [hsum] at hrec
      by_cases hsq : pi * pi < size
      · simp only [hsq, if_true]
        exact hrec
      · have h0 := hno 0 (by simp) (by simpa using not_lt.1 hsq)
        simp only [add_zero, zero_add, List.take_succ_cons, List.take_zero, List.sum_cons,
          List.sum_nil] at h0
        simp only [hsq, if_false, Bool.false_eq_true, h0, hlt]
        exact hrec

/-- Later runs: at the first evaluated index where the early-abort test holds, the loop
returns the state on entry. -/
theorem pointLoop_early_abort {ρ : Type} (E : Env ρ) (pe : PoseEstimator)
    (currentPose : kernel.se3) (currentWeight temperature : weight_t)
    (independentProposal : Bool) (nextPose : kernel.se3) (threshold : weight_t) (size : Nat)
    (rest : List Nat) (pi : Nat) (acc : weight_t) (ws : List weight_t) (m j0 : Nat)
    (hws : pointWeights E pe nextPose (rest.take m) = .ok ws)
    (hj0 : j0 < m) (hlen : j0 < rest.length) (hsize : pi + rest.length = size)
    (hev : size ≤ (pi + j0) * (pi + j0))
    (habort : (decOf E independentProposal
      (nextWeightOf E pe (acc + (ws.take (j0 + 1)).sum) (pi + j0))
      currentWeight temperature).lt (6 / 10 * threshold) = true)
    (hmin : ∀ j, j < j0 → size ≤ (pi + j) * (pi + j) →
      ¬ (decOf E independentProposal (nextWeightOf E pe (acc + (ws.take (j + 1)).sum) (pi + j))
        currentWeight temperature).lt (6 / 10 * threshold) = true) :
    pointLoop E pe currentPose currentWeight temperature false independentProposal
      nextPose threshold (cifFactor pe nextPose) size rest pi acc
      = .ok (currentPose, currentWeight, pi + j0 + 1) := by
  induction rest generalizing pi acc ws m j0 with
  | nil => simp at hlen
  | cons idx rest ih =>
    cases m with
    | zero => omega
    | succ m =>
      simp only [List.take_succ_cons] at hws
      obtain ⟨w, ws1, hw, hws1, rfl⟩ := mapExcept_cons_ok _ _ _ _ hws
      simp only [pointLoop, hw]
      cases j0 with
      | zero =>
        simp only [add_zero, zero_add, List.take_succ_cons, List.take_zero, List.sum_cons,
          List.sum_nil] at hev habort
        simp only [not_lt.2 hev, if_false, Bool.false_eq_true, habort, if_true, add_zero]
      | succ j =>
        simp only [List.length_cons] at hlen hsize
        have hlt : pi + 1 ≠ size := by omega
        have e : pi + (j + 1) = pi + 1 + j := by omega
        have hrec := ih (pi + 1) (acc + w) ws1 m j hws1 (by omega) (by omega) (by omega)
          (by rw [← e]; exact hev)
          (by
            rw [← e]
            simpa [List.take_succ_cons, add_assoc] using habort)
          (by
            intro i hi hevi
            have e2 : pi + (i + 1) = pi + 1 + i := by omega
            have h1 := hmin (i + 1) (by omega) (by rw [e2]; exact hevi)
            rw [e2] at h1
            simpa [List.take_succ_cons, add_assoc] using h1)
        have e3 : pi + 1 + j + 1 = pi + (j + 1) + 1 := by omega
        rw [e3] at hrec
        by_cases hsq : pi * pi < size
        · simp only [hsq, if_true]
          exact hrec
        · have h0 := hmin 0 (by omega) (by simpa using not_lt.1 hsq)
          simp only [add_zero, zero_add, List.take_succ_cons, List.take_zero, List.sum_cons,
            List.sum_nil] at h0
          simp only [hsq, if_false, Bool.false_eq_true, h0, hlt]
          exact hrec

/-- With at least three indices the last index passes the test on the square root. -/
theorem last_index_evaluated (size : Nat) (h : 3 ≤ size) : size ≤ (size - 1) * (size - 1) := by
  obtain ⟨k, rfl⟩ : ∃ k, size = k + 3 := ⟨size - 3, by omega⟩
  have e : k + 3 - 1 = k + 2 := by omega
  rw [e]
  nlinarith

/-- Conversion of `pi + 1.` at the last index into the number of indices. -/
theorem cast_pred_add_one (size : Nat) (h : 1 ≤ size) : (((size - 1 : Nat) : ℚ) + 1) = size := by
  have e : size - 1 + 1 = size := by omega
  exact_mod_cast e

/-- Value of `nextWeight` at the last index. -/
theorem nextWeightOf_last {ρ : Type} (E : Env ρ) (pe : PoseEstimator) (S : weight_t)
    (size : Nat) (h : 1 ≤ size) :
    nextWeightOf E pe S (size - 1)
      = if pe.partialview_ = true then S / E.sqrt (size : ℚ) else S / (size : ℚ) := by
  simp only [nextWeightOf, cast_pred_add_one size h]

/-! ## The Metropolis-Hastings step -/

/-- On the first run the proposal is the independent one, whatever is drawn. -/
theorem propose_first_run {ρ : Type} (E : Env ρ) (pe : PoseEstimator)
    (currentPose : kernel.se3) (n : Int) (g : ρ) :
    propose E pe currentPose true n g
      = (true, independentLoop E pe n 100
          (E.random_shuffle (E.sampleBegin pe.objectModel_ n g).1
            (E.sampleBegin pe.objectModel_ n g).2).1
          (E.uniform (E.random_shuffle (E.sampleBegin pe.objectModel_ n g).1
            (E.sampleBegin pe.objectModel_ n g).2).2).2 0) := by
  simp [propose]

/-- A step returns the state on entry or a pose that passes the custom test. -/
theorem metropolisHastings_result {ρ : Type} (E : Env ρ) (pe : PoseEstimator)
    (currentPose : kernel.se3) (currentWeight temperature : weight_t) (firstRun : Bool)
    (n : Int) (g : ρ) (r : StepResult ρ)
    (h : metropolisHastings E pe currentPose currentWeight temperature firstRun n g = .ok r) :
    (r.currentPose = currentPose ∧ r.currentWeight = currentWeight) ∨
      cifRejects pe r.currentPose = false := by
  have hb := propose_withinBound E pe currentPose firstRun n g
  simp only [metropolisHastings] at h
  split at h
  · simp only [Except.ok.injEq] at h
    subst h
    exact Or.inl ⟨rfl, rfl⟩
  · cases h
  · rename_i b nextPose indices g1 c hprop
    rw [hprop] at hb
    have hacc := hb.2.2 nextPose indices g1 c rfl
    split at h
    · cases h
    · rename_i p w k hloop
      simp only [Except.ok.injEq] at h
      subst h
      rcases pointLoop_result _ _ _ _ _ _ _ _ _ _ _ _ _ _ _ _ _ hloop with h1 | h1
      · exact Or.inl h1
      · right
        show cifRejects pe p = false
        rw [h1]
        exact hacc

/-- One step of the chain keeps the invariant. -/
theorem mcmcStep_passes {ρ : Type} (E : Env ρ) (pe : PoseEstimator) (c : CustomIntegrandFactor)
    (hc : pe.cif_ = some c)
    (hdep : ∀ p q : kernel.se3, p.loc_ = q.loc_ → p.ori_ = q.ori_ → c.test p = c.test q)
    (n : Int) (nSteps i : Nat) (s s1 : ChainState ρ) (hs : s.Passes c)
    (h : mcmcStep E pe n nSteps i s = .ok s1) : s1.Passes c := by
  simp only [mcmcStep] at h
  split at h
  · cases h
  · split at h
    · cases h
    · rename_i r hr
      simp only [Except.ok.injEq] at h
      obtain ⟨hcur, hbest0, hbest⟩ := hs
      have hcur1 : r.currentWeight = 0 ∨ c.test r.currentPose = true := by
        rcases metropolisHastings_result _ _ _ _ _ _ _ _ _ hr with ⟨hp, hw⟩ | hacc
        · rcases hcur with h0 | ht
          · exact Or.inl (hw.trans h0)
          · right
            have e : c.test r.currentPose = c.test s.currentPose :=
              hdep _ _ (by rw [hp]; rfl) (by rw [hp]; rfl)
            rw [e]
            exact ht
        · right
          simpa [cifRejects, hc] using hacc
      by_cases hgt : r.currentWeight > s.bestPose.getWeight
      · rw [if_pos hgt] at h
        subst h
        refine ⟨hcur1, ?_, ?_⟩
        · exact le_of_lt (lt_of_le_of_lt hbest0 hgt)
        · intro _
          have hpos : 0 < r.currentWeight := lt_of_le_of_lt hbest0 hgt
          rcases hcur1 with h0 | ht
          · rw [h0] at hpos
            exact absurd hpos (lt_irrefl _)
          · have e : c.test (r.currentPose.setWeight r.currentWeight) = c.test r.currentPose :=
              hdep _ _ rfl rfl
            show c.test (r.currentPose.setWeight r.currentWeight) = true
            rw [e]
            exact ht
      · rw [if_neg hgt] at h
        subst h
        exact ⟨hcur1, hbest0, hbest⟩

/-- The loop of the chain keeps the invariant. -/
theorem mcmcLoop_passes {ρ : Type} (E : Env ρ) (pe : PoseEstimator) (c : CustomIntegrandFactor)
    (hc : pe.cif_ = some c)
    (hdep : ∀ p q : kernel.se3, p.loc_ = q.loc_ → p.ori_ = q.ori_ → c.test p = c.test q)
    (n : Int) (nSteps remaining i : Nat) (s s1 : ChainState ρ) (hs : s.Passes c)
    (h : mcmcLoop E pe n nSteps remaining i s = .ok s1) : s1.Passes c := by
  induction remaining generalizing i s with
  | zero =>
    simp only [mcmcLoop, Except.ok.injEq] at h
    subst h
    exact hs
  | succ k ih =>
    simp only [mcmcLoop] at h
    split at h
    · cases h
    · rename_i s2 hstep
      exact ih _ _ (mcmcStep_passes E pe c hc hdep n nSteps i s s2 hs hstep) h

/-- C6: with a custom integrand factor whose test depends only on the location and the
orientation of a pose, a Metropolis-Hastings step (first run or not, whatever the
proposal kind) returns the chain state it was given or a pose that passes the test, and
the pose returned by `mcmc` passes the test whenever its weight is positive. -/
theorem mcmc_pose_passes_custom_test {ρ : Type} (E : Env ρ) (pe : PoseEstimator)
    (c : CustomIntegrandFactor) (hc : pe.cif_ = some c)
    (hdep : ∀ p q : kernel.se3, p.loc_ = q.loc_ → p.ori_ = q.ori_ → c.test p = c.test q) :
    (∀ (currentPose : kernel.se3) (currentWeight temperature : weight_t) (firstRun : Bool)
       (n : Int) (g : ρ) (r : StepResult ρ),
       metropolisHastings E pe currentPose currentWeight temperature firstRun n g = .ok r →
       (r.currentPose = currentPose ∧ r.currentWeight = currentWeight) ∨
         c.test r.currentPose = true) ∧
    (∀ (n : Int) (g g1 : ρ) (best : kernel.se3),
       mcmc E pe n g = .ok (best, g1) → 0 < best.getWeight → c.test best = true) := by
  refine ⟨?_, ?_⟩
  · intro currentPose currentWeight temperature firstRun n g r h
    rcases metropolisHastings_result _ _ _ _ _ _ _ _ _ h with h1 | h1
    · exact Or.inl h1
    · right
      simpa [cifRejects, hc] using h1
  · intro n g g1 best h hpos
    simp only [mcmc] at h
    split at h
    · cases h
    · rename_i r hr
      split at h
      · cases h
      · rename_i s hloop
        simp only [Except.ok.injEq, Prod.mk.injEq] at h
        have hinit : (⟨r.currentPose, r.currentWeight, E.se3_default.setWeight 0, r.g⟩ :
            ChainState ρ).Passes c := by
          refine ⟨?_, ?_, ?_⟩
          · rcases metropolisHastings_result _ _ _ _ _ _ _ _ _ hr with ⟨_, hw⟩ | hacc
            · exact Or.inl hw
            · right
              simpa [cifRejects, hc] using hacc
          · show (0 : ℚ) ≤ 0
            exact le_refl _
          · intro h0
            exact absurd h0 (lt_irrefl (0 : ℚ))
        have hfin := mcmcLoop_passes E pe c hc hdep n _ _ _ _ _ hinit hloop
        rw [← h.1]
        exact hfin.2.2 (by rw [h.1]; exact hpos)

/-- Value of `dec` when no quotient is by zero and the base of the power is positive:
the finite number of the formula. -/
theorem decOf_finite {ρ : Type} (E : Env ρ) (independentProposal : Bool)
    (nextWeight currentWeight temperature : weight_t)
    (hcw : currentWeight ≠ 0) (hT : temperature ≠ 0) (hr : 0 < nextWeight / currentWeight) :
    decOf E independentProposal nextWeight currentWeight temperature
      = .finite (if independentProposal = true
          then E.pow (nextWeight / currentWeight) (1 / temperature)
            * (currentWeight / nextWeight)
          else E.pow (nextWeight / currentWeight) (1 / temperature)) := by
  have hnw : nextWeight ≠ 0 := by
    intro h0
    rw [h0, zero_div] at hr
    exact lt_irrefl _ hr
  have h1 : ¬ (nextWeight / currentWeight = 0 ∧ 1 / temperature < 0) :=
    fun h => (ne_of_gt hr) h.1
  have h2 : ¬ (nextWeight / currentWeight < 0 ∧ 1 / temperature ≠ ⌊1 / temperature⌋) :=
    fun h => lt_asymm hr h.1
  cases independentProposal <;>
    simp only [decOf, Double.div, hcw, hT, hnw, if_false, Double.pow, h1, h2, Double.mul,
      Bool.false_eq_true, if_true]

/-- Value of `dec` for a current weight zero (the value `mcmc` starts from), a positive
next weight and a positive temperature: infinite for a local proposal, not a number for
an independent one. -/
theorem decOf_zero_current {ρ : Type} (E : Env ρ) (independentProposal : Bool)
    (nextWeight temperature : weight_t) (hnw : 0 < nextWeight) (hT : 0 < temperature) :
    decOf E independentProposal nextWeight 0 temperature
      = (if independentProposal = true then .nan else .posInf) := by
  have hT0 : temperature ≠ 0 := ne_of_gt hT
  have hnw0 : nextWeight ≠ 0 := ne_of_gt hnw
  have h1 : ¬ (1 / temperature = 0) := by
    rw [one_div, inv_eq_zero]
    exact hT0
  have h2 : ¬ (1 / temperature < 0) := not_lt.2 (le_of_lt (one_div_pos.2 hT))
  cases independentProposal <;>
    simp only [decOf, Double.div, hT0, hnw0, hnw, if_false, if_true, Double.pow, h1, h2,
      Double.mul, Bool.false_eq_true, zero_div]

/-- C7: a later run whose proposal is found, with at least three indices, all points
evaluated and no early abort at any evaluated index, ends at the last index: the chain
state becomes the proposed pose with the weight computed from all the points when
`dec > u`, and is unchanged otherwise; `dec` is computed with the arithmetic of
`double`. When no quotient is by zero and the ratio of the weights is positive `dec` is
the finite number `(next_weight/current_weight)^(1/T)`, times
`current_weight/next_weight` for an independent proposal; for a current weight zero, a
positive next weight and a positive temperature, `dec` is infinite for a local proposal,
which is stored, and not a number for an independent one, which is not. -/
theorem metropolisHastings_decision_at_last_index {ρ : Type} (E : Env ρ) (pe : PoseEstimator)
    (currentPose : kernel.se3) (currentWeight temperature : weight_t) (n : Int) (g : ρ)
    (independentProposal : Bool) (nextPose : kernel.se3) (indices : List Nat) (g1 : ρ)
    (c : Nat) (u : weight_t) (g2 : ρ) (ws : List weight_t) (nextWeight : weight_t)
    (hprop : propose E pe currentPose false n g
      = (independentProposal, .found nextPose indices g1 c))
    (hu : E.uniform g1 = (u, g2))
    (hlen : 3 ≤ indices.length)
    (hws : pointWeights E pe nextPose indices = .ok ws)
    (hno : ∀ pi, pi < indices.length → indices.length ≤ pi * pi →
      ¬ abortsAt E pe independentProposal currentWeight temperature u ws pi)
    (hnw : nextWeight = if pe.partialview_ = true then ws.sum / E.sqrt (indices.length : ℚ)
      else ws.sum / (indices.length : ℚ)) :
    metropolisHastings E pe currentPose currentWeight temperature false n g
      = .ok (if (decOf E independentProposal nextWeight currentWeight temperature).gt u = true
             then ⟨nextPose, nextWeight, g2, c, indices.length⟩
             else ⟨currentPose, currentWeight, g2, c, indices.length⟩) ∧
    (currentWeight ≠ 0 → temperature ≠ 0 → 0 < nextWeight / currentWeight →
      ((decOf E independentProposal nextWeight currentWeight temperature).gt u = true ↔
        (if independentProposal = true
          then E.pow (nextWeight / currentWeight) (1 / temperature)
            * (currentWeight / nextWeight)
          else E.pow (nextWeight / currentWeight) (1 / temperature)) > u)) ∧
    (currentWeight = 0 → 0 < nextWeight → 0 < temperature →
      ((decOf E independentProposal nextWeight currentWeight temperature).gt u = true ↔
        independentProposal = false)) := by
  have hne : indices ≠ [] := by
    intro h0
    rw [h0] at hlen
    simp at hlen
  have hloop := pointLoop_decision E pe currentPose currentWeight temperature
    independentProposal nextPose u indices.length (last_index_evaluated _ hlen)
    indices 0 0 ws hws hne (by simp)
    (by
      intro j hj hev
      have h1 := hno j hj (by simpa using hev)
      simpa [abortsAt] using h1)
  rw [zero_add, nextWeightOf_last E pe ws.sum indices.length (by omega), ← hnw] at hloop
  refine ⟨?_, ?_, ?_⟩
  · simp only [metropolisHastings, hprop, hu, hloop]
    split <;> rfl
  · intro hcw hT hr
    rw [decOf_finite E independentProposal nextWeight currentWeight temperature hcw hT hr]
    simp only [Double.gt, decide_eq_true_eq]
  · intro hcw hpos hT
    subst hcw
    rw [decOf_zero_current E independentProposal nextWeight temperature hpos hT]
    cases independentProposal <;> simp [Double.gt]

/-- The early-abort test in the finite case and for a current weight zero. -/
theorem abortsAt_cases {ρ : Type} (E : Env ρ) (pe : PoseEstimator) (independentProposal : Bool)
    (currentWeight temperature threshold : weight_t) (ws : List weight_t) (pi : Nat) :
    (currentWeight ≠ 0 → temperature ≠ 0 →
      0 < nextWeightOf E pe (ws.take (pi + 1)).sum pi / currentWeight →
      (abortsAt E pe independentProposal currentWeight temperature threshold ws pi ↔
        (if independentProposal = true
          then E.pow (nextWeightOf E pe (ws.take (pi + 1)).sum pi / currentWeight)
              (1 / temperature)
            * (currentWeight / nextWeightOf E pe (ws.take (pi + 1)).sum pi)
          else E.pow (nextWeightOf E pe (ws.take (pi + 1)).sum pi / currentWeight)
              (1 / temperature)) < 6 / 10 * threshold)) ∧
    (currentWeight = 0 → 0 < nextWeightOf E pe (ws.take (pi + 1)).sum pi → 0 < temperature →
      ¬ abortsAt E pe independentProposal currentWeight temperature threshold ws pi) := by
  refine ⟨?_, ?_⟩
  · intro hcw hT hr
    unfold abortsAt
    rw [decOf_finite E independentProposal _ currentWeight temperature hcw hT hr]
    simp only [Double.lt, decide_eq_true_eq]
  · intro hcw hpos hT
    subst hcw
    unfold abortsAt
    rw [decOf_zero_current E independentProposal _ temperature hpos hT]
    cases independentProposal <;> simp [Double.lt]

/-- Among the indices up to one where a property holds there is a first one. -/
theorem exists_first_index (P : Nat → Prop) (n : Nat) (h : P n) :
    ∃ k, k ≤ n ∧ P k ∧ ∀ j, j < k → ¬ P j := by
  classical
  exact ⟨Nat.find ⟨n, h⟩, Nat.find_min' _ h, Nat.find_spec _, fun j hj => Nat.find_min _ hj⟩

/-- C8: in a later run whose proposal is found, if the early-abort test `dec < 0.6 u`
holds at some evaluated index `pi` (the points up to `pi` being evaluated), the step
returns at the first such index `k`, after `k + 1` evaluations, and the chain state is
the one on entry. The test is the one of the code on `double`: with no quotient by zero
and a positive ratio of the weights it compares the finite number of the formula, and it
fails for a current weight zero with a positive next weight and temperature. -/
theorem metropolisHastings_early_abort {ρ : Type} (E : Env ρ) (pe : PoseEstimator)
    (currentPose : kernel.se3) (currentWeight temperature : weight_t) (n : Int) (g : ρ)
    (independentProposal : Bool) (nextPose : kernel.se3) (indices : List Nat) (g1 : ρ)
    (c : Nat) (u : weight_t) (g2 : ρ) (ws : List weight_t) (pi : Nat)
    (hprop : propose E pe currentPose false n g
      = (independentProposal, .found nextPose indices g1 c))
    (hu : E.uniform g1 = (u, g2))
    (hpi : pi < indices.length) (hev : indices.length ≤ pi * pi)
    (hws : pointWeights E pe nextPose (indices.take (pi + 1)) = .ok ws)
    (habort : abortsAt E pe independentProposal currentWeight temperature u ws pi) :
    ∃ k, k ≤ pi ∧ indices.length ≤ k * k ∧
      abortsAt E pe independentProposal currentWeight temperature u ws k ∧
      (∀ j, j < k → indices.length ≤ j * j →
        ¬ abortsAt E pe independentProposal currentWeight temperature u ws j) ∧
      metropolisHastings E pe currentPose currentWeight temperature false n g
        = .ok ⟨currentPose, currentWeight, g2, c, k + 1⟩ := by
  obtain ⟨k, hkle, ⟨hk1, hk2⟩, hkmin⟩ := exists_first_index
    (fun k => indices.length ≤ k * k ∧
      abortsAt E pe independentProposal currentWeight temperature u ws k) pi ⟨hev, habort⟩
  have hmin : ∀ j, j < k → indices.length ≤ j * j →
      ¬ abortsAt E pe independentProposal currentWeight temperature u ws j :=
    fun j hj hevj hab => hkmin j hj ⟨hevj, hab⟩
  refine ⟨k, hkle, hk1, hk2, hmin, ?_⟩
  have hloop := pointLoop_early_abort E pe currentPose currentWeight temperature
    independentProposal nextPose u indices.length indices 0 0 ws (pi + 1) k
    hws (by omega) (by omega) (by rw [zero_add])
    (by rw [zero_add]; exact hk1)
    (by rw [zero_add, zero_add]; exact hk2)
    (by
      intro j hj hevj
      rw [zero_add] at hevj
      rw [zero_add, zero_add]
      exact hmin j hj hevj)
  have e : 0 + k + 1 = k + 1 := by omega
  rw [e] at hloop
  unfold metropolisHastings
  rw [hprop]
  simp only [hu]
  rw [hloop]

/-- C9: the proposal loop of a step, independent or local, generates at most 100
candidate poses; when it runs out, which takes 100 rejected candidates, the step returns
the chain state on entry without a single scene evaluation. -/
theorem metropolisHastings_retry_limit {ρ : Type} (E : Env ρ) (pe : PoseEstimator)
    (currentPose : kernel.se3) (currentWeight temperature : weight_t) (firstRun : Bool)
    (n : Int) (g : ρ) :
    (propose E pe currentPose firstRun n g).2.generated ≤ 100 ∧
    ∀ g1 k, (propose E pe currentPose firstRun n g).2 = .exhausted g1 k →
      k = 100 ∧
      metropolisHastings E pe currentPose currentWeight temperature firstRun n g
        = .ok ⟨currentPose, currentWeight, g1, 100, 0⟩ := by
  have hb := propose_withinBound E pe currentPose firstRun n g
  refine ⟨hb.1, ?_⟩
  intro g1 k hex
  have hk := hb.2.1 g1 k hex
  subst hk
  refine ⟨rfl, ?_⟩
  have hp : propose E pe currentPose firstRun n g
      = ((propose E pe currentPose firstRun n g).1, .exhausted g1 100) := by
    rw [← hex]
  simp only [metropolisHastings]
  rw [hp]

/-- C10: on the first run, when a proposal is found and the index list has at least
three entries whose points are evaluated, the proposal is the independent one whatever
is drawn, and the step returns the proposed pose with the weight `S/|indices|`
(`S/sqrt(|indices|)` in partial-view mode), `S` being the sum of the contributions of
all the indices. The chain state on entry, the temperature and the threshold have no
influence. -/
theorem metropolisHastings_first_run_seeds {ρ : Type} (E : Env ρ) (pe : PoseEstimator)
    (currentPose : kernel.se3) (currentWeight temperature : weight_t) (n : Int) (g : ρ)
    (independentProposal : Bool) (nextPose : kernel.se3) (indices : List Nat) (g1 : ρ)
    (c : Nat) (u : weight_t) (g2 : ρ) (ws : List weight_t)
    (hprop : propose E pe currentPose true n g
      = (independentProposal, .found nextPose indices g1 c))
    (hu : E.uniform g1 = (u, g2))
    (hlen : 3 ≤ indices.length)
    (hws : pointWeights E pe nextPose indices = .ok ws) :
    independentProposal = true ∧
    metropolisHastings E pe currentPose currentWeight temperature true n g
      = .ok ⟨nextPose,
          (if pe.partialview_ = true then ws.sum / E.sqrt (indices.length : ℚ)
           else ws.sum / (indices.length : ℚ)),
          g2, c, indices.length⟩ ∧
    (∀ (pose : kernel.se3) (weight temp : weight_t),
      metropolisHastings E pe pose weight temp true n g
        = metropolisHastings E pe currentPose currentWeight temperature true n g) ∧
    (∀ (pose : kernel.se3) (weight temp threshold : weight_t) (kind : Bool),
      pointLoop E pe pose weight temp true kind nextPose threshold (cifFactor pe nextPose)
          indices.length indices 0 0
        = .ok (nextPose,
            (if pe.partialview_ = true then ws.sum / E.sqrt (indices.length : ℚ)
             else ws.sum / (indices.length : ℚ)),
            indices.length)) := by
  have hne : indices ≠ [] := by
    intro h0
    rw [h0] at hlen
    simp at hlen
  have hloop : ∀ (pose : kernel.se3) (weight temp threshold : weight_t) (kind : Bool),
      pointLoop E pe pose weight temp true kind nextPose threshold (cifFactor pe nextPose)
          indices.length indices 0 0
        = .ok (nextPose,
            (if pe.partialview_ = true then ws.sum / E.sqrt (indices.length : ℚ)
             else ws.sum / (indices.length : ℚ)),
            indices.length) := by
    intro pose weight temp threshold kind
    have h := pointLoop_first_run E pe pose weight temp kind nextPose threshold
      indices.length (last_index_evaluated _ hlen) indices 0 0 ws hws hne (by simp)
    rw [zero_add, nextWeightOf_last E pe ws.sum indices.length (by omega)] at h
    exact h
  have hkind : independentProposal = true := by
    rw [propose_first_run] at hprop
    exact (congrArg Prod.fst hprop).symm
  have hany : ∀ (pose : kernel.se3) (weight temp : weight_t),
      metropolisHastings E pe pose weight temp true n g
        = .ok ⟨nextPose,
            (if pe.partialview_ = true then ws.sum / E.sqrt (indices.length : ℚ)
             else ws.sum / (indices.length : ℚ)),
            g2, c, indices.length⟩ := by
    intro pose weight temp
    have hp : propose E pe pose true n g
        = (independentProposal, .found nextPose indices g1 c) := by
      rw [propose_first_run] at hprop ⊢
      exact hprop
    simp only [metropolisHastings, hp, hu, hloop]
  refine ⟨hkind, hany _ _ _, ?_, hloop⟩
  intro pose weight temp
  rw [hany, hany]

/-! ## Runs of the step and of the chain on the three-point clouds -/

/-- Witness of C6: a first step that stores the translation `(1, 3, 3)`, and a chain
that returns the translation `(1, 2, 3)` with a positive weight, under the custom
factor that rejects the poses below the ground plane. -/
theorem mcmc_pose_passes_custom_test_witness :
    ((Sample.translation 1 3 3 1 = Sample.env.se3_default ∧ (10003 / 30000 : ℚ) = 0) ∨
      Sample.aboveGround.test (Sample.translation 1 3 3 1) = true) ∧
    Sample.aboveGround.test (Sample.translation 1 2 3 (10001 / 10000)) = true :=
  ⟨(mcmc_pose_passes_custom_test Sample.env (Sample.estimator (some Sample.aboveGround) false)
      Sample.aboveGround rfl
      (fun p q h _ => by simp [Sample.aboveGround, h])).1
      Sample.env.se3_default 0 1 true 3 [10, 20, 30, 1, 2, 50]
      ⟨Sample.translation 1 3 3 1, 10003 / 30000, [], 1, 3⟩ (by decide!),
   (mcmc_pose_passes_custom_test Sample.env (Sample.estimator (some Sample.aboveGround) false)
      Sample.aboveGround rfl
      (fun p q h _ => by simp [Sample.aboveGround, h])).2
      3 [80, 1, 2, 3, 4, 5, 6, 7, 8, 9, 10, 11, 12, 13, 90, 2, 3, 4, 5, 7, 7, 7] []
      (Sample.translation 1 2 3 (10001 / 10000)) (by decide!) (by decide!)⟩

/-- Witness of C7: a later step with a local proposal on three points, from the pose
at `(1, 1, 3)` with the bandwidths 3/10 and 1/10. With the current weight 10003/30000,
`dec` is 1, the threshold is 1/2 and the proposed pose is stored; with the current
weight 0, `dec` is infinite and the proposed pose is stored as well. -/
theorem metropolisHastings_decision_at_last_index_witness :
    metropolisHastings Sample.env (Sample.estimator none false)
        ⟨⟨1, 1, 3⟩, Sample.identity, 1, 3 / 10, 1 / 10⟩
        (10003 / 30000) (1 / 20) false 3 [0, 0, 80, 2, 50]
      = .ok ⟨⟨⟨2, 1, 3⟩, Sample.identity, 1, 3 / 10, 1 / 10⟩, 10003 / 30000, [], 1, 3⟩ ∧
    metropolisHastings Sample.env (Sample.estimator none false)
        ⟨⟨1, 1, 3⟩, Sample.identity, 1, 3 / 10, 1 / 10⟩
        0 (1 / 20) false 3 [0, 0, 80, 2, 50]
      = .ok ⟨⟨⟨2, 1, 3⟩, Sample.identity, 1, 3 / 10, 1 / 10⟩, 10003 / 30000, [], 1, 3⟩ :=
  ⟨(metropolisHastings_decision_at_last_index Sample.env (Sample.estimator none false)
      ⟨⟨1, 1, 3⟩, Sample.identity, 1, 3 / 10, 1 / 10⟩ (10003 / 30000) (1 / 20) 3
      [0, 0, 80, 2, 50] false ⟨⟨2, 1, 3⟩, Sample.identity, 1, 3 / 10, 1 / 10⟩ [2, 0, 1] [50] 1
      (1 / 2) [] [10001 / 10000, 1 / 10000, 1 / 10000] (10003 / 30000)
      (by decide!) (by decide!) (by decide) (by decide!) (by decide!) (by decide!)).1.trans
      (by decide!),
   (metropolisHastings_decision_at_last_index Sample.env (Sample.estimator none false)
      ⟨⟨1, 1, 3⟩, Sample.identity, 1, 3 / 10, 1 / 10⟩ 0 (1 / 20) 3
      [0, 0, 80, 2, 50] false ⟨⟨2, 1, 3⟩, Sample.identity, 1, 3 / 10, 1 / 10⟩ [2, 0, 1] [50] 1
      (1 / 2) [] [10001 / 10000, 1 / 10000, 1 / 10000] (10003 / 30000)
      (by decide!) (by decide!) (by decide) (by decide!) (by decide!) (by decide!)).1.trans
      (by decide!)⟩

/-- Witness of C8: a later step on five points whose test `dec < 0.6 u` holds at the
index 3; the step stops there and the chain state is unchanged. -/
theorem metropolisHastings_early_abort_witness :
    ∃ k, k ≤ 3 ∧ ([1, 0, 1, 2, 0] : List Nat).length ≤ k * k ∧
      abortsAt Sample.env (Sample.estimator none false) false (10001 / 10000) (1 / 20)
        (99 / 100) [1 / 10000, 10001 / 10000, 1 / 10000, 1 / 10000] k ∧
      (∀ j, j < k → ([1, 0, 1, 2, 0] : List Nat).length ≤ j * j →
        ¬ abortsAt Sample.env (Sample.estimator none false) false (10001 / 10000) (1 / 20)
          (99 / 100) [1 / 10000, 10001 / 10000, 1 / 10000, 1 / 10000] j) ∧
      metropolisHastings Sample.env (Sample.estimator none false) (Sample.translation 1 2 3 1)
          (10001 / 10000) (1 / 20) false 5 [0, 0, 0, 0, 80, 2, 99]
        = .ok ⟨Sample.translation 1 2 3 1, 10001 / 10000, [], 1, k + 1⟩ :=
  metropolisHastings_early_abort Sample.env (Sample.estimator none false)
    (Sample.translation 1 2 3 1) (10001 / 10000) (1 / 20) 5 [0, 0, 0, 0, 80, 2, 99]
    false (Sample.translation 2 2 3 1) [1, 0, 1, 2, 0] [99] 1 (99 / 100) []
    [1 / 10000, 10001 / 10000, 1 / 10000, 1 / 10000] 3
    (by decide!) (by decide!) (by decide) (by decide) (by decide!) (by decide!)

/-- Witness of C9: under a custom factor that rejects every pose the loop runs out after
100 candidates and the step returns the state on entry without an evaluation. -/
theorem metropolisHastings_retry_limit_witness :
    (propose Sample.env (Sample.estimator (some Sample.rejectAll) false)
      (Sample.translation 1 2 3 1) false 3 [0, 0, 80, 2, 99]).2.generated ≤ 100 ∧
    ((100 : Nat) = 100 ∧
      metropolisHastings Sample.env (Sample.estimator (some Sample.rejectAll) false)
          (Sample.translation 1 2 3 1) (10001 / 10000) (1 / 20) false 3 [0, 0, 80, 2, 99]
        = .ok ⟨Sample.translation 1 2 3 1, 10001 / 10000, [], 100, 0⟩) :=
  ⟨(metropolisHastings_retry_limit Sample.env (Sample.estimator (some Sample.rejectAll) false)
      (Sample.translation 1 2 3 1) (10001 / 10000) (1 / 20) false 3 [0, 0, 80, 2, 99]).1,
   (metropolisHastings_retry_limit Sample.env (Sample.estimator (some Sample.rejectAll) false)
      (Sample.translation 1 2 3 1) (10001 / 10000) (1 / 20) false 3 [0, 0, 80, 2, 99]).2
      [] 100 (by decide!)⟩

/-- Witness of C10: the first step of a chain on three points stores the proposed
translation `(1, 3, 3)` with the weight `S/3`. -/
theorem metropolisHastings_first_run_seeds_witness :
    metropolisHastings Sample.env (Sample.estimator none false) Sample.env.se3_default 0 1
        true 3 [10, 20, 30, 1, 2, 50]
      = .ok ⟨Sample.translation 1 3 3 1, 10003 / 30000, [], 1, 3⟩ :=
  ((metropolisHastings_first_run_seeds Sample.env (Sample.estimator none false)
    Sample.env.se3_default 0 1 3 [10, 20, 30, 1, 2, 50]
    true (Sample.translation 1 3 3 1) [1, 0, 2] [50] 1 (1 / 2) []
    [1 / 10000, 10001 / 10000, 1 / 10000]
    (by decide!) (by decide!) (by decide) (by decide!)).2.1).trans (by decide!)

/-! ## The temperature and the bandwidth schedules -/

/-- The ratio `TF/T0` of `Ti` is one tenth. -/
theorem Ti_eq {ρ : Type} (E : Env ρ) (i F : Nat) :
    Ti E i F = max (1 / 2 * E.pow (1 / 10) ((i : ℚ) / (F : ℚ))) (1 / 20) := by
  have e : ((1 : ℚ) / 20) / (1 / 2) = 1 / 10 := by norm_num
  simp only [Ti, e]

/-- The power function of the concrete instance decreases in the exponent for the base
one tenth. -/
theorem Sample.pow_antitone (x y : ℚ) (h : x ≤ y) :
    Sample.pow (1 / 10) y ≤ Sample.pow (1 / 10) x := by
  unfold Sample.pow
  exact zpow_le_zpow_right_of_le_one₀ (by norm_num) (by norm_num) (Int.floor_mono h)

/-- C11: for `F ≥ 1` the temperature does not increase with the step number, the power
function being non-increasing in the exponent for the base `TF/T0 = 1/10`. -/
theorem Ti_antitone {ρ : Type} (E : Env ρ)
    (hpow : ∀ x y : ℚ, x ≤ y → E.pow (1 / 10) y ≤ E.pow (1 / 10) x)
    (F i j : Nat) (hF : 1 ≤ F) (hij : i ≤ j) : Ti E j F ≤ Ti E i F := by
  rw [Ti_eq, Ti_eq]
  have hFq : (0 : ℚ) < (F : ℚ) := by exact_mod_cast hF
  have hq : (i : ℚ) / (F : ℚ) ≤ (j : ℚ) / (F : ℚ) :=
    div_le_div_of_nonneg_right (by exact_mod_cast hij) (le_of_lt hFq)
  exact max_le_max (mul_le_mul_of_nonneg_left (hpow _ _ hq) (by norm_num)) (le_refl _)

/-- Witness of C11 with the power function of the concrete instance. -/
theorem Ti_antitone_witness : Ti Sample.env 7 6 ≤ Ti Sample.env 2 6 :=
  Ti_antitone Sample.env Sample.pow_antitone 6 2 7 (by decide) (by decide)

/-- C12: for `F ≥ 1`, `Ti(i, F)` is `max(0.5 (0.05/0.5)^(i/F), 0.05)` with the rational
quotient `i/F`; it lies between 0.05 and 0.5, is 0.5 at the step 0 and 0.05 from the
step `F` on, the power function being exact at the exponents 0 and 1 and non-increasing
in the exponent. In `mcmc` the number of steps is a multiple of five, its fifth is the
argument `F`, and `F ≥ 1` for `n ≥ 1`. -/
theorem Ti_formula_and_range {ρ : Type} (E : Env ρ)
    (hpow0 : E.pow (1 / 10) 0 = 1) (hpow1 : E.pow (1 / 10) 1 = 1 / 10)
    (hpow : ∀ x y : ℚ, x ≤ y → E.pow (1 / 10) y ≤ E.pow (1 / 10) x)
    (F i : Nat) (hF : 1 ≤ F) :
    Ti E i F = max (1 / 2 * E.pow ((1 / 20) / (1 / 2)) ((i : ℚ) / (F : ℚ))) (1 / 20) ∧
    1 / 20 ≤ Ti E i F ∧ Ti E i F ≤ 1 / 2 ∧
    Ti E 0 F = 1 / 2 ∧
    (F ≤ i → Ti E i F = 1 / 20) ∧
    ∀ (pe : PoseEstimator) (n : Int), 1 ≤ n →
      nStepsOf pe n = 5 * (nStepsOf pe n / 5) ∧
      (nStepsOf pe n).toNat = 5 * ((nStepsOf pe n).toNat / 5) ∧
      1 ≤ (nStepsOf pe n).toNat / 5 := by
  have hFq : (0 : ℚ) < (F : ℚ) := by exact_mod_cast hF
  have hle1 : E.pow (1 / 10) ((i : ℚ) / (F : ℚ)) ≤ 1 :=
    le_trans (hpow 0 _ (div_nonneg (Nat.cast_nonneg i) (le_of_lt hFq))) (le_of_eq hpow0)
  refine ⟨rfl, ?_, ?_, ?_, ?_, ?_⟩
  · rw [Ti_eq]; exact le_max_right _ _
  · rw [Ti_eq]
    refine max_le ?_ (by norm_num)
    linarith
  · rw [Ti_eq]
    simp only [Nat.cast_zero, zero_div, hpow0]
    norm_num
  · intro hi
    rw [Ti_eq]
    have h1 : (1 : ℚ) ≤ (i : ℚ) / (F : ℚ) := by
      rw [le_div_iff₀ hFq]
      simpa using (show (F : ℚ) ≤ (i : ℚ) by exact_mod_cast hi)
    have h2 : E.pow (1 / 10) ((i : ℚ) / (F : ℚ)) ≤ 1 / 10 :=
      le_trans (hpow 1 _ h1) (le_of_eq hpow1)
    refine max_eq_right ?_
    linarith
  · intro pe n hn
    unfold nStepsOf
    split <;> omega

/-- Witness of C12 with the power function of the concrete instance. -/
theorem Ti_formula_and_range_witness :
    Ti Sample.env 7 6
      = max (1 / 2 * Sample.env.pow ((1 / 20) / (1 / 2)) (((7 : Nat) : ℚ) / ((6 : Nat) : ℚ)))
          (1 / 20) ∧
    1 / 20 ≤ Ti Sample.env 7 6 ∧ Ti Sample.env 7 6 ≤ 1 / 2 ∧
    Ti Sample.env 0 6 = 1 / 2 ∧
    Ti Sample.env 7 6 = 1 / 20 ∧
    nStepsOf (Sample.estimator none false) 3
      = 5 * (nStepsOf (Sample.estimator none false) 3 / 5) ∧
    (nStepsOf (Sample.estimator none false) 3).toNat
      = 5 * ((nStepsOf (Sample.estimator none false) 3).toNat / 5) ∧
    1 ≤ (nStepsOf (Sample.estimator none false) 3).toNat / 5 :=
  have h := Ti_formula_and_range Sample.env (by decide!) (by decide!) Sample.pow_antitone 6 7
    (by decide)
  ⟨h.1, h.2.1, h.2.2.1,
    (Ti_formula_and_range Sample.env (by decide!) (by decide!) Sample.pow_antitone 6 0
      (by decide)).2.2.2.1,
    h.2.2.2.2.1 (by decide),
    h.2.2.2.2.2 (Sample.estimator none false) 3 (by decide)⟩

/-- C15: the number of model points handed to the chains is `min(|object|, 1000)` when
the configured `n_` is not positive and `n_` itself otherwise, whatever its size; every
chain of `modelToSceneTransformation` runs `mcmc` with that number. -/
theorem chainPoints_spec {ρ : Type} (E : Env ρ) (pe : PoseEstimator) (streams : Nat → ρ) :
    (pe.n_ ≤ 0 → chainPoints pe = min (pe.objectModel_.size : Int) 1000) ∧
    (0 < pe.n_ → chainPoints pe = pe.n_) ∧
    modelToSceneTransformation E pe streams
      = (parallelizerRun pe.nChains_ streams
          (fun g => (mcmc E pe (chainPoints pe) g).map Prod.fst)).bind
        (fun retv =>
          match sortBegin1 retv with
          | none => .error "sortBegin on an empty collection"
          | some pose => .ok (pose.setWeight (findMatchingScore E pe pose))) := by
  refine ⟨?_, ?_, rfl⟩
  · intro h
    simp only [chainPoints, if_pos h]
    split
    · rename_i h1
      exact (min_eq_right (le_of_lt h1)).symm
    · rename_i h1
      exact (min_eq_left (not_lt.1 h1)).symm
  · intro h
    simp only [chainPoints, if_neg (not_le.2 h)]

/-- Witness of C15: three object points with `n_ = 0`, and `n_ = 5000` unclamped. -/
theorem chainPoints_spec_witness :
    chainPoints { Sample.estimator none false with n_ := 0 }
      = min (({ Sample.estimator none false with n_ := 0 } : PoseEstimator).objectModel_.size
          : Int) 1000 ∧
    chainPoints { Sample.estimator none false with n_ := 5000 } = 5000 :=
  ⟨(chainPoints_spec Sample.env { Sample.estimator none false with n_ := 0 }
      (fun _ => [])).1 (by decide),
   (chainPoints_spec Sample.env { Sample.estimator none false with n_ := 5000 }
      (fun _ => [])).2.1 (by decide)⟩

/-- C21: for `n ≥ 1` and a step `i < nSteps`, the bandwidths given to the current pose
before the step are the linear interpolation between `(objectSize/10, 0.1)` and
`(objectSize/40, 0.02)` over `e = nSteps - 1 ≥ 9`; they are the first pair at `i = 0` and
the second at `i = nSteps - 1`; for a positive `objectSize` the location bandwidth stays
in `[objectSize/40, objectSize/10]`, the guard on `loc_h_` is not taken and the step goes
on to the Metropolis-Hastings call. -/
theorem annealedPose_bandwidths {ρ : Type} (E : Env ρ) (pe : PoseEstimator) (n : Int)
    (hn : 1 ≤ n) (i : Nat) (hi : i < (nStepsOf pe n).toNat) (currentPose : kernel.se3) :
    9 ≤ (nStepsOf pe n).toNat - 1 ∧
    (annealedPose pe (nStepsOf pe n).toNat i currentPose).loc_h_
      = ((((nStepsOf pe n).toNat - 1 : Nat) : ℚ) - i) / (((nStepsOf pe n).toNat - 1 : Nat) : ℚ)
          * (pe.objectSize_ / 10)
        + (i : ℚ) / (((nStepsOf pe n).toNat - 1 : Nat) : ℚ) * (pe.objectSize_ / 40) ∧
    (annealedPose pe (nStepsOf pe n).toNat i currentPose).ori_h_
      = ((((nStepsOf pe n).toNat - 1 : Nat) : ℚ) - i) / (((nStepsOf pe n).toNat - 1 : Nat) : ℚ)
          * (1 / 10)
        + (i : ℚ) / (((nStepsOf pe n).toNat - 1 : Nat) : ℚ) * (2 / 100) ∧
    (annealedPose pe (nStepsOf pe n).toNat 0 currentPose).loc_h_ = pe.objectSize_ / 10 ∧
    (annealedPose pe (nStepsOf pe n).toNat 0 currentPose).ori_h_ = 1 / 10 ∧
    (annealedPose pe (nStepsOf pe n).toNat ((nStepsOf pe n).toNat - 1) currentPose).loc_h_
      = pe.objectSize_ / 40 ∧
    (annealedPose pe (nStepsOf pe n).toNat ((nStepsOf pe n).toNat - 1) currentPose).ori_h_
      = 2 / 100 ∧
    (0 < pe.objectSize_ →
      pe.objectSize_ / 40 ≤ (annealedPose pe (nStepsOf pe n).toNat i currentPose).loc_h_ ∧
      (annealedPose pe (nStepsOf pe n).toNat i currentPose).loc_h_ ≤ pe.objectSize_ / 10 ∧
      ∀ s : ChainState ρ,
        mcmcStep E pe n (nStepsOf pe n).toNat i s
          = match metropolisHastings E pe (annealedPose pe (nStepsOf pe n).toNat i s.currentPose)
              s.currentWeight (Ti E i ((nStepsOf pe n).toNat / 5)) false n s.g with
            | .error e => .error e
            | .ok r =>
              .ok ⟨r.currentPose, r.currentWeight,
                if r.currentWeight > s.bestPose.getWeight
                then r.currentPose.setWeight r.currentWeight else s.bestPose, r.g⟩) := by
  have hsteps : 10 ≤ (nStepsOf pe n).toNat := by
    unfold nStepsOf
    split <;> omega
  obtain ⟨e, he⟩ : ∃ e, (nStepsOf pe n).toNat = e + 1 := ⟨(nStepsOf pe n).toNat - 1, by omega⟩
  rw [he] at hi ⊢
  simp only [Nat.add_sub_cancel]
  have he9 : 9 ≤ e := by omega
  have hepos : (0 : ℚ) < (e : ℚ) := by exact_mod_cast (by omega : 0 < e)
  have hie : i ≤ e := by omega
  have hcast : (((e - i : Nat) : ℚ)) = (e : ℚ) - (i : ℚ) := by
    rw [Nat.cast_sub hie]
  have hloc : ∀ p : kernel.se3, (annealedPose pe (e + 1) i p).loc_h_
      = ((e : ℚ) - i) / (e : ℚ) * (pe.objectSize_ / 10)
        + (i : ℚ) / (e : ℚ) * (pe.objectSize_ / 40) := by
    intro p
    simp only [annealedPose, kernel.se3.setLocH, kernel.se3.setOriH, Nat.add_sub_cancel, hcast]
  refine ⟨he9, hloc _, ?_, ?_, ?_, ?_, ?_, ?_⟩
  · simp only [annealedPose, kernel.se3.setLocH, kernel.se3.setOriH, Nat.add_sub_cancel, hcast]
  · simp only [annealedPose, kernel.se3.setLocH, kernel.se3.setOriH, Nat.add_sub_cancel,
      Nat.sub_zero, Nat.cast_zero, zero_div, zero_mul, add_zero]
    rw [div_self (ne_of_gt hepos), one_mul]
  · simp only [annealedPose, kernel.se3.setLocH, kernel.se3.setOriH, Nat.add_sub_cancel,
      Nat.sub_zero, Nat.cast_zero, zero_div, zero_mul, add_zero]
    rw [div_self (ne_of_gt hepos), one_mul]
  · simp only [annealedPose, kernel.se3.setLocH, kernel.se3.setOriH, Nat.add_sub_cancel,
      Nat.sub_self, Nat.cast_zero, zero_div, zero_mul, zero_add]
    rw [div_self (ne_of_gt hepos), one_mul]
  · simp only [annealedPose, kernel.se3.setLocH, kernel.se3.setOriH, Nat.add_sub_cancel,
      Nat.sub_self, Nat.cast_zero, zero_div, zero_mul, zero_add]
    rw [div_self (ne_of_gt hepos), one_mul]
  · intro hS
    have hiq : (i : ℚ) ≤ (e : ℚ) := by exact_mod_cast hie
    have hi0 : (0 : ℚ) ≤ (i : ℚ) := by exact_mod_cast Nat.zero_le i
    have ha0 : 0 ≤ (i : ℚ) / (e : ℚ) := div_nonneg hi0 (le_of_lt hepos)
    have ha1 : (i : ℚ) / (e : ℚ) ≤ 1 := (div_le_one hepos).2 hiq
    have hform : ∀ p : kernel.se3, (annealedPose pe (e + 1) i p).loc_h_
        = pe.objectSize_ / 10 - (i : ℚ) / (e : ℚ) * (3 * pe.objectSize_ / 40) := by
      intro p
      rw [hloc p]
      field_simp
      ring
    have hprod0 : 0 ≤ (i : ℚ) / (e : ℚ) * (3 * pe.objectSize_ / 40) :=
      mul_nonneg ha0 (by linarith)
    have hprod1 : (i : ℚ) / (e : ℚ) * (3 * pe.objectSize_ / 40) ≤ 3 * pe.objectSize_ / 40 := by
      have := mul_le_mul_of_nonneg_right ha1 (by linarith : (0 : ℚ) ≤ 3 * pe.objectSize_ / 40)
      simpa using this
    refine ⟨?_, ?_, ?_⟩
    · rw [hform]; linarith
    · rw [hform]; linarith
    · intro s
      have hguard : ¬ (annealedPose pe (e + 1) i s.currentPose).loc_h_ ≤ 0 := by
        rw [hform]
        intro hc
        linarith
      simp only [mcmcStep, if_neg hguard]

/-- Witness of C21: the chain on three points has 30 steps; step 10. -/
theorem annealedPose_bandwidths_witness :
    9 ≤ (nStepsOf (Sample.estimator none false) 3).toNat - 1 ∧
    (annealedPose (Sample.estimator none false)
        (nStepsOf (Sample.estimator none false) 3).toNat 0 (Sample.translation 1 2 3 1)).loc_h_
      = (Sample.estimator none false).objectSize_ / 10 ∧
    (Sample.estimator none false).objectSize_ / 40
      ≤ (annealedPose (Sample.estimator none false)
          (nStepsOf (Sample.estimator none false) 3).toNat 10
          (Sample.translation 1 2 3 1)).loc_h_ :=
  have h := annealedPose_bandwidths Sample.env (Sample.estimator none false) 3 (by decide) 10
    (by decide) (Sample.translation 1 2 3 1)
  ⟨h.1, h.2.2.2.1, (h.2.2.2.2.2.2.2 (by decide!)).1⟩

/-! ## What a successful load leaves in the estimator -/

/-- The bandwidth that `load` gives to the kernels. -/
theorem load_ok_inv {ρ : Type} (E : Env ρ) (pe : PoseEstimator)
    (objectModel sceneModel : KernelCollection) (meshfile : String) (viewpoint : Vector3)
    (light computeNormals : Bool) (g g1 : ρ) (pe1 : PoseEstimator)
    (h : load E pe objectModel sceneModel meshfile viewpoint light computeNormals g
      = .ok (pe1, g1)) :
    ∃ object1 scene1 scene2,
      loadNormals E objectModel computeNormals = .ok object1 ∧
      loadNormals E sceneModel computeNormals = .ok scene1 ∧
      loadSubsample E scene1 light g = .ok (scene2, g1) ∧
      pe1.objectSize_ = (E.moments object1).loc_h_ ∧
      pe1.loc_h_ = (if pe.loc_h_ ≤ 0 then (E.moments object1).loc_h_ / 10 else pe.loc_h_) ∧
      pe1.ori_h_ = pe.ori_h_ ∧
      pe1.sceneModel_ = (scene2.setKernelLocH pe1.loc_h_).setKernelOriH pe.ori_h_ ∧
      pe1.objectModel_.kernels
        = ((object1.setKernelLocH pe1.loc_h_).setKernelOriH pe.ori_h_).kernels := by
  unfold load at h
  split at h
  · cases h
  · simp only [bind, Except.bind, pure, Except.pure] at h
    split at h
    · cases h
    · rename_i object1 hobject
      split at h
      · cases h
      · rename_i scene1 hscene
        split at h
        · cases h
        · split at h
          · cases h
          · split at h
            · cases h
            · split at h
              · cases h
              · rename_i sub hsub
                have hsub2 : ∀ g2, sub.2 = g2 → loadSubsample E scene1 light g = .ok (sub.1, g2) := by
                  intro g2 hg
                  rw [hsub, ← hg]
                split at h
                · split at h
                  · cases h
                  · simp only [Except.ok.injEq, Prod.mk.injEq] at h
                    obtain ⟨h1, h2⟩ := h
                    subst h1
                    exact ⟨object1, scene1, sub.1, hobject, hscene, hsub2 _ h2, rfl, rfl, rfl, rfl, rfl⟩
                · simp only [Except.ok.injEq, Prod.mk.injEq] at h
                  obtain ⟨h1, h2⟩ := h
                  subst h1
                  exact ⟨object1, scene1, sub.1, hobject, hscene, hsub2 _ h2, rfl, rfl, rfl, rfl, rfl⟩

/-- Kernels of a collection after the two bandwidth assignments. -/
theorem setKernel_kernels (kc : KernelCollection) (l o : coord_t) :
    ((kc.setKernelLocH l).setKernelOriH o).kernels
      = kc.kernels.map (fun k => { k with loc_h_ := l, ori_h_ := o }) := by
  simp [KernelCollection.setKernelLocH, KernelCollection.setKernelOriH, List.map_map,
    Function.comp_def]

/-- C14: after a successful load the estimator's `loc_h_` is `objectSize/10` when the
`loc_h_` given at construction was not positive, `objectSize` being the `loc_h_` of the
moments of the loaded object model, and is unchanged otherwise; this `loc_h_` and the
`ori_h_` of the constructor are the bandwidths of every kernel of the object and of the
scene model. -/
theorem load_bandwidths {ρ : Type} (E : Env ρ) (pe : PoseEstimator)
    (objectModel sceneModel : KernelCollection) (meshfile : String) (viewpoint : Vector3)
    (light computeNormals : Bool) (g g1 : ρ) (pe1 : PoseEstimator)
    (h : load E pe objectModel sceneModel meshfile viewpoint light computeNormals g
      = .ok (pe1, g1)) :
    (∃ object1, loadNormals E objectModel computeNormals = .ok object1 ∧
      pe1.objectSize_ = (E.moments object1).loc_h_) ∧
    (pe.loc_h_ ≤ 0 → pe1.loc_h_ = pe1.objectSize_ / 10) ∧
    (0 < pe.loc_h_ → pe1.loc_h_ = pe.loc_h_) ∧
    pe1.ori_h_ = pe.ori_h_ ∧
    (∀ k ∈ pe1.objectModel_.kernels, k.loc_h_ = pe1.loc_h_ ∧ k.ori_h_ = pe1.ori_h_) ∧
    (∀ k ∈ pe1.sceneModel_.kernels, k.loc_h_ = pe1.loc_h_ ∧ k.ori_h_ = pe1.ori_h_) := by
  obtain ⟨object1, scene1, scene2, hobject, _, _, hsize, hloc, hori, hscene, hobj⟩ :=
    load_ok_inv E pe objectModel sceneModel meshfile viewpoint light computeNormals g g1 pe1 h
  refine ⟨⟨object1, hobject, hsize⟩, ?_, ?_, hori, ?_, ?_⟩
  · intro hle
    rw [hloc, if_pos hle, hsize]
  · intro hpos
    rw [hloc, if_neg (not_le.2 hpos)]
  · intro k hk
    rw [hobj, setKernel_kernels] at hk
    obtain ⟨k0, _, rfl⟩ := List.mem_map.1 hk
    exact ⟨rfl, hori.symm⟩
  · intro k hk
    rw [hscene, setKernel_kernels] at hk
    obtain ⟨k0, _, rfl⟩ := List.mem_map.1 hk
    exact ⟨rfl, hori.symm⟩

/-- Witness of C14: loading the three-point clouds with a constructor `loc_h_` of zero. -/
theorem load_bandwidths_witness :
    ∃ pe1 g1,
      load Sample.env { Sample.estimator none false with loc_h_ := 0 }
        (Sample.objectCloud kernel.KernelType.R3XS2P)
        (Sample.sceneCloud kernel.KernelType.R3XS2P) "" ⟨0, 0, 10⟩ true false []
        = .ok (pe1, g1) ∧
      pe1.loc_h_ = pe1.objectSize_ / 10 ∧
      (∀ k ∈ pe1.objectModel_.kernels, k.loc_h_ = pe1.loc_h_ ∧ k.ori_h_ = pe1.ori_h_) ∧
      (∀ k ∈ pe1.sceneModel_.kernels, k.loc_h_ = pe1.loc_h_ ∧ k.ori_h_ = pe1.ori_h_) := by
  have hb : (load Sample.env { Sample.estimator none false with loc_h_ := 0 }
      (Sample.objectCloud kernel.KernelType.R3XS2P)
      (Sample.sceneCloud kernel.KernelType.R3XS2P) "" ⟨0, 0, 10⟩ true false []).toBool
      = true := by decide!
  rcases hl : load Sample.env { Sample.estimator none false with loc_h_ := 0 }
      (Sample.objectCloud kernel.KernelType.R3XS2P)
      (Sample.sceneCloud kernel.KernelType.R3XS2P) "" ⟨0, 0, 10⟩ true false []
    with e | ⟨pe1, g1⟩
  · rw [hl] at hb
    cases hb
  · have h := load_bandwidths Sample.env { Sample.estimator none false with loc_h_ := 0 }
      (Sample.objectCloud kernel.KernelType.R3XS2P)
      (Sample.sceneCloud kernel.KernelType.R3XS2P) "" ⟨0, 0, 10⟩ true false [] g1 pe1 hl
    exact ⟨pe1, g1, rfl, h.2.1 (le_refl _), h.2.2.2.2.1, h.2.2.2.2.2⟩

/-- A kernel returned by `at` is a kernel of the collection. -/
theorem at_mem (kc : KernelCollection) (i : Nat) (k : kernel.base) (h : kc.at i = .ok k) :
    k ∈ kc.kernels := by
  unfold KernelCollection.at at h
  split at h
  · rename_i k1 hk
    simp only [Except.ok.injEq] at h
    subst h
    exact List.get?_mem hk
  · cases h

/-- Every result of a successful `mapExcept` is the image of an input. -/
theorem mapExcept_mem {α β : Type} (f : α → Except String β) (l : List α) (r : List β)
    (h : mapExcept f l = .ok r) : ∀ b ∈ r, ∃ a ∈ l, f a = .ok b := by
  induction l generalizing r with
  | nil =>
    simp only [mapExcept, Except.ok.injEq] at h
    subst h
    simp
  | cons a as ih =>
    obtain ⟨b, bs, hb, hbs, rfl⟩ := mapExcept_cons_ok f a as r h
    intro x hx
    rcases List.mem_cons.1 hx with rfl | hx
    · exact ⟨a, List.mem_cons_self _ _, hb⟩
    · obtain ⟨a1, ha1, hf⟩ := ih bs hbs x hx
      exact ⟨a1, List.mem_cons_of_mem _ ha1, hf⟩

/-- C16 as stated fails when normals are computed on the scene: of an `r3` scene of four
points, one of them without a near neighbour, three `r3xs2p` kernels are stored, though
`light` is off. -/
theorem load_scene_size_counterexample :
    (⟨[Sample.point kernel.KernelType.R3 1 2 3, Sample.point kernel.KernelType.R3 2 2 3,
        Sample.point kernel.KernelType.R3 1 3 3, Sample.point kernel.KernelType.R3 9 9 9],
        none⟩ : KernelCollection).size = 4 ∧
    (load Sample.env (Sample.estimator none false) (Sample.objectCloud kernel.KernelType.R3)
        ⟨[Sample.point kernel.KernelType.R3 1 2 3, Sample.point kernel.KernelType.R3 2 2 3,
          Sample.point kernel.KernelType.R3 1 3 3, Sample.point kernel.KernelType.R3 9 9 9],
          none⟩ "" ⟨0, 0, 10⟩ false true []).map
      (fun r => r.1.sceneModel_.kernels.map (fun k => k.polyType))
      = .ok [kernel.KernelType.R3XS2P, kernel.KernelType.R3XS2P, kernel.KernelType.R3XS2P] := by
  decide!

/-- C16, amended: after a successful load the stored scene model is drawn from the scene
as it stands after the normals step, which is the input scene when `computeNormals` is
off. With `light` on and more than 10000 kernels there, the stored scene has exactly
10000 kernels, each a kernel of that scene with the bandwidths of the estimator (the
sample iterator yielding the 10000 items asked for); otherwise the stored scene has the
kernels of that scene, in order and in the same number, with those bandwidths. -/
theorem load_scene_subsample {ρ : Type} (E : Env ρ) (pe : PoseEstimator)
    (objectModel sceneModel : KernelCollection) (meshfile : String) (viewpoint : Vector3)
    (light computeNormals : Bool) (g g1 : ρ) (pe1 : PoseEstimator)
    (hsample : ∀ (kc : KernelCollection) (g : ρ), (E.sampleBegin kc 10000 g).1.length = 10000)
    (h : load E pe objectModel sceneModel meshfile viewpoint light computeNormals g
      = .ok (pe1, g1)) :
    ∃ scene1, loadNormals E sceneModel computeNormals = .ok scene1 ∧
      (computeNormals = false → scene1 = sceneModel) ∧
      (light = true → 10000 < scene1.size →
        pe1.sceneModel_.size = 10000 ∧
        ∀ k ∈ pe1.sceneModel_.kernels, ∃ k0 ∈ scene1.kernels,
          k = { k0 with loc_h_ := pe1.loc_h_, ori_h_ := pe1.ori_h_ }) ∧
      (light = false ∨ scene1.size ≤ 10000 →
        pe1.sceneModel_.kernels
          = scene1.kernels.map (fun k0 => { k0 with loc_h_ := pe1.loc_h_, ori_h_ := pe1.ori_h_ }) ∧
        pe1.sceneModel_.size = scene1.size) := by
  obtain ⟨object1, scene1, scene2, _, hscene1, hsub, _, _, hori, hscene, _⟩ :=
    load_ok_inv E pe objectModel sceneModel meshfile viewpoint light computeNormals g g1 pe1 h
  have hk : pe1.sceneModel_.kernels
      = scene2.kernels.map (fun k0 => { k0 with loc_h_ := pe1.loc_h_, ori_h_ := pe1.ori_h_ }) := by
    rw [hscene, setKernel_kernels, hori]
  refine ⟨scene1, hscene1, ?_, ?_, ?_⟩
  · intro hcn
    subst hcn
    simp only [loadNormals, bind, Except.bind, pure, Except.pure] at hscene1
    split at hscene1
    · cases hscene1
    · simp only [Bool.false_eq_true, and_false, if_false, Except.ok.injEq] at hscene1
      exact hscene1.symm
  · intro hl hbig
    simp only [loadSubsample, hl, hbig, and_self, if_true, bind, Except.bind, pure,
      Except.pure] at hsub
    split at hsub
    · cases hsub
    · rename_i ks hks
      simp only [Except.ok.injEq, Prod.mk.injEq] at hsub
      obtain ⟨hs2, _⟩ := hsub
      have hlen := mapExcept_length _ _ _ hks
      rw [hsample] at hlen
      have hks2 : scene2.kernels = ks := by rw [← hs2]
      refine ⟨?_, ?_⟩
      · simp only [KernelCollection.size, hk, hks2, List.length_map, hlen]
      · intro k hkmem
        rw [hk, hks2] at hkmem
        obtain ⟨k0, hk0, rfl⟩ := List.mem_map.1 hkmem
        obtain ⟨i, _, hi⟩ := mapExcept_mem _ _ _ hks k0 hk0
        exact ⟨k0, at_mem scene1 i k0 hi, rfl⟩
  · intro hsmall
    have hcond : ¬ (light = true ∧ scene1.size > 10000) := by
      rintro ⟨h1, h2⟩
      rcases hsmall with h3 | h3
      · rw [h3] at h1
        cases h1
      · omega
    simp only [loadSubsample, if_neg hcond, pure, Except.pure, Except.ok.injEq,
      Prod.mk.injEq] at hsub
    obtain ⟨hs2, _⟩ := hsub
    subst hs2
    exact ⟨hk, by simp only [KernelCollection.size, hk, List.length_map]⟩

/-- Looking up valid indices succeeds. -/
theorem mapExcept_at_ok (kc : KernelCollection) (idx : List Nat)
    (h : ∀ i ∈ idx, i < kc.size) : ∃ ks, mapExcept (fun i => kc.at i) idx = .ok ks := by
  induction idx with
  | nil => exact ⟨[], rfl⟩
  | cons i rest ih =>
    obtain ⟨ks, hks⟩ := ih (fun j hj => h j (List.mem_cons_of_mem _ hj))
    have hi : i < kc.kernels.length := h i (List.mem_cons_self _ _)
    have hget : kc.kernels.get? i = some (kc.kernels.get ⟨i, hi⟩) := List.get?_eq_get hi
    have hat : kc.at i = .ok (kc.kernels.get ⟨i, hi⟩) := by
      simp only [KernelCollection.at, hget]
    refine ⟨kc.kernels.get ⟨i, hi⟩ :: ks, ?_⟩
    simp only [mapExcept, hat, hks]

/-- Outside the partial-view mode and without normals, `load` returns on two non-empty
collections of the same domain when the sampled indices are indices of the scene. -/
theorem load_returns {ρ : Type} (E : Env ρ) (pe : PoseEstimator)
    (objectModel sceneModel : KernelCollection) (meshfile : String) (viewpoint : Vector3)
    (light : Bool) (g : ρ) (fo fs : kernel.base)
    (hp : pe.partialview_ = false)
    (ho : objectModel.front = .ok fo) (hs : sceneModel.front = .ok fs)
    (hty : fo.polyType = fs.polyType)
    (hidx : ∀ i ∈ (E.sampleBegin sceneModel 10000 g).1, i < sceneModel.size) :
    ∃ pe1 g1, load E pe objectModel sceneModel meshfile viewpoint light false g
      = .ok (pe1, g1) := by
  have hno : ¬ (objectModel.size = 0 ∨ sceneModel.size = 0) := by
    unfold KernelCollection.front at ho hs
    unfold KernelCollection.size
    rintro (h0 | h0)
    · rw [List.length_eq_zero] at h0
      rw [h0] at ho
      cases ho
    · rw [List.length_eq_zero] at h0
      rw [h0] at hs
      cases hs
  obtain ⟨ks, hks⟩ := mapExcept_at_ok sceneModel _ hidx
  rcases hl : load E pe objectModel sceneModel meshfile viewpoint light false g
    with e | ⟨pe1, g1⟩
  · exfalso
    revert hl
    by_cases hsub : light = true ∧ sceneModel.size > 10000
    · simp [load, hno, loadNormals, bind, Except.bind, pure, Except.pure, ho, hs,
        hty, loadSubsample, hsub, hks, hp]
    · simp [load, hno, loadNormals, bind, Except.bind, pure, Except.pure, ho, hs,
        hty, loadSubsample, hsub, hp]
  · exact ⟨pe1, g1, rfl⟩

/-- The indices of the sample iterator of the concrete instance. -/
theorem Sample.env_sampleBegin_fst (kc : KernelCollection) (n : Int) (g : Sample.Tape) :
    (Sample.env.sampleBegin kc n g).1 = (List.range n.toNat).map (fun i => i % kc.size) :=
  rfl

/-- Witness of the amended C16: a scene of 10001 kernels loaded with `light` on is stored
as 10000 kernels of that scene. -/
theorem load_scene_subsample_witness :
    ∃ pe1 g1,
      load Sample.env (Sample.estimator none false)
        (Sample.objectCloud kernel.KernelType.R3XS2P) Sample.bigScene "" ⟨0, 0, 10⟩
        true false [] = .ok (pe1, g1) ∧
      pe1.sceneModel_.size = 10000 ∧
      ∀ k ∈ pe1.sceneModel_.kernels, ∃ k0 ∈ Sample.bigScene.kernels,
        k = { k0 with loc_h_ := pe1.loc_h_, ori_h_ := pe1.ori_h_ } := by
  have hsize : Sample.bigScene.size = 10001 := by
    show (List.replicate 10001 (Sample.point kernel.KernelType.R3XS2P 1 2 3)).length = 10001
    exact List.length_replicate _ _
  obtain ⟨pe1, g1, hl⟩ := load_returns Sample.env (Sample.estimator none false)
    (Sample.objectCloud kernel.KernelType.R3XS2P) Sample.bigScene "" ⟨0, 0, 10⟩ true []
    (Sample.point kernel.KernelType.R3XS2P 0 0 0) (Sample.point kernel.KernelType.R3XS2P 1 2 3)
    rfl rfl rfl rfl
    (by
      intro i hi
      rw [Sample.env_sampleBegin_fst, List.mem_map] at hi
      obtain ⟨j, _, rfl⟩ := hi
      rw [hsize]
      exact Nat.mod_lt _ (by omega))
  obtain ⟨scene1, _, hsame, hbig, _⟩ := load_scene_subsample Sample.env
    (Sample.estimator none false) (Sample.objectCloud kernel.KernelType.R3XS2P)
    Sample.bigScene "" ⟨0, 0, 10⟩ true false [] g1 pe1
    (by
      intro kc g
      rw [Sample.env_sampleBegin_fst, List.length_map, List.length_range]
      exact Int.toNat_ofNat 10000) hl
  have hs1 := hsame rfl
  subst hs1
  exact ⟨pe1, g1, hl, hbig rfl (by rw [hsize]; omega)⟩

/-! ## The chain: best pose and calls of the step -/

/-- The function `mcmc` is the seed followed by the loop. -/
theorem mcmc_eq {ρ : Type} (E : Env ρ) (pe : PoseEstimator) (n : Int) (g : ρ) :
    mcmc E pe n g
      = match mcmcSeed E pe n g with
        | .error e => .error e
        | .ok s =>
          match mcmcLoop E pe n (nStepsOf pe n).toNat (nStepsOf pe n).toNat 0 s with
          | .error e => .error e
          | .ok s1 => .ok (s1.bestPose, s1.g) := by
  unfold mcmc mcmcSeed
  simp only
  cases metropolisHastings E pe E.se3_default 0 1 true n g with
  | error e => rfl
  | ok r => rfl

/-- A step that returns passed the guard on `loc_h_` and updated the best pose from the
state it returns. -/
theorem mcmcStep_ok {ρ : Type} (E : Env ρ) (pe : PoseEstimator) (n : Int) (nSteps i : Nat)
    (s s1 : ChainState ρ) (h : mcmcStep E pe n nSteps i s = .ok s1) :
    ¬ (annealedPose pe nSteps i s.currentPose).loc_h_ ≤ 0 ∧
    s1.bestPose = (if s1.currentWeight > s.bestPose.getWeight
      then s1.currentPose.setWeight s1.currentWeight else s.bestPose) := by
  simp only [mcmcStep] at h
  split at h
  · cases h
  · rename_i hguard
    split at h
    · cases h
    · simp only [Except.ok.injEq] at h
      subst h
      exact ⟨hguard, rfl⟩

/-- Properties of the best pose after a sequence of chain states. -/
theorem bestOf_spec (l : List (kernel.se3 × weight_t)) (b : kernel.se3) :
    (bestOf b l).getWeight = (l.map Prod.snd).foldl max b.getWeight ∧
    b.getWeight ≤ (bestOf b l).getWeight ∧
    (∀ t ∈ l, t.2 ≤ (bestOf b l).getWeight) ∧
    ((bestOf b l = b ∧ ∀ t ∈ l, t.2 ≤ b.getWeight) ∨
      ∃ pre t post, l = pre ++ t :: post ∧ (∀ u ∈ pre, u.2 < t.2) ∧ b.getWeight < t.2 ∧
        bestOf b l = t.1.setWeight t.2 ∧ (bestOf b l).getWeight = t.2) := by
  induction l generalizing b with
  | nil =>
    refine ⟨rfl, le_refl _, ?_, Or.inl ⟨rfl, ?_⟩⟩ <;> intro t ht <;> cases ht
  | cons x xs ih =>
    by_cases hx : x.2 > b.getWeight
    · have hb : bestOf b (x :: xs) = bestOf (x.1.setWeight x.2) xs := by
        simp only [bestOf, List.foldl_cons, if_pos hx]
      have hw : (x.1.setWeight x.2).getWeight = x.2 := rfl
      obtain ⟨h1, h2, h3, h4⟩ := ih (x.1.setWeight x.2)
      rw [hw] at h1 h2 h4
      rw [hb]
      refine ⟨?_, ?_, ?_, Or.inr ?_⟩
      · rw [h1]
        simp only [List.map_cons, List.foldl_cons, max_eq_right (le_of_lt hx)]
      · exact le_trans (le_of_lt hx) h2
      · intro t ht
        rcases List.mem_cons.1 ht with rfl | ht
        · exact h2
        · exact h3 t ht
      · rcases h4 with ⟨he, _⟩ | ⟨pre, t, post, hl, hpre, hlt, he, hwt⟩
        · exact ⟨[], x, xs, rfl, (fun u hu => by cases hu), hx, he, (by rw [he]; rfl)⟩
        · refine ⟨x :: pre, t, post, by rw [hl]; rfl, ?_, lt_trans hx hlt, he, hwt⟩
          intro u hu
          rcases List.mem_cons.1 hu with rfl | hu
          · exact hlt
          · exact hpre u hu
    · have hb : bestOf b (x :: xs) = bestOf b xs := by
        simp only [bestOf, List.foldl_cons, if_neg hx]
      obtain ⟨h1, h2, h3, h4⟩ := ih b
      rw [hb]
      refine ⟨?_, h2, ?_, ?_⟩
      · rw [h1]
        simp only [List.map_cons, List.foldl_cons, max_eq_left (not_lt.1 hx)]
      · intro t ht
        rcases List.mem_cons.1 ht with rfl | ht
        · exact le_trans (not_lt.1 hx) h2
        · exact h3 t ht
      · rcases h4 with ⟨he, hall⟩ | ⟨pre, t, post, hl, hpre, hlt, he, hwt⟩
        · left
          refine ⟨he, ?_⟩
          intro t ht
          rcases List.mem_cons.1 ht with rfl | ht
          · exact not_lt.1 hx
          · exact hall t ht
        · right
          refine ⟨x :: pre, t, post, by rw [hl]; rfl, ?_, hlt, he, hwt⟩
          intro u hu
          rcases List.mem_cons.1 hu with rfl | hu
          · exact lt_of_le_of_lt (not_lt.1 hx) hlt
          · exact hpre u hu

/-- A loop that returns has a trace of one state per step, and its best pose is the
best pose over the trace. -/
theorem mcmcLoop_trace {ρ : Type} (E : Env ρ) (pe : PoseEstimator) (n : Int)
    (nSteps remaining i : Nat) (s s1 : ChainState ρ)
    (h : mcmcLoop E pe n nSteps remaining i s = .ok s1) :
    ∃ tr, mcmcTrace E pe n nSteps remaining i s = .ok tr ∧ tr.length = remaining ∧
      s1.bestPose = bestOf s.bestPose (tr.map (fun t => (t.currentPose, t.currentWeight))) := by
  induction remaining generalizing i s with
  | zero =>
    simp only [mcmcLoop, Except.ok.injEq] at h
    subst h
    exact ⟨[], rfl, rfl, rfl⟩
  | succ k ih =>
    simp only [mcmcLoop] at h
    split at h
    · cases h
    · rename_i s2 hstep
      obtain ⟨tr, htr, hlen, hbest⟩ := ih (i + 1) s2 h
      refine ⟨s2 :: tr, ?_, by simp [hlen], ?_⟩
      · simp only [mcmcTrace, hstep, htr]
      · rw [hbest, (mcmcStep_ok E pe n nSteps i s s2 hstep).2]
        simp only [bestOf, List.map_cons, List.foldl_cons]

/-- C13 as stated fails when no step ends with a positive weight: under a custom factor
that is zero everywhere the current weight is 0 after every step and the current pose
is the translation `(1, 1, 3)`, but the pose returned is the initial best pose at the
origin, which no step replaced. -/
theorem mcmc_best_pose_counterexample :
    mcmc Sample.env (Sample.estimator (some Sample.zeroFactor) false) 3 []
      = .ok (Sample.translation 0 0 0 0, []) ∧
    (mcmcSeed Sample.env (Sample.estimator (some Sample.zeroFactor) false) 3 []).bind
        (fun seed => (mcmcTrace Sample.env (Sample.estimator (some Sample.zeroFactor) false) 3
          30 30 0 seed).map
          (fun tr => tr.map (fun s => (s.currentPose.loc_, s.currentWeight))))
      = .ok (List.replicate 30 (⟨1, 1, 3⟩, 0)) := by
  decide!

/-- C13, amended: a run of `mcmc` that returns gives a pose whose weight is the largest
of 0 and the current weights after the steps, hence at least the current weight after
every step; when that weight is positive, the pose is the current pose after the first
step that ends with that weight; when it is not, the pose is the initial best pose (the
default pose with weight 0), which no step has replaced. -/
theorem mcmc_returns_best_state {ρ : Type} (E : Env ρ) (pe : PoseEstimator) (n : Int)
    (g g1 : ρ) (best : kernel.se3) (h : mcmc E pe n g = .ok (best, g1)) :
    ∃ seed tr,
      mcmcSeed E pe n g = .ok seed ∧
      mcmcTrace E pe n (nStepsOf pe n).toNat (nStepsOf pe n).toNat 0 seed = .ok tr ∧
      tr.length = (nStepsOf pe n).toNat ∧
      best.getWeight = (tr.map (fun s => s.currentWeight)).foldl max 0 ∧
      (∀ s ∈ tr, s.currentWeight ≤ best.getWeight) ∧
      (0 < best.getWeight →
        ∃ pre s post, tr = pre ++ s :: post ∧ s.currentWeight = best.getWeight ∧
          (∀ t ∈ pre, t.currentWeight < best.getWeight) ∧
          best = s.currentPose.setWeight s.currentWeight) ∧
      (¬ 0 < best.getWeight → best = E.se3_default.setWeight 0) := by
  rw [mcmc_eq] at h
  split at h
  · cases h
  · rename_i seed hseed
    split at h
    · cases h
    · rename_i s1 hloop
      simp only [Except.ok.injEq, Prod.mk.injEq] at h
      obtain ⟨hb, _⟩ := h
      obtain ⟨tr, htr, hlen, hbest⟩ := mcmcLoop_trace E pe n _ _ _ _ _ hloop
      have hseedbest : seed.bestPose = E.se3_default.setWeight 0 := by
        unfold mcmcSeed at hseed
        split at hseed
        · cases hseed
        · simp only [Except.ok.injEq] at hseed
          rw [← hseed]
      have hw0 : seed.bestPose.getWeight = 0 := by rw [hseedbest]; rfl
      rw [hb] at hbest
      obtain ⟨h1, _, h3, h4⟩ :=
        bestOf_spec (tr.map (fun t => (t.currentPose, t.currentWeight))) seed.bestPose
      rw [← hbest] at h1 h3 h4
      rw [hw0] at h1 h4
      refine ⟨seed, tr, hseed, htr, hlen, ?_, ?_, ?_, ?_⟩
      · rw [h1, List.map_map]
        rfl
      · intro s hs
        exact h3 (s.currentPose, s.currentWeight) (List.mem_map.2 ⟨s, hs, rfl⟩)
      · intro hpos
        rcases h4 with ⟨he, _⟩ | ⟨pre, t, post, hl, hpre, _, he, hwt⟩
        · rw [he, hw0] at hpos
          exact absurd hpos (lt_irrefl _)
        · obtain ⟨pre1, rest, hsplit, hpre1, hrest⟩ := List.map_eq_append_iff.1 hl
          obtain ⟨s, post1, hrest2, hs, _⟩ := List.map_eq_cons_iff.1 hrest
          subst hs
          refine ⟨pre1, s, post1, by rw [hsplit, hrest2], hwt.symm, ?_, he⟩
          intro u hu
          rw [hwt]
          exact hpre (u.currentPose, u.currentWeight) (by
            rw [← hpre1]
            exact List.mem_map.2 ⟨u, hu, rfl⟩)
      · intro hnot
        rcases h4 with ⟨he, _⟩ | ⟨pre, t, post, _, _, hlt, _, hwt⟩
        · rw [he, hseedbest]
        · exact absurd (by rw [hwt]; exact hlt) hnot

/-- Witness of the amended C13: the chain on the three-point clouds returns the translation
`(1, 1, 3)` with the positive weight 10003/30000, the weight of a state of its trace. -/
theorem mcmc_returns_best_state_witness :
    ∃ seed tr,
      mcmcSeed Sample.env (Sample.estimator none false) 3 [] = .ok seed ∧
      mcmcTrace Sample.env (Sample.estimator none false) 3
        (nStepsOf (Sample.estimator none false) 3).toNat
        (nStepsOf (Sample.estimator none false) 3).toNat 0 seed = .ok tr ∧
      tr.length = (nStepsOf (Sample.estimator none false) 3).toNat ∧
      (Sample.translation 1 1 3 (10003 / 30000)).getWeight
        = (tr.map (fun s => s.currentWeight)).foldl max 0 ∧
      (∀ s ∈ tr, s.currentWeight ≤ (Sample.translation 1 1 3 (10003 / 30000)).getWeight) ∧
      ∃ pre s post, tr = pre ++ s :: post ∧
        s.currentWeight = (Sample.translation 1 1 3 (10003 / 30000)).getWeight ∧
        (∀ t ∈ pre, t.currentWeight < (Sample.translation 1 1 3 (10003 / 30000)).getWeight) ∧
        Sample.translation 1 1 3 (10003 / 30000) = s.currentPose.setWeight s.currentWeight := by
  obtain ⟨seed, tr, h1, h2, h3, h4, h5, h6, _⟩ :=
    mcmc_returns_best_state Sample.env (Sample.estimator none false) 3 [] []
      (Sample.translation 1 1 3 (10003 / 30000)) (by decide!)
  exact ⟨seed, tr, h1, h2, h3, h4, h5, h6 (by decide!)⟩

/-- With the step `metropolisHastings` the body of the loop with a step parameter is
the body of the loop. -/
theorem mcmcStepWith_eq {ρ : Type} (E : Env ρ) (pe : PoseEstimator) (n : Int)
    (nSteps i : Nat) (s : ChainState ρ) :
    mcmcStepWith E pe (metropolisHastings E pe) n nSteps i s = mcmcStep E pe n nSteps i s :=
  rfl

/-- With the step `metropolisHastings` the loop with a step parameter is the loop. -/
theorem mcmcLoopWith_eq {ρ : Type} (E : Env ρ) (pe : PoseEstimator) (n : Int)
    (nSteps remaining i : Nat) (s : ChainState ρ) :
    mcmcLoopWith E pe (metropolisHastings E pe) n nSteps remaining i s
      = mcmcLoop E pe n nSteps remaining i s := by
  induction remaining generalizing i s with
  | zero => rfl
  | succ k ih =>
    simp only [mcmcLoopWith, mcmcLoop, mcmcStepWith_eq]
    cases mcmcStep E pe n nSteps i s with
    | error e => rfl
    | ok s1 => exact ih (i + 1) s1

/-- With the step `metropolisHastings` the chain with a step parameter is `mcmc`. -/
theorem mcmcWith_eq {ρ : Type} (E : Env ρ) (pe : PoseEstimator) (n : Int) (g : ρ) :
    mcmcWith E pe (metropolisHastings E pe) n g = mcmc E pe n g := by
  unfold mcmcWith mcmc
  simp only
  cases metropolisHastings E pe E.se3_default 0 1 true n g with
  | error e => rfl
  | ok r =>
    simp only [mcmcLoopWith_eq]

/-- The body of the loop with a recording step: a step that returns has recorded one
call, not a first run, with the temperature of the index. -/
theorem mcmcStepWith_recordCalls {ρ : Type} (E : Env ρ) (pe : PoseEstimator)
    (step : StepFunction ρ) (n : Int) (nSteps i : Nat) (s s1 : ChainState ρ)
    (calls : List (Bool × weight_t))
    (h : mcmcStepWith E pe step n nSteps i s = .ok s1) :
    mcmcStepWith E pe (recordCalls step) n nSteps i (s.withCalls calls)
      = .ok (s1.withCalls (calls ++ [(false, Ti E i (nSteps / 5))])) := by
  simp only [mcmcStepWith] at h
  simp only [mcmcStepWith, ChainState.withCalls, recordCalls]
  split at h
  · cases h
  · rename_i hguard
    rw [if_neg hguard]
    split at h
    · cases h
    · rename_i r hr
      simp only [Except.ok.injEq] at h
      subst h
      simp only [hr]

/-- The loop with a recording step: a loop that returns has recorded one call per index,
in increasing order. -/
theorem mcmcLoopWith_recordCalls {ρ : Type} (E : Env ρ) (pe : PoseEstimator)
    (step : StepFunction ρ) (n : Int) (nSteps remaining i : Nat) (s s1 : ChainState ρ)
    (calls : List (Bool × weight_t))
    (h : mcmcLoopWith E pe step n nSteps remaining i s = .ok s1) :
    mcmcLoopWith E pe (recordCalls step) n nSteps remaining i (s.withCalls calls)
      = .ok (s1.withCalls
          (calls ++ (List.range' i remaining).map (fun j => (false, Ti E j (nSteps / 5))))) := by
  induction remaining generalizing i s calls with
  | zero =>
    simp only [mcmcLoopWith, Except.ok.injEq] at h
    subst h
    simp [mcmcLoopWith]
  | succ k ih =>
    simp only [mcmcLoopWith] at h
    split at h
    · cases h
    · rename_i s2 hstep
      simp only [mcmcLoopWith, mcmcStepWith_recordCalls E pe step n nSteps i s s2 calls hstep]
      rw [ih (i + 1) s2 _ h]
      simp only [List.range'_succ, List.map_cons, List.append_assoc, List.singleton_append]

/-- C20 as stated fails when a step throws: on an object model of three coincident
points (`objectSize_ = 0`) the first call of the step returns, the body of the loop
throws at the index 0 before its call, whatever the step is, and `mcmc` ends with that
error after one call, where `1 + nSteps = 31`. -/
theorem mcmc_calls_counterexample :
    (recordCalls (metropolisHastings Sample.env
        { Sample.estimator none false with
          objectSize_ := 0
          objectModel_ := ⟨[Sample.point kernel.KernelType.R3XS2P 0 0 0,
            Sample.point kernel.KernelType.R3XS2P 0 0 0,
            Sample.point kernel.KernelType.R3XS2P 0 0 0], none⟩ })
        Sample.env.se3_default 0 1 true 3 ([], [])).map (fun r => r.g.2)
      = .ok [(true, 1)] ∧
    (∀ (step : StepFunction (Sample.Tape × List (Bool × weight_t)))
        (s : ChainState (Sample.Tape × List (Bool × weight_t))),
      mcmcStepWith Sample.env
          { Sample.estimator none false with
            objectSize_ := 0
            objectModel_ := ⟨[Sample.point kernel.KernelType.R3XS2P 0 0 0,
              Sample.point kernel.KernelType.R3XS2P 0 0 0,
              Sample.point kernel.KernelType.R3XS2P 0 0 0], none⟩ } step 3 30 0 s
        = .error "Unexpected value for currentPose.loc_h_.") ∧
    mcmcWith Sample.env
        { Sample.estimator none false with
          objectSize_ := 0
          objectModel_ := ⟨[Sample.point kernel.KernelType.R3XS2P 0 0 0,
            Sample.point kernel.KernelType.R3XS2P 0 0 0,
            Sample.point kernel.KernelType.R3XS2P 0 0 0], none⟩ }
        (recordCalls (metropolisHastings Sample.env
          { Sample.estimator none false with
            objectSize_ := 0
            objectModel_ := ⟨[Sample.point kernel.KernelType.R3XS2P 0 0 0,
              Sample.point kernel.KernelType.R3XS2P 0 0 0,
              Sample.point kernel.KernelType.R3XS2P 0 0 0], none⟩ })) 3 ([], [])
      = .error "Unexpected value for currentPose.loc_h_." ∧
    mcmc Sample.env
        { Sample.estimator none false with
          objectSize_ := 0
          objectModel_ := ⟨[Sample.point kernel.KernelType.R3XS2P 0 0 0,
            Sample.point kernel.KernelType.R3XS2P 0 0 0,
            Sample.point kernel.KernelType.R3XS2P 0 0 0], none⟩ } 3 []
      = .error "Unexpected value for currentPose.loc_h_." ∧
    (nStepsOf (Sample.estimator none false) 3).toNat = 30 := by
  refine ⟨by decide!, ?_, by decide!, by decide!, by decide!⟩
  intro step s
  simp [mcmcStepWith, annealedPose, kernel.se3.setLocH, kernel.se3.setOriH]

/-- C20, amended: for `n ≥ 1` a run of `mcmc(n)` that returns has called
`metropolisHastings` exactly `1 + nSteps` times, `nSteps` being `10 n 4` in partial-view
mode and `10 n` otherwise: once with `firstRun = true` and the temperature 1, then for
`i = 0, ..., nSteps - 1` in increasing order with `firstRun = false` and the
temperature `Ti(i, nSteps/5)`. The calls are those recorded by the step itself when the
chain is run with the recording step. -/
theorem mcmc_calls_of_returning_run {ρ : Type} (E : Env ρ) (pe : PoseEstimator) (n : Int)
    (g g1 : ρ) (best : kernel.se3) (hn : 1 ≤ n) (h : mcmc E pe n g = .ok (best, g1)) :
    mcmcWith E pe (recordCalls (metropolisHastings E pe)) n (g, [])
      = .ok (best, (g1, (true, 1) :: (List.range (nStepsOf pe n).toNat).map
          (fun i => (false, Ti E i ((nStepsOf pe n).toNat / 5))))) ∧
    ((true, (1 : weight_t)) :: (List.range (nStepsOf pe n).toNat).map
        (fun i => (false, Ti E i ((nStepsOf pe n).toNat / 5)))).length
      = 1 + (nStepsOf pe n).toNat ∧
    ((nStepsOf pe n).toNat : Int) = (if pe.partialview_ = true then 10 * n * 4 else 10 * n) := by
  refine ⟨?_, ?_, ?_⟩
  · rw [← mcmcWith_eq] at h
    unfold mcmcWith at h ⊢
    simp only at h ⊢
    split at h
    · cases h
    · rename_i r hr
      split at h
      · cases h
      · rename_i s1 hloop
        simp only [Except.ok.injEq, Prod.mk.injEq] at h
        have hrec := mcmcLoopWith_recordCalls E pe (metropolisHastings E pe) n
          (nStepsOf pe n).toNat (nStepsOf pe n).toNat 0 _ s1 [(true, 1)] hloop
        simp only [recordCalls, hr, List.nil_append]
        simp only [ChainState.withCalls] at hrec
        rw [hrec]
        simp only [ChainState.withCalls, h.1, h.2, List.range_eq_range', List.singleton_append]
  · simp only [List.length_cons, List.length_map, List.length_range]
    omega
  · unfold nStepsOf
    split
    · rw [Int.toNat_of_nonneg (by omega)]
    · rw [Int.toNat_of_nonneg (by omega)]
      omega

/-- Witness of the amended C20: the chain on three points records 31 calls. -/
theorem mcmc_calls_of_returning_run_witness :
    ((mcmcWith Sample.env (Sample.estimator none false)
        (recordCalls (metropolisHastings Sample.env (Sample.estimator none false))) 3
        ([], [])).map (fun r => r.2.2.length)) = .ok 31 ∧
    ((mcmcWith Sample.env (Sample.estimator none false)
        (recordCalls (metropolisHastings Sample.env (Sample.estimator none false))) 3
        ([], [])).map (fun r => r.2.2.take 3))
      = .ok [(true, 1), (false, Ti Sample.env 0 6), (false, Ti Sample.env 1 6)] := by
  have h := (mcmc_calls_of_returning_run Sample.env (Sample.estimator none false) 3 [] []
    (Sample.translation 1 1 3 (10003 / 30000)) (by decide) (by decide!)).1
  rw [h]
  exact ⟨by decide!, by decide!⟩

/-- C28 fails on the code: the best pose is not compared with the seed state. The first
call seeds the chain with the translation `(1, 2, 3)` of weight 10001/10000, the step 0
accepts a pose of weight 10003/30000, and the pose returned has that smaller weight. -/
theorem mcmc_forgets_seed_state :
    (mcmcSeed Sample.env (Sample.estimator none false) 3 [0, 0, 0, 1, 0, 0]).map
        (fun s => (s.currentPose, s.currentWeight, s.bestPose.getWeight))
      = .ok (Sample.translation 1 2 3 1, 10001 / 10000, 0) ∧
    mcmc Sample.env (Sample.estimator none false) 3 [0, 0, 0, 1, 0, 0]
      = .ok (Sample.translation 1 1 3 (10003 / 30000), []) ∧
    (10003 / 30000 : ℚ) < 10001 / 10000 := by
  decide!

/-! ## Where the step takes its decisions -/

/-- C25 fails on the code: with one index (`n = 1`) the only index is below the square
root of the number of indices, the loop ends without a decision and the step throws
"Reached forbidden state.". -/
theorem metropolisHastings_forbidden_state_reached :
    propose Sample.env (Sample.estimator none false) Sample.env.se3_default true 1 []
      = (true, .found (Sample.translation 1 2 3 1) [0] [] 1) ∧
    metropolisHastings Sample.env (Sample.estimator none false) Sample.env.se3_default 0 1
      true 1 [] = .error "Reached forbidden state." := by
  decide!

/-- C27 fails on the code in partial-view mode: two poses with the same location and
orientation and the weight fields 2 and 1 get the scores 3 and 2. -/
theorem findMatchingScore_depends_on_weight_field :
    (Sample.translation 1 2 3 2).loc_ = (Sample.translation 1 2 3 1).loc_ ∧
    (Sample.translation 1 2 3 2).ori_ = (Sample.translation 1 2 3 1).ori_ ∧
    findMatchingScore Sample.env (Sample.estimator none true) (Sample.translation 1 2 3 2) = 3 ∧
    findMatchingScore Sample.env (Sample.estimator none true) (Sample.translation 1 2 3 1) = 2 := by
  decide!

/-- C29 fails on the code: in partial-view mode a failed `recomputeIndices` has already
overwritten the index list. Here the partial view under the first candidate is empty,
the list is left empty, and the lookup of the next iteration is out of range. -/
theorem independentLoop_draws_from_empty_list :
    recomputeIndices Sample.env Sample.oneSidedEstimator (Sample.translation 5 0 0 1) 3 []
      = (false, [], []) ∧
    propose Sample.env Sample.oneSidedEstimator Sample.env.se3_default true 3 []
      = (true, .failed "out_of_range" 1) ∧
    metropolisHastings Sample.env Sample.oneSidedEstimator Sample.env.se3_default 0 1 true 3 []
      = .error "out_of_range" := by
  decide!

/-- C23: for `n ≥ 1`, `recomputeIndices` returns false exactly when the partial view of
the object model from the direction of the viewpoint (in the frame of the pose, taken
from the object mean and normalised) has fewer than 20 indices; when it returns true the
index list has `min(|view|, n)` entries, all of them indices of the partial view, and no
duplicates, the shuffle being a permutation and the partial view free of duplicates. -/
theorem recomputeIndices_spec {ρ : Type} (E : Env ρ) (pe : PoseEstimator)
    (nextPose : kernel.se3) (n : Int) (g : ρ) (view : List Nat) (hn : 1 ≤ n)
    (hview : view = E.partialView pe.objectModel_
      (E.normalized ((viewpointInFrame E pe nextPose).sub (E.mean pe.objectModel_).loc_))
      pe.meshTol_ true true)
    (hperm : ∀ (l : List Nat) (g : ρ), (E.random_shuffle l g).1.Perm l)
    (hnodup : view.Nodup) :
    ((recomputeIndices E pe nextPose n g).1 = false ↔ view.length < 20) ∧
    ((recomputeIndices E pe nextPose n g).1 = true →
      (recomputeIndices E pe nextPose n g).2.1.length = min view.length n.toNat ∧
      (recomputeIndices E pe nextPose n g).2.1.Nodup ∧
      ∀ i ∈ (recomputeIndices E pe nextPose n g).2.1, i ∈ view) := by
  have hp := hperm view g
  by_cases hlt : view.length < 20
  · have hr : recomputeIndices E pe nextPose n g = (false, view, g) := by
      simp only [recomputeIndices, ← hview, if_pos hlt]
    rw [hr]
    exact ⟨⟨fun _ => hlt, fun _ => rfl⟩, fun h => (by cases h)⟩
  · by_cases hbig : 0 ≤ n ∧ ((E.random_shuffle view g).1.length : Int) > n
    · have hr : recomputeIndices E pe nextPose n g
          = (true, (E.random_shuffle view g).1.take n.toNat, (E.random_shuffle view g).2) := by
        simp only [recomputeIndices, ← hview, if_neg hlt, if_pos hbig]
      rw [hr]
      refine ⟨⟨fun h => (by cases h), fun h => absurd h hlt⟩, fun _ => ⟨?_, ?_, ?_⟩⟩
      · have hl : n.toNat ≤ view.length := by
          have := hbig.2
          rw [hp.length_eq] at this
          omega
        simp only [List.length_take, hp.length_eq]
        omega
      · exact (hp.nodup_iff.2 hnodup).sublist (List.take_sublist _ _)
      · intro i hi
        exact hp.subset ((List.take_subset _ _) hi)
    · have hr : recomputeIndices E pe nextPose n g
          = (true, (E.random_shuffle view g).1, (E.random_shuffle view g).2) := by
        simp only [recomputeIndices, ← hview, if_neg hlt, if_neg hbig]
      rw [hr]
      refine ⟨⟨fun h => (by cases h), fun h => absurd h hlt⟩, fun _ => ⟨?_, ?_, ?_⟩⟩
      · have hl : view.length ≤ n.toNat := by
          have h1 : ¬ ((E.random_shuffle view g).1.length : Int) > n := fun h2 =>
            hbig ⟨by omega, h2⟩
          rw [hp.length_eq] at h1
          omega
        simp only [hp.length_eq]
        omega
      · exact hp.nodup_iff.2 hnodup
      · intro i hi
        exact hp.subset hi

/-- Witness of C23: the line of 24 points seen under a pose that shows all of them,
with `n = 5`. -/
theorem recomputeIndices_spec_witness :
    ((recomputeIndices Sample.envReversing Sample.lineEstimator (Sample.translation (-1) 2 3 1)
        5 []).1 = false ↔ (List.range 24).length < 20) ∧
    (recomputeIndices Sample.envReversing Sample.lineEstimator (Sample.translation (-1) 2 3 1)
        5 []).2.1.length = min (List.range 24).length (5 : Int).toNat ∧
    (recomputeIndices Sample.envReversing Sample.lineEstimator (Sample.translation (-1) 2 3 1)
        5 []).2.1.Nodup ∧
    ∀ i ∈ (recomputeIndices Sample.envReversing Sample.lineEstimator
        (Sample.translation (-1) 2 3 1) 5 []).2.1, i ∈ List.range 24 :=
  have h := recomputeIndices_spec Sample.envReversing Sample.lineEstimator
    (Sample.translation (-1) 2 3 1) 5 [] (List.range 24) (by decide) (by decide!)
    (fun l _ => List.reverse_perm l) (List.nodup_range 24)
  ⟨h.1, h.2 (by decide!)⟩

/-- The power function of the concrete instance is at least its base for a base and an
exponent that are at least one. -/
theorem Sample.pow_ge_base (r y : ℚ) (hr : 1 ≤ r) (hy : 1 ≤ y) : r ≤ Sample.pow r y := by
  unfold Sample.pow
  have h1 : (1 : ℤ) ≤ ⌊y⌋ := Int.le_floor.2 (by simpa using hy)
  calc r = r ^ (1 : ℤ) := (zpow_one r).symm
    _ ≤ r ^ ⌊y⌋ := zpow_le_zpow_right₀ hr h1

/-- C26: in a later run that reaches the last index (proposal found, at least three
indices, no early abort before the last index), with a temperature in `(0, 0.5]`, a
threshold below 1 and a positive current weight, a proposal whose weight is at least
the current weight is stored, for the local and for the independent proposal; the power
function is taken to be at least its base for a base and an exponent at least one. -/
theorem metropolisHastings_accepts_improvement {ρ : Type} (E : Env ρ) (pe : PoseEstimator)
    (currentPose : kernel.se3) (currentWeight temperature : weight_t) (n : Int) (g : ρ)
    (independentProposal : Bool) (nextPose : kernel.se3) (indices : List Nat) (g1 : ρ)
    (c : Nat) (u : weight_t) (g2 : ρ) (ws : List weight_t) (nextWeight : weight_t)
    (hprop : propose E pe currentPose false n g
      = (independentProposal, .found nextPose indices g1 c))
    (hu : E.uniform g1 = (u, g2))
    (hlen : 3 ≤ indices.length)
    (hws : pointWeights E pe nextPose indices = .ok ws)
    (hno : ∀ pi, pi + 1 < indices.length → indices.length ≤ pi * pi →
      ¬ abortsAt E pe independentProposal currentWeight temperature u ws pi)
    (hnw : nextWeight = if pe.partialview_ = true then ws.sum / E.sqrt (indices.length : ℚ)
      else ws.sum / (indices.length : ℚ))
    (hT0 : 0 < temperature) (hT1 : temperature ≤ 1 / 2)
    (hu1 : u < 1)
    (hcw : 0 < currentWeight) (himp : currentWeight ≤ nextWeight)
    (hpow : ∀ r y : ℚ, 1 ≤ r → 1 ≤ y → r ≤ E.pow r y) :
    (∃ d, decOf E independentProposal nextWeight currentWeight temperature = .finite d ∧
      1 ≤ d) ∧
    metropolisHastings E pe currentPose currentWeight temperature false n g
      = .ok ⟨nextPose, nextWeight, g2, c, indices.length⟩ := by
  have hnwpos : 0 < nextWeight := lt_of_lt_of_le hcw himp
  have hr : 1 ≤ nextWeight / currentWeight := (one_le_div hcw).2 himp
  have hy : 1 ≤ 1 / temperature := by
    rw [le_div_iff₀ hT0]
    linarith
  have hp := hpow _ _ hr hy
  have hfin := decOf_finite E independentProposal nextWeight currentWeight temperature
    (ne_of_gt hcw) (ne_of_gt hT0) (lt_of_lt_of_le one_pos hr)
  have hdec : 1 ≤ (if independentProposal = true
      then E.pow (nextWeight / currentWeight) (1 / temperature)
        * (currentWeight / nextWeight)
      else E.pow (nextWeight / currentWeight) (1 / temperature)) := by
    split
    · have h1 : nextWeight / currentWeight * (currentWeight / nextWeight) = 1 := by
        field_simp
      calc (1 : ℚ) = nextWeight / currentWeight * (currentWeight / nextWeight) := h1.symm
        _ ≤ E.pow (nextWeight / currentWeight) (1 / temperature)
              * (currentWeight / nextWeight) :=
            mul_le_mul_of_nonneg_right hp (le_of_lt (div_pos hcw hnwpos))
    · exact le_trans hr hp
  refine ⟨⟨_, hfin, hdec⟩, ?_⟩
  have hne : indices ≠ [] := by
    intro h0
    rw [h0] at hlen
    simp at hlen
  have hwlen : ws.length = indices.length := mapExcept_length _ _ _ hws
  have hlast : nextWeightOf E pe ws.sum (indices.length - 1) = nextWeight := by
    rw [nextWeightOf_last E pe ws.sum indices.length (by omega), ← hnw]
  have hloop := pointLoop_decision E pe currentPose currentWeight temperature
    independentProposal nextPose u indices.length (last_index_evaluated _ hlen)
    indices 0 0 ws hws hne (by simp)
    (by
      intro j hj hev
      rw [zero_add] at hev ⊢
      rw [zero_add]
      by_cases hjl : j + 1 < indices.length
      · exact hno j hjl hev
      · have hj1 : j = indices.length - 1 := by omega
        have htake : ws.take (j + 1) = ws := by
          apply List.take_of_length_le
          omega
        rw [htake, hj1, hlast, hfin]
        intro hab
        simp only [Double.lt, decide_eq_true_eq] at hab
        linarith)
  rw [zero_add, hlast] at hloop
  have hgt : (decOf E independentProposal nextWeight currentWeight temperature).gt u
      = true := by
    rw [hfin]
    simp only [Double.gt, decide_eq_true_eq]
    linarith
  rw [if_pos hgt] at hloop
  simp only [metropolisHastings, hprop, hu, hloop]

/-- Witness of C26: the later step with a local proposal on three points, whose weight
equals the current weight. -/
theorem metropolisHastings_accepts_improvement_witness :
    (∃ d, decOf Sample.env false (10003 / 30000) (10003 / 30000) (1 / 20) = .finite d ∧
      1 ≤ d) ∧
    metropolisHastings Sample.env (Sample.estimator none false) (Sample.translation 1 1 3 1)
        (10003 / 30000) (1 / 20) false 3 [0, 0, 80, 2, 50]
      = .ok ⟨Sample.translation 2 1 3 1, 10003 / 30000, [], 1, ([2, 0, 1] : List Nat).length⟩ :=
  metropolisHastings_accepts_improvement Sample.env (Sample.estimator none false)
    (Sample.translation 1 1 3 1) (10003 / 30000) (1 / 20) 3 [0, 0, 80, 2, 50]
    false (Sample.translation 2 1 3 1) [2, 0, 1] [50] 1 (1 / 2) []
    [10001 / 10000, 1 / 10000, 1 / 10000] (10003 / 30000)
    (by decide!) (by decide!) (by decide) (by decide!)
    (fun pi h1 h2 => absurd h2 (by
      have h3 : pi < 2 := by
        have h4 : pi + 1 < 3 := h1
        omega
      interval_cases pi <;> decide))
    (by decide!) (by decide!) (by decide!) (by decide!) (by decide!) (by decide!)
    Sample.pow_ge_base


/-! ## Reading observations -/

theorem defConst_eq {α : Type} (sys : ProcessEnv)
    (numify : String → Except String α) (var : String) (val : α) :
    defConst sys numify var val =
      match sys.getenv ("NUKLEI_" ++ var) with
      | some envVal =>
        match numify envVal with
        | .error e => .error e
        | .ok v =>
          match sys.getenv "NUKLEI_LOG_LEVEL" with
          | some log =>
            match sys.numifyUnsigned log with
            | .error e => .error e
            | .ok _ => .ok v
          | none => .ok v
      | none => .ok val := rfl

/-- C19 as stated fails when `NUKLEI_LOG_LEVEL` does not parse: with
`NUKLEI_N_THREADS=4` and `NUKLEI_LOG_LEVEL=verbose` the content of the variable parses
to 4, and the initialisation of `N_THREADS` throws instead of giving 4. -/
theorem constants_log_level_counterexample :
    Sample.sysVerbose.getenv "NUKLEI_N_THREADS" = some "4" ∧
    Sample.sysVerbose.numifyUnsigned "4" = .ok 4 ∧
    N_THREADS Sample.sysVerbose = .error "bad lexical cast" := by
  decide!

/-- C19, amended: with no `NUKLEI_*` variable set the constants have their defaults
(0.2, 0.4, 12, 1e-4, 8, 0, false, 2, 0.1, 0.04, true). Each constant defined through
`initConst` has its default when its variable `NUKLEI_<NAME>` is not set; when it is
set, the value is the parsed content of the variable provided `NUKLEI_LOG_LEVEL` is not
set or parses as an unsigned number, and the initialisation throws when the content
parses and `NUKLEI_LOG_LEVEL` does not. -/
theorem constants_defaults (sys : ProcessEnv) :
    ((∀ var : String, sys.getenv ("NUKLEI_" ++ var) = none) →
      ROTATION_STDEV sys = .ok (2 / 10) ∧
      OBSERVATION_ORIENTATION_STDEV sys = .ok (4 / 10) ∧
      OBSERVATION_LOCATION_STDEV sys = .ok 12 ∧
      WHITE_NOISE_POWER sys = .ok (1 / 10000) ∧
      KDE_KTH_NEAREST_NEIGHBOR sys = .ok 8 ∧
      N_THREADS sys = .ok 0 ∧
      MCMC_NBP sys = .ok false ∧
      MCMC_NBP_N_CHAINS sys = .ok 2 ∧
      LOCSTDEVMIN = 1 / 10 ∧
      ORISTDEVMIN = 4 / 100 ∧
      NORMALIZE_DENSITIES = true) ∧
    (∀ (α : Type) (numify : String → Except String α) (var : String) (val : α),
      (sys.getenv ("NUKLEI_" ++ var) = none → defConst sys numify var val = .ok val) ∧
      (∀ envVal, sys.getenv ("NUKLEI_" ++ var) = some envVal →
        (sys.getenv "NUKLEI_LOG_LEVEL" = none ∨
          ∃ level log, sys.getenv "NUKLEI_LOG_LEVEL" = some log ∧
            sys.numifyUnsigned log = .ok level) →
        defConst sys numify var val = numify envVal) ∧
      (∀ envVal v log e, sys.getenv ("NUKLEI_" ++ var) = some envVal →
        numify envVal = .ok v → sys.getenv "NUKLEI_LOG_LEVEL" = some log →
        sys.numifyUnsigned log = .error e →
        defConst sys numify var val = .error e)) ∧
    ROTATION_STDEV sys = defConst sys sys.numifyCoord "ROTATION_STDEV" (2 / 10) ∧
    OBSERVATION_ORIENTATION_STDEV sys
      = defConst sys sys.numifyCoord "OBSERVATION_ORIENTATION_STDEV" (4 / 10) ∧
    OBSERVATION_LOCATION_STDEV sys
      = defConst sys sys.numifyCoord "OBSERVATION_LOCATION_STDEV" 12 ∧
    WHITE_NOISE_POWER sys
      = defConst sys sys.numifyCoord "WHITE_NOISE_POWER" (1 / 10000) ∧
    KDE_KTH_NEAREST_NEIGHBOR sys
      = defConst sys sys.numifyUnsigned "KDE_KTH_NEAREST_NEIGHBOR" 8 ∧
    N_THREADS sys = defConst sys sys.numifyUnsigned "N_THREADS" 0 ∧
    MCMC_NBP sys = defConst sys sys.numifyBool "MCMC_NBP" false ∧
    MCMC_NBP_N_CHAINS sys
      = defConst sys sys.numifyUnsigned "MCMC_NBP_N_CHAINS" 2 := by
  refine ⟨?_, ?_, rfl, rfl, rfl, rfl, rfl, rfl, rfl, rfl⟩
  · intro hunset
    have hd : ∀ (α : Type) (numify : String → Except String α) (var : String) (val : α),
        defConst sys numify var val = .ok val := by
      intro α numify var val
      rw [defConst_eq, hunset var]
    exact ⟨hd _ _ _ _, hd _ _ _ _, hd _ _ _ _, hd _ _ _ _, hd _ _ _ _, hd _ _ _ _,
      hd _ _ _ _, hd _ _ _ _, rfl, rfl, rfl⟩
  · intro α numify var val
    refine ⟨?_, ?_, ?_⟩
    · intro h
      rw [defConst_eq, h]
    · intro envVal h hlog
      rw [defConst_eq, h]
      rcases hn : numify envVal with e | v
      · simp only [hn]
      · rcases hlog with hlog | ⟨level, log, hlog, hparse⟩
        · simp only [hn, hlog]
        · simp only [hn, hlog, hparse]
    · intro envVal v log e h hn hlog hparse
      rw [defConst_eq, h]
      simp only [hn, hlog, hparse]

/-- C19, at concrete inputs: a process with no variable set has the defaults; a process
with `NUKLEI_N_THREADS=4` and no log level has `N_THREADS = 4`; with an unparsable log
level the initialisation throws. -/
theorem constants_defaults_witness :
    (ROTATION_STDEV Sample.sysUnset = .ok (2 / 10) ∧
      N_THREADS Sample.sysUnset = .ok 0 ∧
      MCMC_NBP_N_CHAINS Sample.sysUnset = .ok 2) ∧
    N_THREADS Sample.sysSet = .ok 4 ∧
    MCMC_NBP_N_CHAINS Sample.sysSet = .error "bad lexical cast" ∧
    MCMC_NBP Sample.sysSet = .ok false ∧
    defConst Sample.sysVerbose Sample.sysVerbose.numifyUnsigned "N_THREADS" 0
      = .error "bad lexical cast" := by
  have h := constants_defaults Sample.sysUnset
  have h0 := h.1 (fun _ => rfl)
  have hs := (constants_defaults Sample.sysSet).2.1
  have hv := (constants_defaults Sample.sysVerbose).2.1
  refine ⟨⟨h0.1, h0.2.2.2.2.2.1, h0.2.2.2.2.2.2.2.1⟩, ?_, ?_, ?_, ?_⟩
  · exact ((hs Nat Sample.sysSet.numifyUnsigned "N_THREADS" 0).2.1 "4" (by decide)
      (Or.inl (by decide))).trans (by decide!)
  · exact ((hs Nat Sample.sysSet.numifyUnsigned "MCMC_NBP_N_CHAINS" 2).2.1 "two"
      (by decide) (Or.inl (by decide))).trans (by decide!)
  · exact (hs Bool Sample.sysSet.numifyBool "MCMC_NBP" false).1 (by decide)
  · exact (hv Nat Sample.sysVerbose.numifyUnsigned "N_THREADS" 0).2.2 "4" 4 "verbose"
      "bad lexical cast" (by decide) (by decide!) (by decide) (by decide!)

/-! ## Normals in the conversion tool -/

theorem normalOf_ok (diff : Vector3 → Matrix3 × Vector3 × coord_t)
    (missingDescriptor : Option String) (i : convert.Input)
    (hdesc : missingDescriptor = none ∨ i.descriptor ≠ none) :
    (∃ k, convert.normalOf diff missingDescriptor i = .ok (some k) ∧
        ¬ (diff i.loc).2.2 = 0 ∧ k.loc_ = i.loc ∧ k.w_ = i.weight) ∨
      (convert.normalOf diff missingDescriptor i = .ok none ∧ (diff i.loc).2.2 = 0) := by
  unfold convert.normalOf
  by_cases h : (diff i.loc).2.2 = 0
  · right
    simp [h]
  · left
    simp only [h, if_false]
    by_cases hr : convert.ratioBelowTwo (diff i.loc).2.1.x (diff i.loc).2.1.y
        (diff i.loc).2.1.z = true
    · simp only [hr, if_true]
      cases hd : i.descriptor with
      | some d => exact ⟨_, rfl, not_false, rfl, rfl⟩
      | none =>
        rcases hdesc with hm | hm
        · subst hm
          exact ⟨_, rfl, not_false, rfl, rfl⟩
        · exact absurd hd hm
    · simp only [hr]
      exact ⟨_, rfl, not_false, rfl, rfl⟩

/-- With `make_r3xs2p` and a SERIAL writer, when no lookup of a descriptor throws, the
block returns for every list of buffered observations; an observation is skipped
exactly when the third component of its local location differential is 0; the
observations written and the skipped ones add up to the inputs; the observations
written carry the locations and weights of the inputs that are not skipped, in input
order; the warning is emitted exactly when the skipped count is positive. -/
theorem makeR3xS2P_spec (diff : Vector3 → Matrix3 × Vector3 × coord_t)
    (missingDescriptor : Option String) (observations : List convert.Input)
    (hdesc : missingDescriptor = none ∨ ∀ i ∈ observations, i.descriptor ≠ none) :
    ∃ out skipped warn,
      convert.makeR3xS2P diff missingDescriptor "" convert.WriterType.SERIAL observations
        = .ok (out, skipped, warn) ∧
      (∀ i ∈ observations,
        convert.normalOf diff missingDescriptor i = .ok none ↔ (diff i.loc).2.2 = 0) ∧
      skipped = (observations.filter (fun i => decide ((diff i.loc).2.2 = 0))).length ∧
      out.length + skipped = observations.length ∧
      out.map (fun k => (k.loc_, k.w_))
        = (observations.filter (fun i => !decide ((diff i.loc).2.2 = 0))).map
            (fun i => (i.loc, i.weight)) ∧
      (warn = true ↔ skipped > 0) := by
  have hloop : ∃ out skipped,
      convert.normalsLoop diff missingDescriptor observations = .ok (out, skipped) ∧
      skipped = (observations.filter (fun i => decide ((diff i.loc).2.2 = 0))).length ∧
      out.length + skipped = observations.length ∧
      out.map (fun k => (k.loc_, k.w_))
        = (observations.filter (fun i => !decide ((diff i.loc).2.2 = 0))).map
            (fun i => (i.loc, i.weight)) := by
    induction observations with
    | nil => exact ⟨[], 0, rfl, rfl, rfl, rfl⟩
    | cons i rest ih =>
      have hrest : missingDescriptor = none ∨ ∀ j ∈ rest, j.descriptor ≠ none :=
        hdesc.imp id (fun h j hj => h j (List.mem_cons_of_mem _ hj))
      have hi : missingDescriptor = none ∨ i.descriptor ≠ none :=
        hdesc.imp id (fun h => h i (List.mem_cons_self _ _))
      obtain ⟨out, skipped, hl, hs, hlen, hmap⟩ := ih hrest
      rcases normalOf_ok diff missingDescriptor i hi with ⟨k, hk, h0, hloc, hw⟩ | ⟨hk, h0⟩
      · refine ⟨k :: out, skipped, ?_, ?_, ?_, ?_⟩
        · simp only [convert.normalsLoop, hk, hl]
        · simp only [List.filter_cons, h0, decide_False, Bool.false_eq_true, if_false]
          exact hs
        · simp only [List.length_cons]
          omega
        · simp only [List.filter_cons, h0, decide_False, Bool.not_false, if_true,
            List.map_cons, hloc, hw, hmap]
      · refine ⟨out, skipped + 1, ?_, ?_, ?_, ?_⟩
        · simp only [convert.normalsLoop, hk, hl]
        · simp only [List.filter_cons, h0, decide_True, if_true, List.length_cons]
          omega
        · simp only [List.length_cons]
          omega
        · simp only [List.filter_cons, h0, decide_True, Bool.not_true, Bool.false_eq_true,
            if_false]
          exact hmap
  obtain ⟨out, skipped, hl, hs, hlen, hmap⟩ := hloop
  refine ⟨out, skipped, decide (skipped > 0), ?_, ?_, hs, hlen, hmap, by simp⟩
  · simp [convert.makeR3xS2P, hl]
  · intro i hi
    have hi2 : missingDescriptor = none ∨ i.descriptor ≠ none :=
      hdesc.imp id (fun h => h i hi)
    rcases normalOf_ok diff missingDescriptor i hi2 with ⟨k, hk, h0, -, -⟩ | ⟨hk, h0⟩
    · rw [hk]
      simp [h0]
    · rw [hk]
      simp [h0]

/-- The block at a concrete input: three buffered observations, the second with an
undefined differential, and a descriptor lookup that does not throw. -/
theorem makeR3xS2P_spec_witness :
    convert.makeR3xS2P Sample.localLocationDifferential none "" convert.WriterType.SERIAL
        Sample.buffered
      = .ok ([⟨⟨1, 0, 0⟩, ⟨0, 0, 1⟩, 5, none⟩,
              ⟨⟨2, 0, 0⟩, ⟨0, 0, 1⟩, 7, some ⟨true, ⟨1, 0, 0⟩⟩⟩], 1, true) ∧
    ∃ out skipped warn,
      convert.makeR3xS2P Sample.localLocationDifferential none "" convert.WriterType.SERIAL
          Sample.buffered = .ok (out, skipped, warn) ∧
        out.length + skipped = Sample.buffered.length ∧ (warn = true ↔ skipped > 0) := by
  refine ⟨by decide!, ?_⟩
  obtain ⟨out, skipped, warn, h1, -, -, h4, -, h6⟩ :=
    makeR3xS2P_spec Sample.localLocationDifferential none Sample.buffered (Or.inl rfl)
  exact ⟨out, skipped, warn, h1, h4, h6⟩

/-- C24 fails on the code: the first of three buffered observations has no descriptor,
its local differential is defined and the quotient of line 197 is below 2, so line 199
looks up the descriptor of a kernel that has none; the lookup throws and the block
ends with that error, without output observations, skipped count or warning. -/
theorem makeR3xS2P_missing_descriptor :
    Sample.buffered.map (fun i => i.descriptor.isSome) = [false, false, true] ∧
    (Sample.localLocationDifferential ⟨1, 0, 0⟩).2.2 ≠ 0 ∧
    convert.ratioBelowTwo (Sample.localLocationDifferential ⟨1, 0, 0⟩).2.1.x
      (Sample.localLocationDifferential ⟨1, 0, 0⟩).2.1.y
      (Sample.localLocationDifferential ⟨1, 0, 0⟩).2.1.z = true ∧
    convert.normalOf Sample.localLocationDifferential (some "assertion failed")
      ⟨⟨1, 0, 0⟩, 5, none⟩ = .error "assertion failed" ∧
    convert.makeR3xS2P Sample.localLocationDifferential (some "assertion failed") ""
        convert.WriterType.SERIAL Sample.buffered = .error "assertion failed" := by
  decide!

/-! ## Eigendecomposition -/

theorem isEigenpairWithin_neg (sym : Matrix3) (tol value : coord_t) (v : Vector3)
    (h : la.IsEigenpairWithin sym tol value v) : la.IsEigenpairWithin sym tol value v.neg := by
  unfold la.IsEigenpairWithin Matrix3.mulVec Vector3.neg at *
  simp only at h ⊢
  obtain ⟨h1, h2, h3⟩ := h
  refine ⟨?_, ?_, ?_⟩
  · rw [← abs_neg]
    convert h1 using 2
    ring
  · rw [← abs_neg]
    convert h2 using 2
    ring
  · rw [← abs_neg]
    convert h3 using 2
    ring

/-- For the tolerance 0 the pair is an eigenpair: the product of the matrix and the
vector is the vector times the value. -/
theorem isEigenpairWithin_zero (sym : Matrix3) (value : coord_t) (v : Vector3) :
    la.IsEigenpairWithin sym 0 value v ↔ sym.mulVec v = v.smul value := by
  unfold la.IsEigenpairWithin Vector3.smul
  simp only [abs_nonpos_iff, sub_eq_zero]
  constructor
  · intro h
    cases hv : sym.mulVec v with
    | mk a b c =>
      rw [hv] at h
      simp only at h
      rw [h.1, h.2.1, h.2.2]
  · intro h
    rw [h]
    exact ⟨rfl, rfl, rfl⟩

theorem dot_neg (a b : Vector3) : a.Dot b.neg = - a.Dot b := by
  unfold Vector3.Dot Vector3.neg
  ring

theorem eigenDecomposition_eq (symmv : Matrix3 → la.EigenSystem) (sym : Matrix3) :
    la.eigenDecomposition symmv sym =
      (if ((la.gsl_eigen_symmv_sort (symmv sym)).evec.col0.Cross
            (la.gsl_eigen_symmv_sort (symmv sym)).evec.col1).Dot
            (la.gsl_eigen_symmv_sort (symmv sym)).evec.col2 < 0
        then ⟨(la.gsl_eigen_symmv_sort (symmv sym)).evec.col0,
          (la.gsl_eigen_symmv_sort (symmv sym)).evec.col1,
          (la.gsl_eigen_symmv_sort (symmv sym)).evec.col2.neg⟩
        else ⟨(la.gsl_eigen_symmv_sort (symmv sym)).evec.col0,
          (la.gsl_eigen_symmv_sort (symmv sym)).evec.col1,
          (la.gsl_eigen_symmv_sort (symmv sym)).evec.col2⟩,
       ⟨(la.gsl_eigen_symmv_sort (symmv sym)).eval0, (la.gsl_eigen_symmv_sort (symmv sym)).eval1,
         (la.gsl_eigen_symmv_sort (symmv sym)).eval2⟩) := rfl

/-- The sort returns the pairs reordered, in descending absolute value. -/
theorem gsl_eigen_symmv_sort_sorts (s : la.EigenSystem) :
    (la.gsl_eigen_symmv_sort s).pairs.Perm s.pairs ∧
      |(la.gsl_eigen_symmv_sort s).eval1| ≤ |(la.gsl_eigen_symmv_sort s).eval0| ∧
      |(la.gsl_eigen_symmv_sort s).eval2| ≤ |(la.gsl_eigen_symmv_sort s).eval1| := by
  obtain ⟨a, b, c, ⟨u, v, w⟩⟩ := s
  unfold la.gsl_eigen_symmv_sort la.EigenSystem.pairs
  simp only
  split_ifs <;> simp only <;> refine ⟨?_, ?_, ?_⟩ <;>
    first
      | exact List.Perm.refl _
      | exact (List.Perm.swap _ _ []).cons _
      | exact List.Perm.swap _ _ _
      | exact ((List.Perm.swap _ _ []).cons _).trans (List.Perm.swap _ _ _)
      | exact (List.Perm.swap _ _ _).trans ((List.Perm.swap _ _ []).cons _)
      | exact ((List.Perm.swap _ _ []).cons _).trans
          ((List.Perm.swap _ _ _).trans ((List.Perm.swap _ _ []).cons _))
      | (simp only [gt_iff_lt, not_and_or, not_lt] at *
         first
           | linarith
           | (rcases ‹_ ∨ _› with h | h <;> linarith))

/-- C18: for every input of `la::eigenDecomposition` and whatever the solver delivers,
the matrix returned is right-handed; the values and the first two columns are those of
the solver output sorted by descending absolute value, which are the pairs of the
solver reordered; the third column is the sorted third column or its negation; the
values descend in absolute value; and when the pairs of the solver are eigenpairs of
the input up to a tolerance (exactly, for the tolerance 0), so are the three pairs
returned. -/
theorem eigenDecomposition_spec (symmv : Matrix3 → la.EigenSystem) (sym : Matrix3) :
    0 ≤ ((la.eigenDecomposition symmv sym).1.col0.Cross
          (la.eigenDecomposition symmv sym).1.col1).Dot
          (la.eigenDecomposition symmv sym).1.col2 ∧
      (la.eigenDecomposition symmv sym).2
        = ⟨(la.gsl_eigen_symmv_sort (symmv sym)).eval0,
            (la.gsl_eigen_symmv_sort (symmv sym)).eval1,
            (la.gsl_eigen_symmv_sort (symmv sym)).eval2⟩ ∧
      (la.eigenDecomposition symmv sym).1.col0
        = (la.gsl_eigen_symmv_sort (symmv sym)).evec.col0 ∧
      (la.eigenDecomposition symmv sym).1.col1
        = (la.gsl_eigen_symmv_sort (symmv sym)).evec.col1 ∧
      ((la.eigenDecomposition symmv sym).1.col2
          = (la.gsl_eigen_symmv_sort (symmv sym)).evec.col2 ∨
        (la.eigenDecomposition symmv sym).1.col2
          = (la.gsl_eigen_symmv_sort (symmv sym)).evec.col2.neg) ∧
      (la.gsl_eigen_symmv_sort (symmv sym)).pairs.Perm (symmv sym).pairs ∧
      |(la.eigenDecomposition symmv sym).2.y| ≤ |(la.eigenDecomposition symmv sym).2.x| ∧
      |(la.eigenDecomposition symmv sym).2.z| ≤ |(la.eigenDecomposition symmv sym).2.y| ∧
      (∀ tol : coord_t,
        (∀ p ∈ (symmv sym).pairs, la.IsEigenpairWithin sym tol p.1 p.2) →
        la.IsEigenpairWithin sym tol (la.eigenDecomposition symmv sym).2.x
          (la.eigenDecomposition symmv sym).1.col0 ∧
        la.IsEigenpairWithin sym tol (la.eigenDecomposition symmv sym).2.y
          (la.eigenDecomposition symmv sym).1.col1 ∧
        la.IsEigenpairWithin sym tol (la.eigenDecomposition symmv sym).2.z
          (la.eigenDecomposition symmv sym).1.col2) := by
  obtain ⟨hperm, hord1, hord2⟩ := gsl_eigen_symmv_sort_sorts (symmv sym)
  have hpairs : ∀ tol : coord_t,
      (∀ p ∈ (symmv sym).pairs, la.IsEigenpairWithin sym tol p.1 p.2) →
      la.IsEigenpairWithin sym tol (la.gsl_eigen_symmv_sort (symmv sym)).eval0
        (la.gsl_eigen_symmv_sort (symmv sym)).evec.col0 ∧
      la.IsEigenpairWithin sym tol (la.gsl_eigen_symmv_sort (symmv sym)).eval1
        (la.gsl_eigen_symmv_sort (symmv sym)).evec.col1 ∧
      la.IsEigenpairWithin sym tol (la.gsl_eigen_symmv_sort (symmv sym)).eval2
        (la.gsl_eigen_symmv_sort (symmv sym)).evec.col2 := by
    intro tol heig
    have hs : ∀ p ∈ (la.gsl_eigen_symmv_sort (symmv sym)).pairs,
        la.IsEigenpairWithin sym tol p.1 p.2 :=
      fun p hp => heig p (hperm.mem_iff.1 hp)
    exact ⟨hs (_, _) (List.mem_cons_self _ _),
      hs (_, _) (List.mem_cons_of_mem _ (List.mem_cons_self _ _)),
      hs (_, _) (List.mem_cons_of_mem _ (List.mem_cons_of_mem _ (List.mem_cons_self _ _)))⟩
  rw [eigenDecomposition_eq]
  by_cases hneg : ((la.gsl_eigen_symmv_sort (symmv sym)).evec.col0.Cross
      (la.gsl_eigen_symmv_sort (symmv sym)).evec.col1).Dot
      (la.gsl_eigen_symmv_sort (symmv sym)).evec.col2 < 0
  · rw [if_pos hneg]
    refine ⟨?_, rfl, rfl, rfl, Or.inr rfl, hperm, hord1, hord2, ?_⟩
    · show 0 ≤ ((la.gsl_eigen_symmv_sort (symmv sym)).evec.col0.Cross
        (la.gsl_eigen_symmv_sort (symmv sym)).evec.col1).Dot
        (la.gsl_eigen_symmv_sort (symmv sym)).evec.col2.neg
      rw [dot_neg]
      linarith
    · intro tol heig
      obtain ⟨e0, e1, e2⟩ := hpairs tol heig
      exact ⟨e0, e1, isEigenpairWithin_neg _ _ _ _ e2⟩
  · rw [if_neg hneg]
    exact ⟨not_lt.1 hneg, rfl, rfl, rfl, Or.inl rfl, hperm, hord1, hord2, hpairs⟩

/-- C18, at a concrete input: a symmetric matrix with irrational eigenvalues and a
solver with three decimals that delivers the values in ascending order with a
left-handed frame. The values are returned in descending absolute value, the third
column is negated, and the pairs returned are eigenpairs up to 1/1000 as those of the
solver are. -/
theorem eigenDecomposition_spec_witness :
    la.eigenDecomposition Sample.symmv Sample.symmetric
        = (⟨⟨1618 / 1000, 1, 0⟩, ⟨-618 / 1000, 1, 0⟩, ⟨0, 0, 1⟩⟩,
            ⟨1618 / 1000, -618 / 1000, 0⟩) ∧
      (∀ p ∈ (Sample.symmv Sample.symmetric).pairs,
        la.IsEigenpairWithin Sample.symmetric (1 / 1000) p.1 p.2) ∧
      la.IsEigenpairWithin Sample.symmetric (1 / 1000)
          (la.eigenDecomposition Sample.symmv Sample.symmetric).2.x
          (la.eigenDecomposition Sample.symmv Sample.symmetric).1.col0 ∧
      la.IsEigenpairWithin Sample.symmetric (1 / 1000)
          (la.eigenDecomposition Sample.symmv Sample.symmetric).2.y
          (la.eigenDecomposition Sample.symmv Sample.symmetric).1.col1 ∧
      la.IsEigenpairWithin Sample.symmetric (1 / 1000)
          (la.eigenDecomposition Sample.symmv Sample.symmetric).2.z
          (la.eigenDecomposition Sample.symmv Sample.symmetric).1.col2 :=
  have heig : ∀ p ∈ (Sample.symmv Sample.symmetric).pairs,
      la.IsEigenpairWithin Sample.symmetric (1 / 1000) p.1 p.2 := by decide!
  ⟨by decide!, heig,
    (eigenDecomposition_spec Sample.symmv Sample.symmetric).2.2.2.2.2.2.2.2 (1 / 1000) heig⟩

end nuklei
